import Mathlib

/-!
Verification development for the `doubleBufferedMatrix` engine
(`doubleBufferedMatrix.c`): a resizable matrix of doubles that is partially
resident in memory (a FIFO column cache plus an optional row window) and
partially stored in one binary file per column.

The C code is shallowly embedded.  IEEE doubles are modelled by the type `D`
below: a rational payload plus the special values NaN, `+inf` and `-inf`
(rounding of finite arithmetic is not modelled; the claims under study only
move values around, compare them, or average two of them).  The mutable
`struct _double_buffered_matrix` becomes the record `DBM`, where the C arrays
`coldata`, `rowdata`, `which_cols` and the per-column files become total
functions from indices; the in-use portion of each array is delimited by the
same quantities the C code uses (`rows`, `cols`, `min(cols, max_cols)`,
`max_rows`).  Each `dbm_*` function is translated statement by statement;
functions that mutate the struct take and return a `DBM`, and functions that
also return a C `int` status return it as a `Nat` with the same 0/1
convention as the source.
-/

/-- Model of a C `double`: NaN, the two infinities, or a finite value
(modelled as a rational; IEEE rounding is not modelled). -/
inductive D where
  | NaN : D
  | NegInf : D
  | PosInf : D
  | val : ℚ → D
deriving DecidableEq, Repr

/-- The zero double, as produced by `memset(0)` / `Calloc`. -/
def dzero : D := D.val 0

/-- IEEE `<` on doubles: any comparison with NaN is false. -/
def dlt : D → D → Bool
  | D.NaN, _ => false
  | _, D.NaN => false
  | D.PosInf, _ => false
  | _, D.PosInf => true
  | D.NegInf, D.NegInf => false
  | D.NegInf, _ => true
  | _, D.NegInf => false
  | D.val a, D.val b => decide (a < b)

/-- IEEE `!=` on doubles: NaN is unequal to everything, itself included. -/
def dne : D → D → Bool
  | D.NaN, _ => true
  | _, D.NaN => true
  | a, b => decide (a ≠ b)

/-- The C `ISNAN` macro. -/
def dIsNaN : D → Bool
  | D.NaN => true
  | _ => false

/-- IEEE addition on the model (finite arithmetic exact; `inf + -inf = NaN`). -/
def dadd : D → D → D
  | D.NaN, _ => D.NaN
  | _, D.NaN => D.NaN
  | D.PosInf, D.NegInf => D.NaN
  | D.NegInf, D.PosInf => D.NaN
  | D.PosInf, _ => D.PosInf
  | _, D.PosInf => D.PosInf
  | D.NegInf, _ => D.NegInf
  | _, D.NegInf => D.NegInf
  | D.val a, D.val b => D.val (a + b)

/-- Division by two, used when averaging the two central order statistics. -/
def dhalf : D → D
  | D.val a => D.val (a / 2)
  | x => x

/-- Insert into a list sorted by `dlt` (used to model sorting a buffer of
non-NaN doubles). -/
def dinsert (x : D) : List D → List D
  | [] => [x]
  | y :: ys => if dlt y x then y :: dinsert x ys else x :: y :: ys

/-- Insertion sort by `dlt`; on NaN-free buffers this matches any
comparison sort the C library would use. -/
def dsort : List D → List D
  | [] => []
  | x :: xs => dinsert x (dsort xs)

/-- Value placed at index `k` by `rPsort(buf, n, k)`: the `k`-th order
statistic of the buffer (`rPsort` partially sorts so that index `k` holds
exactly the value it would have after a full sort). -/
def rPsortVal (buf : List D) (k : Nat) : D := (dsort buf).getD k D.NaN

/-- The `struct _double_buffered_matrix`.  Arrays are modelled as total
functions; the live index ranges are exactly the ones the C code uses
(`which_cols`/`coldata` live below `min(cols, max_cols)`, `rowdata` below
`cols` with segments of `max_rows` doubles, each file holds `rows` doubles).
The per-column temporary files are indexed directly by column number
(`filenames[j]` always refers to column `j` in the source). -/
structure DBM where
  rows : Nat
  cols : Nat
  max_cols : Nat
  max_rows : Nat
  coldata : Nat → Nat → D
  rowdata : Nat → Nat → D
  first_rowdata : Nat
  which_cols : Nat → Nat
  files : Nat → Nat → D
  rowcolclash : Bool
  clash_row : Nat
  clash_col : Nat
  colmode : Bool
  readonly : Bool

/-- The recurring C idiom
`if (cols < max_cols) lastcol = cols; else lastcol = max_cols;`:
the number of live column-cache slots. -/
def lastcol (M : DBM) : Nat := if M.cols < M.max_cols then M.cols else M.max_cols

/-- Downward scan of `which_cols` from slot `n - 1`, as in `dbm_InColBuffer`:
returns the highest slot below `n` holding `col`. -/
def searchDown (w : Nat → Nat) (col : Nat) : Nat → Option Nat
  | 0 => none
  | n + 1 => if w n = col then some n else searchDown w col n

/-- Upward scan of `fuel` slots starting at `cur`, as in the
`while (curcol < lastcol)` loop of `dbm_ClearClash`: returns the first slot
holding `col`, or `cur + fuel` if there is none. -/
def searchUpFrom (w : Nat → Nat) (col : Nat) : Nat → Nat → Nat
  | 0, cur => cur
  | fuel + 1, cur => if w cur = col then cur else searchUpFrom w col fuel (cur + 1)

/-- The `dbm_SetClash` internal function. -/
def dbm_SetClash (M : DBM) (row col : Nat) : DBM :=
  { M with rowcolclash := true, clash_row := row, clash_col := col }

/-- The `dbm_ClearClash` internal function: find the cache slot of
`clash_col` by upward scan, and if the row-window copy of the clash cell
differs (IEEE `!=`) from the cache copy, overwrite the cache copy. -/
def dbm_ClearClash (M : DBM) : DBM :=
  let curcol := searchUpFrom M.which_cols M.clash_col (lastcol M) 0
  let v := M.rowdata M.clash_col (M.clash_row - M.first_rowdata)
  let M' :=
    if dne v (M.coldata curcol M.clash_row) then
      { M with coldata := fun a b =>
          if a = curcol ∧ b = M.clash_row then v else M.coldata a b }
    else M
  { M' with rowcolclash := false }

/-- The `dbm_InRowBuffer` internal function (the column argument is unused
in the source as well). -/
def dbm_InRowBuffer (M : DBM) (row : Nat) : Bool :=
  decide (M.first_rowdata ≤ row ∧ row < M.first_rowdata + M.max_rows)

/-- The `dbm_InColBuffer` internal function: downward scan of the live
cache slots for `col`; `some k` plays the role of returning 1 with
`*which_col_index = k`. -/
def dbm_InColBuffer (M : DBM) (col : Nat) : Option Nat :=
  searchDown M.which_cols col (lastcol M)

/-- The `dbm_FlushRowBuffer` internal function: for every column `j`, write
the `max_rows` doubles of its row-window segment into file `j` at offset
`first_rowdata`. -/
def dbm_FlushRowBuffer (M : DBM) : DBM :=
  { M with files := fun j r =>
      if j < M.cols ∧ M.first_rowdata ≤ r ∧ r < M.first_rowdata + M.max_rows then
        M.rowdata j (r - M.first_rowdata)
      else M.files j r }

/-- The `dbm_FlushOldestColumn` internal function: write the `rows` doubles
of cache slot 0 to the file of column `which_cols[0]`. -/
def dbm_FlushOldestColumn (M : DBM) : DBM :=
  { M with files := fun j r =>
      if j = M.which_cols 0 ∧ r < M.rows then M.coldata 0 r else M.files j r }

/-- One step of `dbm_FlushAllColumns`: flush cache slot `k`. -/
def flushSlot (M : DBM) (k : Nat) : DBM :=
  { M with files := fun j r =>
      if j = M.which_cols k ∧ r < M.rows then M.coldata k r else M.files j r }

/-- Flush cache slots `0, 1, ..., n-1` in order. -/
def flushSlots (M : DBM) : Nat → DBM
  | 0 => M
  | n + 1 => flushSlot (flushSlots M n) n

/-- The `dbm_FlushAllColumns` internal function. -/
def dbm_FlushAllColumns (M : DBM) : DBM := flushSlots M (lastcol M)

/-- The `dbm_LoadNewColumn` internal function: shift the cache down one slot
(evicting slot 0), place `col` in the last live slot and read its file into
the recycled buffer. -/
def dbm_LoadNewColumn (M : DBM) (col : Nat) : DBM :=
  let lc := lastcol M
  { M with
    which_cols := fun k =>
      if k + 1 < lc then M.which_cols (k + 1)
      else if k + 1 = lc then col
      else M.which_cols k,
    coldata := fun k r =>
      if k + 1 < lc then M.coldata (k + 1) r
      else if k + 1 = lc then M.files col r
      else M.coldata k r }

/-- The `dbm_LoadRowBuffer` internal function.  The new `first_rowdata` is
computed with C `int` arithmetic (`row > rows - max_rows` clamps to the
bottom of the matrix); every row-window segment is read from its file and
then, for each column found in the cache by the ascending overlay loop, the
segment is overwritten from the cache copy (the last matching slot wins,
which is exactly the highest slot, i.e. the `dbm_InColBuffer` result). -/
def dbm_LoadRowBuffer (M : DBM) (row : Nat) : DBM :=
  let fr : Nat :=
    (if (row : Int) > (M.rows : Int) - (M.max_rows : Int) then
      (M.rows : Int) - (M.max_rows : Int)
    else (row : Int)).toNat
  { M with
    first_rowdata := fr,
    rowdata := fun j i =>
      if j < M.cols ∧ i < M.max_rows then
        match dbm_InColBuffer M j with
        | some k => M.coldata k (fr + i)
        | none => M.files j (fr + i)
      else M.rowdata j i }

/-- A cell location as returned (as a `double *`) by
`dbm_internalgetValue`: either a row-window slot or a column-cache slot. -/
inductive Loc where
  | rowbuf (col idx : Nat) : Loc
  | colbuf (slot row : Nat) : Loc
deriving DecidableEq, Repr

/-- Dereference a `Loc` in a given state. -/
def readLoc (M : DBM) : Loc → D
  | Loc.rowbuf c i => M.rowdata c i
  | Loc.colbuf k r => M.coldata k r

/-- Write through a `Loc`. -/
def writeLoc (M : DBM) (l : Loc) (v : D) : DBM :=
  match l with
  | Loc.rowbuf c i =>
      { M with rowdata := fun a b => if a = c ∧ b = i then v else M.rowdata a b }
  | Loc.colbuf k r =>
      { M with coldata := fun a b => if a = k ∧ b = r then v else M.coldata a b }

/-- The `dbm_internalgetValue` internal function: returns the updated state
and the location whose address the C function returns. -/
def dbm_internalgetValue (M : DBM) (row col : Nat) : DBM × Loc :=
  if M.colmode = false then
    let M1 := if M.rowcolclash then dbm_ClearClash M else M
    if dbm_InRowBuffer M1 row then
      let M2 :=
        match dbm_InColBuffer M1 col with
        | some _ => dbm_SetClash M1 row col
        | none => M1
      (M2, Loc.rowbuf col (row - M2.first_rowdata))
    else
      match dbm_InColBuffer M1 col with
      | some curcol => (M1, Loc.colbuf curcol row)
      | none =>
        let M2 :=
          if M1.readonly = false then
            dbm_FlushOldestColumn (dbm_FlushRowBuffer M1)
          else M1
        let M3 := dbm_LoadRowBuffer M2 row
        let M4 := dbm_LoadNewColumn M3 col
        let M5 := dbm_SetClash M4 row col
        (M5, Loc.rowbuf col (row - M5.first_rowdata))
  else
    match dbm_InColBuffer M col with
    | some curcol => (M, Loc.colbuf curcol row)
    | none =>
      let M1 := if M.readonly = false then dbm_FlushOldestColumn M else M
      let M2 := dbm_LoadNewColumn M1 col
      (M2, Loc.colbuf (M2.max_cols - 1) row)

/-- The public `dbm_getValue`: bounds check (C `int` indices, so negative
indices are rejected too), then read through `dbm_internalgetValue`; in
read-only row mode the clash flag is reset afterwards.  Returns `none`
exactly when the C function returns 0 (leaving the output untouched). -/
def dbm_getValue (M : DBM) (row col : Int) : DBM × Option D :=
  if (M.rows : Int) ≤ row ∨ (M.cols : Int) ≤ col ∨ row < 0 ∨ col < 0 then
    (M, none)
  else
    let p := dbm_internalgetValue M row.toNat col.toNat
    let v := readLoc p.1 p.2
    let M2 :=
      if p.1.colmode = false ∧ p.1.readonly then { p.1 with rowcolclash := false }
      else p.1
    (M2, some v)

/-- The public `dbm_setValue`; the `Nat` result is the C return value
(1 successful, 0 not). -/
def dbm_setValue (M : DBM) (row col : Int) (v : D) : DBM × Nat :=
  if M.readonly then (M, 0)
  else if (M.rows : Int) ≤ row ∨ (M.cols : Int) ≤ col ∨ row < 0 ∨ col < 0 then
    (M, 0)
  else
    let p := dbm_internalgetValue M row.toNat col.toNat
    (writeLoc p.1 p.2 v, 1)

/-- The public `dbm_setRows`; 1 if successful, 0 otherwise.  Setting the row
count also clamps `max_rows` down to it. -/
def dbm_setRows (M : DBM) (Rows : Nat) : DBM × Nat :=
  if 0 < M.rows then (M, 0)
  else
    let M1 := { M with rows := Rows }
    let M2 := if M1.rows < M1.max_rows then { M1 with max_rows := M1.rows } else M1
    (M2, 1)

/-- The public `dbm_AddColumn`; 0 if successful, 1 on (file) problems, which
the model does not have.  When the cache is not full the new column gets the
fresh slot `cols`; otherwise slot 0 is flushed and evicted and the recycled
buffer, zeroed, becomes slot `max_cols - 1`.  In row mode a zero segment for
the new column is appended to the row window.  Finally the zero buffer is
written to the new column's file and `cols` is incremented. -/
def dbm_AddColumn (M : DBM) : DBM × Nat :=
  let oldcols := M.cols
  if M.cols < M.max_cols then
    let M1 := { M with
      which_cols := fun k => if k = oldcols then oldcols else M.which_cols k,
      coldata := fun k r => if k = oldcols then dzero else M.coldata k r }
    let M2 :=
      if M1.colmode = false then
        { M1 with rowdata := fun j i => if j = oldcols then dzero else M1.rowdata j i }
      else M1
    let M3 := { M2 with files := fun j r =>
      if j = oldcols ∧ r < M2.rows then M2.coldata oldcols r else M2.files j r }
    ({ M3 with cols := oldcols + 1 }, 0)
  else
    let M1 := { M with files := fun j r =>
      if j = M.which_cols 0 ∧ r < M.rows then M.coldata 0 r else M.files j r }
    let mc := M1.max_cols
    let M2 := { M1 with
      which_cols := fun k =>
        if k + 1 < mc then M1.which_cols (k + 1)
        else if k + 1 = mc then oldcols
        else M1.which_cols k,
      coldata := fun k r =>
        if k + 1 < mc then M1.coldata (k + 1) r
        else if k + 1 = mc then dzero
        else M1.coldata k r }
    let M3 :=
      if M2.colmode = false then
        { M2 with rowdata := fun j i => if j = oldcols then dzero else M2.rowdata j i }
      else M2
    let M4 := { M3 with files := fun j r =>
      if j = oldcols ∧ r < M3.rows then M3.coldata (M3.max_cols - 1) r else M3.files j r }
    ({ M4 with cols := oldcols + 1 }, 0)

/-- One shrink iteration of `dbm_ResizeColBuffer`: flush the oldest cached
column, then shift every slot down by one. -/
def removeOldest (M : DBM) : DBM :=
  let M1 := dbm_FlushOldestColumn M
  { M1 with
    which_cols := fun k => M1.which_cols (k + 1),
    coldata := fun k r => M1.coldata (k + 1) r }

/-- Iterate `removeOldest`. -/
def removeN : DBM → Nat → DBM
  | M, 0 => M
  | M, n + 1 => removeN (removeOldest M) n

/-- The inner scan of the grow path of `dbm_ResizeColBuffer`
(`for (j = min_j; j < cols; j++) ... if absent break`): try `fuel`
consecutive indices starting at `j`. -/
def findAbsentFrom (M : DBM) : Nat → Nat → Option Nat
  | 0, _ => none
  | fuel + 1, j =>
    if (dbm_InColBuffer M j).isNone then some j else findAbsentFrom M fuel (j + 1)

/-- The smallest column index in `[j0, cols)` that is not in the cache. -/
def findAbsent (M : DBM) (j0 : Nat) : Option Nat :=
  findAbsentFrom M (M.cols - j0) j0

/-- The column-selection loop of the grow path: pick `n` absent columns in
ascending order, resuming each scan just after the previous hit.  When the
scan runs out of columns the C code leaves the `Calloc`-zeroed entry 0 in
`whichadd`; that (unreachable under the cache invariants) case is modelled
the same way. -/
def pickAdd (M : DBM) : Nat → Nat → List Nat
  | 0, _ => []
  | n + 1, j0 =>
    match findAbsent M j0 with
    | some j => j :: pickAdd M n (j + 1)
    | none => 0 :: pickAdd M n (M.cols + 1)

/-- The `dbm_LoadAdditionalColumn` internal function: allocate slot `w` and
read column `col` into it. -/
def dbm_LoadAdditionalColumn (M : DBM) (col w : Nat) : DBM :=
  { M with
    coldata := fun k r => if k = w ∧ r < M.rows then M.files col r else M.coldata k r,
    which_cols := fun k => if k = w then col else M.which_cols k }

/-- Load the selected columns into consecutive slots starting at `w`. -/
def addList : DBM → List Nat → Nat → DBM
  | M, [], _ => M
  | M, c :: cs, w => addList (dbm_LoadAdditionalColumn M c w) cs (w + 1)

/-- The public `dbm_ResizeColBuffer`; 0 if successful, 1 on a non-positive
requested capacity.  Mirrors the C control flow: clear a pending clash,
reject `new_maxcol <= 0`, then shrink (flush-and-drop the oldest columns
when `new_maxcol < cols`) or grow (load absent columns in ascending order),
updating `max_cols` at the end. -/
def dbm_ResizeColBuffer (M0 : DBM) (new_maxcol : Int) : DBM × Nat :=
  let M := if M0.rowcolclash then dbm_ClearClash M0 else M0
  if new_maxcol ≤ 0 then (M, 1)
  else
    let nmc := new_maxcol.toNat
    if M.max_cols = nmc then (M, 0)
    else if nmc < M.max_cols then
      let M1 :=
        if nmc < M.cols then
          let n_remove := if M.max_cols < M.cols then M.max_cols - nmc else M.cols - nmc
          removeN M n_remove
        else M
      ({ M1 with max_cols := nmc }, 0)
    else
      if nmc < M.cols then
        let M1 := addList M (pickAdd M (nmc - M.max_cols) 0) M.max_cols
        ({ M1 with max_cols := nmc }, 0)
      else if M.max_cols < M.cols then
        let M1 := addList M (pickAdd M (M.cols - M.max_cols) 0) M.max_cols
        ({ M1 with max_cols := nmc }, 0)
      else
        ({ M with max_cols := nmc }, 0)

/-- The public `dbm_ResizeRowBuffer`; 0 if successful, 1 on a non-positive
requested size.  `new_maxrow` is first clamped to `rows`; in column mode
only `max_rows` changes.  In row mode, shrinking keeps the first `new_maxrow`
entries of each (flushed) segment; growing flushes, reallocates zeroed
segments, computes the new anchor row (note the source passes `rows`, not
`first_rowdata`, in the non-overflow branch) and reloads the window. -/
def dbm_ResizeRowBuffer (M : DBM) (new_maxrow : Int) : DBM × Nat :=
  if new_maxrow ≤ 0 then (M, 1)
  else
    let nmr : Nat := if (M.rows : Int) < new_maxrow then M.rows else new_maxrow.toNat
    if M.colmode then ({ M with max_rows := nmr }, 0)
    else
      let M1 := if M.rowcolclash then dbm_ClearClash M else M
      if M1.max_rows = nmr then (M1, 0)
      else if nmr < M1.max_rows then
        let M2 := dbm_FlushRowBuffer M1
        let M3 := { M2 with
          rowdata := fun j i => if j < M2.cols ∧ i < nmr then M2.rowdata j i else dzero,
          max_rows := nmr }
        (M3, 0)
      else
        let M2 := dbm_FlushRowBuffer M1
        let M3 := { M2 with rowdata := fun _ _ => dzero }
        let new_first : Nat :=
          if M3.rows < M3.first_rowdata + nmr then M3.rows - nmr else M3.rows
        let M4 := { M3 with max_rows := nmr }
        (dbm_LoadRowBuffer M4 new_first, 0)

/-- The public `dbm_ResizeBuffer`.  It calls `dbm_ResizeColBuffer`
discarding its status, then either resizes the row buffer (row mode) or just
clamps `max_rows` into `[1, rows]` (column mode), and always returns 0. -/
def dbm_ResizeBuffer (M : DBM) (new_maxrow new_maxcol : Int) : DBM × Nat :=
  let M1 := (dbm_ResizeColBuffer M new_maxcol).1
  if M1.colmode = false then ((dbm_ResizeRowBuffer M1 new_maxrow).1, 0)
  else
    let mr : Nat :=
      if new_maxrow < 1 then 1
      else if (M1.rows : Int) < new_maxrow then M1.rows
      else new_maxrow.toNat
    ({ M1 with max_rows := mr }, 0)

/-- The public `dbm_RowMode`: when in column mode, allocate the row window,
fill it with `dbm_LoadRowBuffer(0)` and clear the column-mode flag. -/
def dbm_RowMode (M : DBM) : DBM :=
  if M.colmode then
    let M1 := { M with rowdata := fun _ _ => dzero }
    let M2 := dbm_LoadRowBuffer M1 0
    { M2 with colmode := false }
  else M

/-- The public `dbm_ColMode`: when in row mode, reconcile a pending clash,
flush the row window, free it and set the column-mode flag. -/
def dbm_ColMode (M : DBM) : DBM :=
  if M.colmode = false then
    let M1 := if M.rowcolclash then dbm_ClearClash M else M
    let M2 := dbm_FlushRowBuffer M1
    { M2 with rowdata := fun _ _ => dzero, colmode := true }
  else M

/-- The public `dbm_ReadOnlyMode`: switching read-only on flushes the row
window (after reconciling a clash) and all cached columns first. -/
def dbm_ReadOnlyMode (M : DBM) (setting : Bool) : DBM :=
  let M1 :=
    if M.readonly = false ∧ setting then
      let Ma :=
        if M.colmode = false then
          dbm_FlushRowBuffer (if M.rowcolclash then dbm_ClearClash M else M)
        else M
      dbm_FlushAllColumns Ma
    else M
  { M1 with readonly := setting }

/-- Row scan of one column in `dbm_max`: fold the comparison over the given
row indices, with the C `break` on a non-ignored NaN (which sets the running
maximum to NaN and abandons the rest of the column). -/
def dbm_maxRows (naflag : Bool) : DBM → Nat → List Nat → D → Nat → DBM × D × Nat
  | M, _, [], mx, ff => (M, mx, ff)
  | M, j, i :: is, mx, ff =>
    let p := dbm_internalgetValue M i j
    let v := readLoc p.1 p.2
    if dIsNaN v ∧ naflag = false then (p.1, D.NaN, ff)
    else if dlt mx v then dbm_maxRows naflag p.1 j is v 1
    else dbm_maxRows naflag p.1 j is mx ff

/-- First phase of `dbm_max` when not all columns fit in the cache: scan the
columns currently in the cache (`BufferContents`), marking each in
`colsdone`. -/
def dbm_maxPhase1 (naflag : Bool) : DBM → List Nat → D → Nat → List Nat → DBM × D × Nat × List Nat
  | M, [], mx, ff, done => (M, mx, ff, done)
  | M, s :: ss, mx, ff, done =>
    let c := M.which_cols s
    let q := dbm_maxRows naflag M c (List.range M.rows) mx ff
    dbm_maxPhase1 naflag q.1 ss q.2.1 q.2.2 (c :: done)

/-- Second phase of `dbm_max` (and the whole loop when everything is
cached): scan the listed columns, skipping the ones marked done. -/
def dbm_maxPhase2 (naflag : Bool) (done : List Nat) : DBM → List Nat → D → Nat → DBM × D × Nat
  | M, [], mx, ff => (M, mx, ff)
  | M, j :: js, mx, ff =>
    if j ∈ done then dbm_maxPhase2 naflag done M js mx ff
    else
      let q := dbm_maxRows naflag M j (List.range M.rows) mx ff
      dbm_maxPhase2 naflag done q.1 js q.2.1 q.2.2

/-- The public `dbm_max`: result value and the `foundfinite` out-flag.
Starts from `-inf`; when `cols > max_cols` the cached columns are scanned
first and marked, then the remaining columns are streamed in. -/
def dbm_max (M : DBM) (naflag : Bool) : DBM × D × Nat :=
  if M.max_cols < M.cols then
    let q := dbm_maxPhase1 naflag M (List.range M.max_cols) D.NegInf 0 []
    dbm_maxPhase2 naflag q.2.2.2 q.1 (List.range q.1.cols) q.2.1 q.2.2.1
  else
    dbm_maxPhase2 naflag [] M (List.range M.cols) D.NegInf 0

/-- Row scan of one column in `dbm_min` (the comparison `min > *value` is
`dlt v mn`). -/
def dbm_minRows (naflag : Bool) : DBM → Nat → List Nat → D → Nat → DBM × D × Nat
  | M, _, [], mn, ff => (M, mn, ff)
  | M, j, i :: is, mn, ff =>
    let p := dbm_internalgetValue M i j
    let v := readLoc p.1 p.2
    if dIsNaN v ∧ naflag = false then (p.1, D.NaN, ff)
    else if dlt v mn then dbm_minRows naflag p.1 j is v 1
    else dbm_minRows naflag p.1 j is mn ff

/-- First phase of `dbm_min`. -/
def dbm_minPhase1 (naflag : Bool) : DBM → List Nat → D → Nat → List Nat → DBM × D × Nat × List Nat
  | M, [], mn, ff, done => (M, mn, ff, done)
  | M, s :: ss, mn, ff, done =>
    let c := M.which_cols s
    let q := dbm_minRows naflag M c (List.range M.rows) mn ff
    dbm_minPhase1 naflag q.1 ss q.2.1 q.2.2 (c :: done)

/-- Second phase of `dbm_min`. -/
def dbm_minPhase2 (naflag : Bool) (done : List Nat) : DBM → List Nat → D → Nat → DBM × D × Nat
  | M, [], mn, ff => (M, mn, ff)
  | M, j :: js, mn, ff =>
    if j ∈ done then dbm_minPhase2 naflag done M js mn ff
    else
      let q := dbm_minRows naflag M j (List.range M.rows) mn ff
      dbm_minPhase2 naflag done q.1 js q.2.1 q.2.2

/-- The public `dbm_min`: starts from `+inf`, otherwise like `dbm_max`. -/
def dbm_min (M : DBM) (naflag : Bool) : DBM × D × Nat :=
  if M.max_cols < M.cols then
    let q := dbm_minPhase1 naflag M (List.range M.max_cols) D.PosInf 0 []
    dbm_minPhase2 naflag q.2.2.2 q.1 (List.range q.1.cols) q.2.1 q.2.2.1
  else
    dbm_minPhase2 naflag [] M (List.range M.cols) D.PosInf 0

/-- The gathering loop of `dbm_singlecolMedian`: walk the rows of column
`j`, compacting non-NaN values into the buffer; a non-ignored NaN aborts
the whole computation (`none`, i.e. the C early `return` after setting the
result slot to NaN). -/
def medianGatherCol (M : DBM) (j : Nat) (naflag : Bool) : List Nat → List D → Option (DBM × List D)
  | [], buf => some (M, buf)
  | i :: is, buf =>
    let p := dbm_internalgetValue M i j
    let v := readLoc p.1 p.2
    if dIsNaN v then
      if naflag = false then none
      else medianGatherCol p.1 j naflag is buf
    else medianGatherCol p.1 j naflag is (buf ++ [v])

/-- The `dbm_singlecolMedian` internal function, returning the updated state
and results array.  With a non-ignored NaN the result slot is NaN; with an
empty compaction buffer it is NaN; an odd count selects the middle order
statistic; an even count averages the two central order statistics obtained
by two `rPsort` selections. -/
def dbm_singlecolMedian (M : DBM) (j : Nat) (naflag : Bool) (results : Nat → D) :
    DBM × (Nat → D) :=
  match medianGatherCol M j naflag (List.range M.rows) [] with
  | none => (M, fun k => if k = j then D.NaN else results k)
  | some (M1, buf) =>
    let n := buf.length
    if n = 0 then (M1, fun k => if k = j then D.NaN else results k)
    else if n % 2 = 1 then
      (M1, fun k => if k = j then rPsortVal buf ((n - 1) / 2) else results k)
    else
      let r1 := rPsortVal buf (n / 2)
      let r2 := rPsortVal buf (n / 2 - 1)
      (M1, fun k => if k = j then dhalf (dadd r1 r2) else results k)

/-- The inner (column) loop of one row of `dbm_rowMedians`: besides the
compaction buffer it returns the exit value of the loop variable `j` (the
break position, or `cols` after a complete pass) because the even-count
branch of the source reads `results[j]` afterwards, and whether the break
wrote NaN into the row's result slot. -/
def rowMedGather (M : DBM) (i : Nat) (naflag : Bool) : List Nat → List D → DBM × List D × Nat × Bool
  | [], buf => (M, buf, M.cols, false)
  | j :: js, buf =>
    let p := dbm_internalgetValue M i j
    let v := readLoc p.1 p.2
    if dIsNaN v then
      if naflag = false then (p.1, buf, j, true)
      else rowMedGather p.1 i naflag js buf
    else rowMedGather p.1 i naflag js (buf ++ [v])

/-- One iteration (row `i`) of `dbm_rowMedians`.  Note the faithful
rendering of the even-count branch: the final average reads `results[j]`
with the loop variable `j`, not `results[i]`. -/
def dbm_rowMedians_row (M : DBM) (i : Nat) (naflag : Bool) (results : Nat → D) :
    DBM × (Nat → D) :=
  let g := rowMedGather M i naflag (List.range M.cols) []
  let M1 := g.1
  let buf := g.2.1
  let jexit := g.2.2.1
  let res0 := if g.2.2.2 then (fun k => if k = i then D.NaN else results k) else results
  let n := buf.length
  if n = 0 then (M1, fun k => if k = i then D.NaN else res0 k)
  else if n % 2 = 1 then
    (M1, fun k => if k = i then rPsortVal buf ((n - 1) / 2) else res0 k)
  else
    let res1 := fun k => if k = i then rPsortVal buf (n / 2) else res0 k
    let res2 := fun k =>
      if k = i then dhalf (dadd (res1 jexit) (rPsortVal buf (n / 2 - 1))) else res1 k
    (M1, res2)

/-- Iterate `dbm_rowMedians_row` over the given rows. -/
def rowMediansLoop (naflag : Bool) : DBM → List Nat → (Nat → D) → DBM × (Nat → D)
  | M, [], results => (M, results)
  | M, i :: is, results =>
    let q := dbm_rowMedians_row M i naflag results
    rowMediansLoop naflag q.1 is q.2

/-- The public `dbm_rowMedians`, writing into the caller-supplied results
array (modelled as a total function: the source reads past the end of the
`rows`-long array in the even-count branch, and the values found there are
whatever the function yields at those indices). -/
def dbm_rowMedians (M : DBM) (naflag : Bool) (results : Nat → D) : DBM × (Nat → D) :=
  rowMediansLoop naflag M (List.range M.rows) results

/-- Abstract value of cell `(r, c)`: the row window is authoritative for its
rows in row mode, the column cache is authoritative for its columns
otherwise, and the file holds the rest. -/
def av (M : DBM) (r c : Nat) : D :=
  if M.colmode = false ∧ M.first_rowdata ≤ r ∧ r < M.first_rowdata + M.max_rows then
    M.rowdata c (r - M.first_rowdata)
  else
    match dbm_InColBuffer M c with
    | some k => M.coldata k r
    | none => M.files c r

/-- Well-formedness invariant of a `DBM` state, as maintained by the public
API: the live cache slots hold pairwise distinct in-range columns, the row
window fits inside the matrix in row mode, a recorded clash lies in the
window, cache and window agree except possibly at the recorded clash cell,
and in read-only mode both caches agree with the files. -/
structure WF (M : DBM) : Prop where
  hmc : 1 ≤ M.max_cols
  hmem : ∀ k, k < lastcol M → M.which_cols k < M.cols
  hnodup : ∀ k, k < lastcol M → ∀ l, l < lastcol M → k ≠ l →
    M.which_cols k ≠ M.which_cols l
  hmr_le : 0 < M.rows → M.max_rows ≤ M.rows
  hmr_pos : 0 < M.rows → 1 ≤ M.max_rows
  hwin : M.colmode = false → M.first_rowdata + M.max_rows ≤ M.rows
  hclash : M.rowcolclash = true → M.colmode = false ∧
    M.first_rowdata ≤ M.clash_row ∧ M.clash_row < M.first_rowdata + M.max_rows ∧
    M.clash_col < M.cols
  hcoher : M.colmode = false → ∀ k, k < lastcol M → ∀ t, t < M.max_rows →
    M.coldata k (M.first_rowdata + t) = M.rowdata (M.which_cols k) t ∨
    (M.rowcolclash = true ∧ M.clash_col = M.which_cols k ∧
      M.clash_row = M.first_rowdata + t)
  hro_col : M.readonly = true → ∀ k, k < lastcol M → ∀ r, r < M.rows →
    M.coldata k r = M.files (M.which_cols k) r
  hro_row : M.readonly = true → M.colmode = false → ∀ j, j < M.cols →
    ∀ t, t < M.max_rows → M.rowdata j t = M.files j (M.first_rowdata + t)

/-- The cache shape invariant named by the capacity claim: the live slots
(the model's cache always has exactly `min(cols, max_cols)` slots, matching
the allocated length of `which_cols` in the source) hold pairwise distinct
column indices, each in `[0, cols)`. -/
def CacheOK (M : DBM) : Prop :=
  (∀ k, k < lastcol M → M.which_cols k < M.cols) ∧
  (∀ k, k < lastcol M → ∀ l, l < lastcol M → k ≠ l →
    M.which_cols k ≠ M.which_cols l)

/-- The columns in `[j0, cols)` that are not in the column cache: the pool
the grow path of `dbm_ResizeColBuffer` draws its new columns from. -/
def absentSet (M : DBM) (j0 : Nat) : Finset Nat :=
  (Finset.Ico j0 M.cols).filter (fun j => (dbm_InColBuffer M j).isNone = true)

/-- Shape facts preserved by the internal machinery: dimensions, modes and
cache parameters. -/
def sameShape (M M' : DBM) : Prop :=
  M'.rows = M.rows ∧ M'.cols = M.cols ∧ M'.max_cols = M.max_cols ∧
  M'.max_rows = M.max_rows ∧ M'.colmode = M.colmode ∧ M'.readonly = M.readonly

/-- Observational equality: same abstract value at every in-range cell. -/
def avEq (M M' : DBM) : Prop :=
  ∀ r c, r < M.rows → c < M.cols → av M' r c = av M r c

/-- Validity of the location returned by `dbm_internalgetValue` in the state
it returns: a row-window location means the row is inside the window and any
cache copy of the cell is covered by the clash record; a cache location
means the slot holds the column and the cell is not in the window. -/
def LocOK (N : DBM) (l : Loc) (r c : Nat) : Prop :=
  match l with
  | Loc.rowbuf c' i =>
      c' = c ∧ i = r - N.first_rowdata ∧ N.colmode = false ∧
      N.first_rowdata ≤ r ∧ r < N.first_rowdata + N.max_rows ∧
      (dbm_InColBuffer N c = none ∨
        (N.rowcolclash = true ∧ N.clash_row = r ∧ N.clash_col = c))
  | Loc.colbuf k row' =>
      row' = r ∧ dbm_InColBuffer N c = some k ∧
      ¬(N.colmode = false ∧ N.first_rowdata ≤ r ∧ r < N.first_rowdata + N.max_rows)

/-- The row-mode body of `dbm_internalgetValue`, taken after the initial
clash reconciliation. -/
def igvRow (M1 : DBM) (row col : Nat) : DBM × Loc :=
  if dbm_InRowBuffer M1 row then
    let M2 :=
      match dbm_InColBuffer M1 col with
      | some _ => dbm_SetClash M1 row col
      | none => M1
    (M2, Loc.rowbuf col (row - M2.first_rowdata))
  else
    match dbm_InColBuffer M1 col with
    | some curcol => (M1, Loc.colbuf curcol row)
    | none =>
      let M2 :=
        if M1.readonly = false then
          dbm_FlushOldestColumn (dbm_FlushRowBuffer M1)
        else M1
      let M3 := dbm_LoadRowBuffer M2 row
      let M4 := dbm_LoadNewColumn M3 col
      let M5 := dbm_SetClash M4 row col
      (M5, Loc.rowbuf col (row - M5.first_rowdata))

/-- The column-mode body of `dbm_internalgetValue`. -/
def igvCol (M : DBM) (row col : Nat) : DBM × Loc :=
  match dbm_InColBuffer M col with
  | some curcol => (M, Loc.colbuf curcol row)
  | none =>
    let M1 := if M.readonly = false then dbm_FlushOldestColumn M else M
    let M2 := dbm_LoadNewColumn M1 col
    (M2, Loc.colbuf (M2.max_cols - 1) row)

/-- A concrete well-formed two-by-two matrix in column mode with a
one-column cache, used to instantiate the claim theorems. -/
def exM : DBM where
  rows := 2
  cols := 2
  max_cols := 1
  max_rows := 1
  coldata := fun k r =>
    if k = 0 ∧ r = 0 then D.val 10 else if k = 0 ∧ r = 1 then D.val 11 else dzero
  rowdata := fun _ _ => dzero
  first_rowdata := 0
  which_cols := fun _ => 0
  files := fun j r =>
    if j = 0 ∧ r = 0 then D.val 10
    else if j = 0 ∧ r = 1 then D.val 11
    else if j = 1 ∧ r = 0 then D.val 20
    else if j = 1 ∧ r = 1 then D.val 21
    else dzero
  rowcolclash := false
  clash_row := 0
  clash_col := 0
  colmode := true
  readonly := false

/-- The `dbm_alloc` constructor: a fresh descriptor with `rows = cols = 0`,
column mode, not read-only. -/
def dbm_alloc (max_rows max_cols : Nat) : DBM where
  rows := 0
  cols := 0
  max_cols := max_cols
  max_rows := max_rows
  coldata := fun _ _ => dzero
  rowdata := fun _ _ => dzero
  first_rowdata := 0
  which_cols := fun _ => 0
  files := fun _ _ => dzero
  rowcolclash := false
  clash_row := 0
  clash_col := 0
  colmode := true
  readonly := false

/-- A four-row single-column matrix in row mode with a one-row window at the
top (`first_rowdata = 0`), used to exercise `dbm_ResizeRowBuffer`. -/
def exM9 : DBM where
  rows := 4
  cols := 1
  max_cols := 1
  max_rows := 1
  coldata := fun k r => if k = 0 then D.val r else dzero
  rowdata := fun j i => if j = 0 ∧ i = 0 then D.val 0 else dzero
  first_rowdata := 0
  which_cols := fun _ => 0
  files := fun j r => if j = 0 then D.val r else dzero
  rowcolclash := false
  clash_row := 0
  clash_col := 0
  colmode := false
  readonly := false

/-- A one-row two-column matrix in column mode with both columns cached,
holding the values 1 and 3, used to exercise the median routines. -/
def exM7 : DBM where
  rows := 1
  cols := 2
  max_cols := 2
  max_rows := 1
  coldata := fun k r =>
    if k = 0 ∧ r = 0 then D.val 1 else if k = 1 ∧ r = 0 then D.val 3 else dzero
  rowdata := fun _ _ => dzero
  first_rowdata := 0
  which_cols := fun k => k
  files := fun j r =>
    if j = 0 ∧ r = 0 then D.val 1 else if j = 1 ∧ r = 0 then D.val 3 else dzero
  rowcolclash := false
  clash_row := 0
  clash_col := 0
  colmode := true
  readonly := false

/-- A two-row single-column matrix in column mode with `max_rows = 2`, used
to exercise `dbm_ResizeBuffer` on a non-positive requested capacity. -/
def exM6 : DBM where
  rows := 2
  cols := 1
  max_cols := 1
  max_rows := 2
  coldata := fun k r =>
    if k = 0 ∧ r = 0 then D.val 1 else if k = 0 ∧ r = 1 then D.val 2 else dzero
  rowdata := fun _ _ => dzero
  first_rowdata := 0
  which_cols := fun _ => 0
  files := fun j r =>
    if j = 0 ∧ r = 0 then D.val 1 else if j = 0 ∧ r = 1 then D.val 2 else dzero
  rowcolclash := false
  clash_row := 0
  clash_col := 0
  colmode := true
  readonly := false

/-- The read-only variant of `exM6`, used for the read-only `set` failure. -/
def exM6ro : DBM :=
  { exM6 with readonly := true }

/-- A one-by-one matrix whose single cell is `+inf`, in column mode with the
column cached, used to exercise `dbm_max`/`dbm_min` with no finite entry. -/
def exM8 : DBM where
  rows := 1
  cols := 1
  max_cols := 1
  max_rows := 1
  coldata := fun k r => if k = 0 ∧ r = 0 then D.PosInf else dzero
  rowdata := fun _ _ => dzero
  first_rowdata := 0
  which_cols := fun _ => 0
  files := fun j r => if j = 0 ∧ r = 0 then D.PosInf else dzero
  rowcolclash := false
  clash_row := 0
  clash_col := 0
  colmode := true
  readonly := false

/-- The stateless row scan underlying `dbm_maxRows`/`dbm_minRows`: fold the
running extremum and `foundfinite` flag over the listed cell values, with
the C `break` on a non-ignored NaN.  The update test is a parameter:
`fun mx v => dlt mx v` for `max`, `fun mn v => dlt v mn` for `min`. -/
def scanPure (naflag : Bool) (upd : D → D → Bool) : List D → D → Nat → D × Nat
  | [], mx, ff => (mx, ff)
  | v :: vs, mx, ff =>
    if dIsNaN v ∧ naflag = false then (D.NaN, ff)
    else if upd mx v then scanPure naflag upd vs v 1
    else scanPure naflag upd vs mx ff

/-- The stateless column loop over `scanPure`: `vals j` is the list of cell
values of column `j` in scan order. -/
def scanColsPure (naflag : Bool) (upd : D → D → Bool) (vals : Nat → List D) :
    List Nat → D → Nat → D × Nat
  | [], mx, ff => (mx, ff)
  | j :: js, mx, ff =>
    let q := scanPure naflag upd (vals j) mx ff
    scanColsPure naflag upd vals js q.1 q.2

theorem searchDown_eq_none_iff {w : Nat → Nat} {col : Nat} :
    ∀ {n : Nat}, searchDown w col n = none ↔ ∀ k, k < n → w k ≠ col := by
  intro n
  induction n with
  | zero => simp [searchDown]
  | succ m ih =>
    simp only [searchDown]
    by_cases h : w m = col
    · simp only [h, if_pos rfl]
      constructor
      · intro hc; exact absurd hc (by simp)
      · intro hall; exact absurd h (hall m (Nat.lt_succ_self m))
    · rw [if_neg h, ih]
      constructor
      · intro hall k hk hkc
        rcases Nat.lt_succ_iff_lt_or_eq.mp hk with hlt | rfl
        · exact hall k hlt hkc
        · exact h hkc
      · intro hall k hk hkc; exact hall k (Nat.lt_succ_of_lt hk) hkc

theorem searchDown_eq_some {w : Nat → Nat} {col : Nat} :
    ∀ {n k : Nat}, searchDown w col n = some k →
      k < n ∧ w k = col ∧ ∀ l, k < l → l < n → w l ≠ col := by
  intro n
  induction n with
  | zero => intro k h; simp [searchDown] at h
  | succ m ih =>
    intro k h
    simp only [searchDown] at h
    by_cases hm : w m = col
    · rw [if_pos hm] at h
      obtain rfl : m = k := by simpa using h
      exact ⟨Nat.lt_succ_self m, hm, fun l hl hl2 => by omega⟩
    · rw [if_neg hm] at h
      obtain ⟨hk, hkc, hmax⟩ := ih h
      refine ⟨Nat.lt_succ_of_lt hk, hkc, fun l hl hl2 => ?_⟩
      rcases Nat.lt_succ_iff_lt_or_eq.mp hl2 with h2 | rfl
      · exact hmax l hl h2
      · exact hm

theorem searchDown_hit {w : Nat → Nat} {col : Nat} {n k : Nat}
    (hk : k < n) (hc : w k = col) : (searchDown w col n).isSome := by
  induction n with
  | zero => omega
  | succ m ih =>
    simp only [searchDown]
    by_cases hm : w m = col
    · simp [hm]
    · rw [if_neg hm]
      have hkm : k < m := by
        rcases Nat.lt_succ_iff_lt_or_eq.mp hk with h | rfl
        · exact h
        · exact absurd hc hm
      exact ih hkm

/-- Under distinctness the downward search returns exactly the slot holding
`col`. -/
theorem searchDown_unique {w : Nat → Nat} {col : Nat} {n k : Nat}
    (hnd : ∀ a, a < n → ∀ b, b < n → a ≠ b → w a ≠ w b)
    (hk : k < n) (hc : w k = col) : searchDown w col n = some k := by
  have hs : (searchDown w col n).isSome := searchDown_hit hk hc
  obtain ⟨k2, hk2⟩ := Option.isSome_iff_exists.mp hs
  obtain ⟨hlt, hwc, _⟩ := searchDown_eq_some hk2
  rcases eq_or_ne k k2 with rfl | hne
  · exact hk2
  · exact absurd (hwc.trans hc.symm) (hnd k2 hlt k hk hne.symm)

theorem searchUpFrom_miss {w : Nat → Nat} {col : Nat} :
    ∀ {fuel cur : Nat}, (∀ t, t < fuel → w (cur + t) ≠ col) →
      searchUpFrom w col fuel cur = cur + fuel := by
  intro fuel
  induction fuel with
  | zero => intro cur _; simp [searchUpFrom]
  | succ m ih =>
    intro cur hall
    have h0 : w cur ≠ col := by simpa using hall 0 (Nat.succ_pos m)
    simp only [searchUpFrom, if_neg h0]
    have := @ih (cur + 1) (fun t ht => by
      have := hall (t + 1) (by omega)
      simpa [Nat.add_assoc, Nat.add_comm 1 t] using this)
    omega

theorem searchUpFrom_hit {w : Nat → Nat} {col : Nat} :
    ∀ {fuel cur t : Nat}, t < fuel → w (cur + t) = col →
      (∀ s, s < t → w (cur + s) ≠ col) →
      searchUpFrom w col fuel cur = cur + t := by
  intro fuel
  induction fuel with
  | zero => intro cur t ht; omega
  | succ m ih =>
    intro cur t ht hc hmin
    by_cases h0 : w cur = col
    · have : t = 0 := by
        by_contra hne
        exact hmin 0 (Nat.pos_of_ne_zero hne) (by simpa using h0)
      subst this
      simp [searchUpFrom, h0]
    · have ht0 : t ≠ 0 := by
        intro h; subst h; exact h0 (by simpa using hc)
      simp only [searchUpFrom, if_neg h0]
      have := @ih (cur + 1) (t - 1) (by omega)
        (by rw [show cur + 1 + (t - 1) = cur + t by omega]; exact hc)
        (fun s hs => by
          have := hmin (s + 1) (by omega)
          simpa [show cur + (s + 1) = cur + 1 + s by omega] using this)
      omega

/-- When the cache has as many live slots as there are columns, every column
is cached (count the distinct values). -/
theorem all_cols_cached (M : DBM)
    (hmem : ∀ k, k < lastcol M → M.which_cols k < M.cols)
    (hnodup : ∀ k, k < lastcol M → ∀ l, l < lastcol M → k ≠ l →
      M.which_cols k ≠ M.which_cols l)
    (hfull : lastcol M = M.cols) :
    ∀ x, x < M.cols → ∃ k, k < lastcol M ∧ M.which_cols k = x := by
  classical
  intro x hx
  set S : Finset Nat := (Finset.range (lastcol M)).image M.which_cols with hS
  have hsub : S ⊆ Finset.range M.cols := by
    intro y hy
    simp only [hS, Finset.mem_image, Finset.mem_range] at hy
    obtain ⟨k, hk, rfl⟩ := hy
    exact Finset.mem_range.mpr (hmem k hk)
  have hcard : S.card = lastcol M := by
    rw [hS, Finset.card_image_of_injOn, Finset.card_range]
    intro a ha b hb hab
    by_contra hne
    exact hnodup a (Finset.mem_range.mp ha) b (Finset.mem_range.mp hb) hne hab
  have heq : S = Finset.range M.cols := by
    apply Finset.eq_of_subset_of_card_le hsub
    rw [hcard, hfull, Finset.card_range]
  have : x ∈ S := by rw [heq]; exact Finset.mem_range.mpr hx
  simp only [hS, Finset.mem_image, Finset.mem_range] at this
  obtain ⟨k, hk, hks⟩ := this
  exact ⟨k, hk, hks⟩

theorem sameShape_refl (M : DBM) : sameShape M M :=
  ⟨rfl, rfl, rfl, rfl, rfl, rfl⟩

theorem sameShape_trans {M1 M2 M3 : DBM} (h1 : sameShape M1 M2)
    (h2 : sameShape M2 M3) : sameShape M1 M3 := by
  obtain ⟨a1, b1, c1, d1, e1, f1⟩ := h1
  obtain ⟨a2, b2, c2, d2, e2, f2⟩ := h2
  exact ⟨a2.trans a1, b2.trans b1, c2.trans c1, d2.trans d1, e2.trans e1, f2.trans f1⟩

theorem avEq_refl (M : DBM) : avEq M M := fun _ _ _ _ => rfl

theorem avEq_trans {M1 M2 M3 : DBM} (hs : sameShape M1 M2)
    (h1 : avEq M1 M2) (h2 : avEq M2 M3) : avEq M1 M3 := by
  intro r c hr hc
  rw [h2 r c (hs.1 ▸ hr) (hs.2.1 ▸ hc), h1 r c hr hc]

theorem lastcol_eq_of_sameShape {M M' : DBM} (h : sameShape M M') :
    lastcol M' = lastcol M := by
  unfold lastcol
  rw [h.2.1, h.2.2.1]

@[simp] theorem SetClash_proj (M : DBM) (row col : Nat) :
    (dbm_SetClash M row col).rows = M.rows ∧
    (dbm_SetClash M row col).cols = M.cols ∧
    (dbm_SetClash M row col).max_cols = M.max_cols ∧
    (dbm_SetClash M row col).max_rows = M.max_rows ∧
    (dbm_SetClash M row col).coldata = M.coldata ∧
    (dbm_SetClash M row col).rowdata = M.rowdata ∧
    (dbm_SetClash M row col).first_rowdata = M.first_rowdata ∧
    (dbm_SetClash M row col).which_cols = M.which_cols ∧
    (dbm_SetClash M row col).files = M.files ∧
    (dbm_SetClash M row col).colmode = M.colmode ∧
    (dbm_SetClash M row col).readonly = M.readonly := by
  simp [dbm_SetClash]

theorem ClearClash_proj (M : DBM) :
    (dbm_ClearClash M).rows = M.rows ∧
    (dbm_ClearClash M).cols = M.cols ∧
    (dbm_ClearClash M).max_cols = M.max_cols ∧
    (dbm_ClearClash M).max_rows = M.max_rows ∧
    (dbm_ClearClash M).rowdata = M.rowdata ∧
    (dbm_ClearClash M).first_rowdata = M.first_rowdata ∧
    (dbm_ClearClash M).which_cols = M.which_cols ∧
    (dbm_ClearClash M).files = M.files ∧
    (dbm_ClearClash M).colmode = M.colmode ∧
    (dbm_ClearClash M).readonly = M.readonly ∧
    (dbm_ClearClash M).rowcolclash = false := by
  unfold dbm_ClearClash
  by_cases hd : dne (M.rowdata M.clash_col (M.clash_row - M.first_rowdata))
      (M.coldata (searchUpFrom M.which_cols M.clash_col (lastcol M) 0) M.clash_row) = true
  · simp [hd]
  · simp [hd]

theorem dne_eq_false {a b : D} (h : dne a b = false) : a = b := by
  cases a <;> cases b <;> simp_all [dne]

theorem ClearClash_coldata (M : DBM) (a b : Nat) :
    (dbm_ClearClash M).coldata a b =
      if a = searchUpFrom M.which_cols M.clash_col (lastcol M) 0 ∧ b = M.clash_row then
        M.rowdata M.clash_col (M.clash_row - M.first_rowdata)
      else M.coldata a b := by
  unfold dbm_ClearClash
  by_cases hd : dne (M.rowdata M.clash_col (M.clash_row - M.first_rowdata))
      (M.coldata (searchUpFrom M.which_cols M.clash_col (lastcol M) 0) M.clash_row) = true
  · simp only [hd, if_true]
  · simp only [hd]
    simp only [Bool.false_eq_true, if_false]
    split
    · next h =>
      obtain ⟨rfl, rfl⟩ := h
      exact (dne_eq_false (Bool.not_eq_true _ ▸ hd)).symm
    · rfl

theorem InColBuffer_congr {M M' : DBM} (hw : M'.which_cols = M.which_cols)
    (hc : M'.cols = M.cols) (hm : M'.max_cols = M.max_cols) (c : Nat) :
    dbm_InColBuffer M' c = dbm_InColBuffer M c := by
  unfold dbm_InColBuffer lastcol
  rw [hw, hc, hm]

/-- When `col` sits in live slot `k` and the live slots are distinct, the
upward scan of `dbm_ClearClash` finds exactly `k`. -/
theorem searchUp_found {M : DBM} {col k : Nat}
    (hnodup : ∀ a, a < lastcol M → ∀ b, b < lastcol M → a ≠ b →
      M.which_cols a ≠ M.which_cols b)
    (hk : k < lastcol M) (hc : M.which_cols k = col) :
    searchUpFrom M.which_cols col (lastcol M) 0 = k := by
  have := @searchUpFrom_hit M.which_cols col (lastcol M) 0 k hk
    (by simpa using hc)
    (fun s hs => by
      have hsk : s ≠ k := by omega
      have := hnodup s (by omega) k hk hsk
      simpa [hc] using this)
  simpa using this

theorem ClearClash_spec (M : DBM) (hWF : WF M) (hcl : M.rowcolclash = true) :
    sameShape M (dbm_ClearClash M) ∧ avEq M (dbm_ClearClash M) ∧
    WF (dbm_ClearClash M) := by
  obtain ⟨hrows, hcols, hmaxc, hmaxr, hrowd, hfirst, hwhich, hfiles, hcm, hro, hflag⟩ :=
    ClearClash_proj M
  obtain ⟨hcolmode, hcr1, hcr2, hccol⟩ := hWF.hclash hcl
  have hshape : sameShape M (dbm_ClearClash M) := ⟨hrows, hcols, hmaxc, hmaxr, hcm, hro⟩
  have hlc : lastcol (dbm_ClearClash M) = lastcol M := lastcol_eq_of_sameShape hshape
  have hicb : ∀ c, dbm_InColBuffer (dbm_ClearClash M) c = dbm_InColBuffer M c :=
    fun c => InColBuffer_congr hwhich hcols hmaxc c
  set n := searchUpFrom M.which_cols M.clash_col (lastcol M) 0 with hn
  -- where the upward scan lands
  have hfind : (∃ k, k < lastcol M ∧ M.which_cols k = M.clash_col ∧ n = k) ∨
      (n = lastcol M ∧ ∀ k, k < lastcol M → M.which_cols k ≠ M.clash_col) := by
    by_cases hex : ∃ k, k < lastcol M ∧ M.which_cols k = M.clash_col
    · obtain ⟨k, hk, hkc⟩ := hex
      exact Or.inl ⟨k, hk, hkc, searchUp_found hWF.hnodup hk hkc⟩
    · push_neg at hex
      refine Or.inr ⟨?_, hex⟩
      rw [hn]
      have := @searchUpFrom_miss M.which_cols M.clash_col (lastcol M) 0
        (fun t ht => by simpa using hex t ht)
      simpa using this
  have haveq : avEq M (dbm_ClearClash M) := by
    intro r c hr hc
    unfold av
    rw [hcm, hfirst, hmaxr, hrowd, hfiles, hicb c]
    by_cases hwc : M.colmode = false ∧ M.first_rowdata ≤ r ∧
        r < M.first_rowdata + M.max_rows
    · rw [if_pos hwc, if_pos hwc]
    · rw [if_neg hwc, if_neg hwc]
      cases hicbc : dbm_InColBuffer M c with
      | none => rfl
      | some k =>
        dsimp only
        rw [ClearClash_coldata]
        have hrne : r ≠ M.clash_row := by
          intro h
          exact hwc ⟨hcolmode, h ▸ hcr1, h ▸ hcr2⟩
        rw [if_neg (by rw [← hn]; exact fun hh => hrne hh.2)]
  refine ⟨hshape, haveq, ?_⟩
  constructor
  · rw [hmaxc]; exact hWF.hmc
  · rw [hlc, hwhich, hcols]; exact hWF.hmem
  · rw [hlc, hwhich]; exact hWF.hnodup
  · rw [hrows, hmaxr]; exact hWF.hmr_le
  · rw [hrows, hmaxr]; exact hWF.hmr_pos
  · rw [hcm, hfirst, hmaxr, hrows]; exact hWF.hwin
  · rw [hflag]; intro h; exact absurd h (by simp)
  · -- coherence, now without the clash escape hatch
    rw [hcm, hlc, hwhich, hfirst, hmaxr, hrowd]
    intro hcmf k hk t ht
    rw [ClearClash_coldata, ← hn]
    by_cases hhit : k = n ∧ M.first_rowdata + t = M.clash_row
    · rw [if_pos hhit]
      left
      rcases hfind with ⟨k0, hk0, hk0c, hnk0⟩ | ⟨hnl, _⟩
      · have hkk0 : k = k0 := by rw [hhit.1, hnk0]
        rw [hkk0, hk0c]
        have : M.clash_row - M.first_rowdata = t := by omega
        rw [this]
      · exfalso; obtain ⟨h1, _⟩ := hhit; omega
    · rw [if_neg hhit]
      rcases hWF.hcoher hcmf k hk t ht with heq | ⟨_, hcc, hcr⟩
      · left; exact heq
      · exfalso
        apply hhit
        rcases hfind with ⟨k0, hk0, hk0c, hnk0⟩ | ⟨_, hnone⟩
        · constructor
          · rw [hnk0]
            by_contra hne
            exact hWF.hnodup k hk k0 hk0 hne (by rw [← hcc, hk0c])
          · omega
        · exact absurd hcc.symm (hnone k hk)
  · -- read-only: cache agrees with files
    rw [hro, hlc, hwhich, hrows, hfiles]
    intro hrof k hk r hrr
    rw [ClearClash_coldata, ← hn]
    by_cases hhit : k = n ∧ r = M.clash_row
    · rw [if_pos hhit]
      rcases hfind with ⟨k0, hk0, hk0c, hnk0⟩ | ⟨hnl, _⟩
      · have hkk0 : k = k0 := by rw [hhit.1, hnk0]
        rw [hkk0, hk0c]
        have h1 : M.rowdata M.clash_col (M.clash_row - M.first_rowdata) =
            M.files M.clash_col (M.first_rowdata + (M.clash_row - M.first_rowdata)) :=
          hWF.hro_row hrof hcolmode M.clash_col hccol _ (by omega)
        rw [h1, hhit.2]
        congr 1
        omega
      · exfalso; obtain ⟨h1, _⟩ := hhit; omega
    · rw [if_neg hhit]
      exact hWF.hro_col hrof k hk r hrr
  · rw [hro, hcm, hcols, hmaxr, hrowd, hfiles, hfirst]
    exact hWF.hro_row

theorem FlushRowBuffer_proj (M : DBM) :
    (dbm_FlushRowBuffer M).rows = M.rows ∧
    (dbm_FlushRowBuffer M).cols = M.cols ∧
    (dbm_FlushRowBuffer M).max_cols = M.max_cols ∧
    (dbm_FlushRowBuffer M).max_rows = M.max_rows ∧
    (dbm_FlushRowBuffer M).coldata = M.coldata ∧
    (dbm_FlushRowBuffer M).rowdata = M.rowdata ∧
    (dbm_FlushRowBuffer M).first_rowdata = M.first_rowdata ∧
    (dbm_FlushRowBuffer M).which_cols = M.which_cols ∧
    (dbm_FlushRowBuffer M).rowcolclash = M.rowcolclash ∧
    (dbm_FlushRowBuffer M).clash_row = M.clash_row ∧
    (dbm_FlushRowBuffer M).clash_col = M.clash_col ∧
    (dbm_FlushRowBuffer M).colmode = M.colmode ∧
    (dbm_FlushRowBuffer M).readonly = M.readonly := by
  simp [dbm_FlushRowBuffer]

theorem FlushRowBuffer_files (M : DBM) (j r : Nat) :
    (dbm_FlushRowBuffer M).files j r =
      if j < M.cols ∧ M.first_rowdata ≤ r ∧ r < M.first_rowdata + M.max_rows then
        M.rowdata j (r - M.first_rowdata)
      else M.files j r := rfl

theorem FlushRowBuffer_spec (M : DBM) (hWF : WF M) (hcm : M.colmode = false) :
    sameShape M (dbm_FlushRowBuffer M) ∧ avEq M (dbm_FlushRowBuffer M) ∧
    WF (dbm_FlushRowBuffer M) := by
  obtain ⟨hrows, hcols, hmaxc, hmaxr, hcold, hrowd, hfirst, hwhich, hclsh, hclr, hclc,
    hcmode, hro⟩ := FlushRowBuffer_proj M
  have hshape : sameShape M (dbm_FlushRowBuffer M) :=
    ⟨hrows, hcols, hmaxc, hmaxr, hcmode, hro⟩
  have hlc : lastcol (dbm_FlushRowBuffer M) = lastcol M := lastcol_eq_of_sameShape hshape
  have hicb : ∀ c, dbm_InColBuffer (dbm_FlushRowBuffer M) c = dbm_InColBuffer M c :=
    fun c => InColBuffer_congr hwhich hcols hmaxc c
  have haveq : avEq M (dbm_FlushRowBuffer M) := by
    intro r c hr hc
    unfold av
    rw [hcmode, hfirst, hmaxr, hrowd, hicb c]
    by_cases hwc : M.colmode = false ∧ M.first_rowdata ≤ r ∧
        r < M.first_rowdata + M.max_rows
    · rw [if_pos hwc, if_pos hwc]
    · rw [if_neg hwc, if_neg hwc]
      cases dbm_InColBuffer M c with
      | some k => rfl
      | none =>
        dsimp only
        rw [FlushRowBuffer_files]
        rw [if_neg (fun hh => hwc ⟨hcm, hh.2⟩)]
  refine ⟨hshape, haveq, ?_⟩
  constructor
  · rw [hmaxc]; exact hWF.hmc
  · rw [hlc, hwhich, hcols]; exact hWF.hmem
  · rw [hlc, hwhich]; exact hWF.hnodup
  · rw [hrows, hmaxr]; exact hWF.hmr_le
  · rw [hrows, hmaxr]; exact hWF.hmr_pos
  · rw [hcmode, hfirst, hmaxr, hrows]; exact hWF.hwin
  · rw [hclsh, hcmode, hfirst, hclr, hclc, hmaxr, hcols]; exact hWF.hclash
  · rw [hcmode, hlc, hwhich, hfirst, hmaxr, hrowd, hcold, hclsh, hclr, hclc]
    exact hWF.hcoher
  · -- read-only: flushing rewrites the files with the values they must hold
    rw [hro, hlc, hwhich, hrows, hcold]
    intro hrof k hk r hrr
    rw [FlushRowBuffer_files]
    by_cases hhit : M.which_cols k < M.cols ∧ M.first_rowdata ≤ r ∧
        r < M.first_rowdata + M.max_rows
    · rw [if_pos hhit]
      have h1 := hWF.hro_row hrof hcm (M.which_cols k) hhit.1 (r - M.first_rowdata)
        (by omega)
      rw [h1]
      have : M.first_rowdata + (r - M.first_rowdata) = r := by omega
      rw [this]
      exact hWF.hro_col hrof k hk r hrr
    · rw [if_neg hhit]
      exact hWF.hro_col hrof k hk r hrr
  · rw [hro, hcmode, hcols, hmaxr, hrowd, hfirst]
    intro hrof hcmf j hj t ht
    rw [FlushRowBuffer_files]
    rw [if_pos ⟨hj, by omega, by omega⟩]
    congr 1
    omega

theorem FlushOldestColumn_proj (M : DBM) :
    (dbm_FlushOldestColumn M).rows = M.rows ∧
    (dbm_FlushOldestColumn M).cols = M.cols ∧
    (dbm_FlushOldestColumn M).max_cols = M.max_cols ∧
    (dbm_FlushOldestColumn M).max_rows = M.max_rows ∧
    (dbm_FlushOldestColumn M).coldata = M.coldata ∧
    (dbm_FlushOldestColumn M).rowdata = M.rowdata ∧
    (dbm_FlushOldestColumn M).first_rowdata = M.first_rowdata ∧
    (dbm_FlushOldestColumn M).which_cols = M.which_cols ∧
    (dbm_FlushOldestColumn M).rowcolclash = M.rowcolclash ∧
    (dbm_FlushOldestColumn M).clash_row = M.clash_row ∧
    (dbm_FlushOldestColumn M).clash_col = M.clash_col ∧
    (dbm_FlushOldestColumn M).colmode = M.colmode ∧
    (dbm_FlushOldestColumn M).readonly = M.readonly := by
  simp [dbm_FlushOldestColumn]

theorem FlushOldestColumn_files (M : DBM) (j r : Nat) :
    (dbm_FlushOldestColumn M).files j r =
      if j = M.which_cols 0 ∧ r < M.rows then M.coldata 0 r else M.files j r := rfl

theorem FlushOldestColumn_spec (M : DBM) (hWF : WF M) (hlc0 : 0 < lastcol M) :
    sameShape M (dbm_FlushOldestColumn M) ∧ avEq M (dbm_FlushOldestColumn M) ∧
    WF (dbm_FlushOldestColumn M) := by
  obtain ⟨hrows, hcols, hmaxc, hmaxr, hcold, hrowd, hfirst, hwhich, hclsh, hclr, hclc,
    hcmode, hro⟩ := FlushOldestColumn_proj M
  have hshape : sameShape M (dbm_FlushOldestColumn M) :=
    ⟨hrows, hcols, hmaxc, hmaxr, hcmode, hro⟩
  have hlc : lastcol (dbm_FlushOldestColumn M) = lastcol M := lastcol_eq_of_sameShape hshape
  have hicb : ∀ c, dbm_InColBuffer (dbm_FlushOldestColumn M) c = dbm_InColBuffer M c :=
    fun c => InColBuffer_congr hwhich hcols hmaxc c
  have haveq : avEq M (dbm_FlushOldestColumn M) := by
    intro r c hr hc
    unfold av
    rw [hcmode, hfirst, hmaxr, hrowd, hicb c]
    by_cases hwc : M.colmode = false ∧ M.first_rowdata ≤ r ∧
        r < M.first_rowdata + M.max_rows
    · rw [if_pos hwc, if_pos hwc]
    · rw [if_neg hwc, if_neg hwc]
      cases hicbc : dbm_InColBuffer M c with
      | some k => rfl
      | none =>
        dsimp only
        rw [FlushOldestColumn_files]
        have hnotin := searchDown_eq_none_iff.mp hicbc
        rw [if_neg (fun hh => (hnotin 0 hlc0) hh.1.symm)]
  refine ⟨hshape, haveq, ?_⟩
  constructor
  · rw [hmaxc]; exact hWF.hmc
  · rw [hlc, hwhich, hcols]; exact hWF.hmem
  · rw [hlc, hwhich]; exact hWF.hnodup
  · rw [hrows, hmaxr]; exact hWF.hmr_le
  · rw [hrows, hmaxr]; exact hWF.hmr_pos
  · rw [hcmode, hfirst, hmaxr, hrows]; exact hWF.hwin
  · rw [hclsh, hcmode, hfirst, hclr, hclc, hmaxr, hcols]; exact hWF.hclash
  · rw [hcmode, hlc, hwhich, hfirst, hmaxr, hrowd, hcold, hclsh, hclr, hclc]
    exact hWF.hcoher
  · rw [hro, hlc, hwhich, hrows, hcold]
    intro hrof k hk r hrr
    rw [FlushOldestColumn_files]
    by_cases hhit : M.which_cols k = M.which_cols 0 ∧ r < M.rows
    · rw [if_pos hhit]
      have hk0 : k = 0 := by
        by_contra hne
        exact hWF.hnodup k hk 0 hlc0 hne hhit.1
      rw [hk0]
    · rw [if_neg hhit]
      exact hWF.hro_col hrof k hk r hrr
  · rw [hro, hcmode, hcols, hmaxr, hrowd, hfirst]
    intro hrof hcmf j hj t ht
    rw [FlushOldestColumn_files]
    by_cases hhit : j = M.which_cols 0 ∧ M.first_rowdata + t < M.rows
    · rw [if_pos hhit]
      have h1 := hWF.hro_col hrof 0 hlc0 (M.first_rowdata + t) hhit.2
      rw [h1, ← hhit.1]
      exact hWF.hro_row hrof hcmf j hj t ht
    · rw [if_neg hhit]
      exact hWF.hro_row hrof hcmf j hj t ht

theorem LoadNewColumn_proj (M : DBM) (c : Nat) :
    (dbm_LoadNewColumn M c).rows = M.rows ∧
    (dbm_LoadNewColumn M c).cols = M.cols ∧
    (dbm_LoadNewColumn M c).max_cols = M.max_cols ∧
    (dbm_LoadNewColumn M c).max_rows = M.max_rows ∧
    (dbm_LoadNewColumn M c).rowdata = M.rowdata ∧
    (dbm_LoadNewColumn M c).first_rowdata = M.first_rowdata ∧
    (dbm_LoadNewColumn M c).files = M.files ∧
    (dbm_LoadNewColumn M c).rowcolclash = M.rowcolclash ∧
    (dbm_LoadNewColumn M c).clash_row = M.clash_row ∧
    (dbm_LoadNewColumn M c).clash_col = M.clash_col ∧
    (dbm_LoadNewColumn M c).colmode = M.colmode ∧
    (dbm_LoadNewColumn M c).readonly = M.readonly := by
  simp [dbm_LoadNewColumn]

theorem LoadNewColumn_which (M : DBM) (c k : Nat) :
    (dbm_LoadNewColumn M c).which_cols k =
      if k + 1 < lastcol M then M.which_cols (k + 1)
      else if k + 1 = lastcol M then c
      else M.which_cols k := rfl

theorem LoadNewColumn_coldata (M : DBM) (c k r : Nat) :
    (dbm_LoadNewColumn M c).coldata k r =
      if k + 1 < lastcol M then M.coldata (k + 1) r
      else if k + 1 = lastcol M then M.files c r
      else M.coldata k r := rfl

theorem LoadNewColumn_nodup (M : DBM) (c : Nat)
    (hnodup : ∀ a, a < lastcol M → ∀ b, b < lastcol M → a ≠ b →
      M.which_cols a ≠ M.which_cols b)
    (hnotin : ∀ k, k < lastcol M → M.which_cols k ≠ c) :
    ∀ a, a < lastcol M → ∀ b, b < lastcol M → a ≠ b →
      (dbm_LoadNewColumn M c).which_cols a ≠ (dbm_LoadNewColumn M c).which_cols b := by
  intro a ha b hb hab
  rw [LoadNewColumn_which, LoadNewColumn_which]
  rcases Nat.lt_or_ge (a + 1) (lastcol M) with ha1 | ha1
  · rcases Nat.lt_or_ge (b + 1) (lastcol M) with hb1 | hb1
    · rw [if_pos ha1, if_pos hb1]
      exact hnodup (a + 1) ha1 (b + 1) hb1 (by omega)
    · have hbL : b + 1 = lastcol M := by omega
      rw [if_pos ha1, if_neg (by omega), if_pos hbL]
      exact hnotin (a + 1) ha1
  · have haL : a + 1 = lastcol M := by omega
    rcases Nat.lt_or_ge (b + 1) (lastcol M) with hb1 | hb1
    · rw [if_neg (by omega), if_pos haL, if_pos hb1]
      exact fun h => hnotin (b + 1) hb1 h.symm
    · omega

theorem lastcol_LoadNewColumn (M : DBM) (c : Nat) :
    lastcol (dbm_LoadNewColumn M c) = lastcol M := by
  unfold lastcol
  obtain ⟨_, hcols, hmaxc, _⟩ := LoadNewColumn_proj M c
  rw [hcols, hmaxc]

theorem InColBuffer_LoadNewColumn_self (M : DBM) (c : Nat) (hlc0 : 0 < lastcol M) :
    dbm_InColBuffer (dbm_LoadNewColumn M c) c = some (lastcol M - 1) := by
  unfold dbm_InColBuffer
  rw [lastcol_LoadNewColumn]
  obtain ⟨m, hm⟩ : ∃ m, lastcol M = m + 1 := ⟨lastcol M - 1, by omega⟩
  rw [hm]
  unfold searchDown
  have hw : (dbm_LoadNewColumn M c).which_cols m = c := by
    rw [LoadNewColumn_which]
    rw [if_neg (by omega), if_pos (by omega)]
  rw [if_pos hw]
  simp

theorem InColBuffer_LoadNewColumn_evicted (M : DBM) (c : Nat)
    (hnodup : ∀ a, a < lastcol M → ∀ b, b < lastcol M → a ≠ b →
      M.which_cols a ≠ M.which_cols b)
    (hne : M.which_cols 0 ≠ c) (hlc0 : 0 < lastcol M) :
    dbm_InColBuffer (dbm_LoadNewColumn M c) (M.which_cols 0) = none := by
  unfold dbm_InColBuffer
  rw [lastcol_LoadNewColumn]
  apply searchDown_eq_none_iff.mpr
  intro k hk
  rw [LoadNewColumn_which]
  rcases Nat.lt_or_ge (k + 1) (lastcol M) with h1 | h1
  · rw [if_pos h1]
    exact fun h => hnodup (k + 1) h1 0 hlc0 (by omega) h
  · rw [if_neg (by omega), if_pos (by omega)]
    exact fun h => hne h.symm

theorem InColBuffer_LoadNewColumn_shift (M : DBM) (c x k0 : Nat)
    (hnodup : ∀ a, a < lastcol M → ∀ b, b < lastcol M → a ≠ b →
      M.which_cols a ≠ M.which_cols b)
    (hnotin : ∀ k, k < lastcol M → M.which_cols k ≠ c)
    (hk0 : k0 < lastcol M) (h1 : 1 ≤ k0) (hx : M.which_cols k0 = x) :
    dbm_InColBuffer (dbm_LoadNewColumn M c) x = some (k0 - 1) := by
  unfold dbm_InColBuffer
  rw [lastcol_LoadNewColumn]
  apply searchDown_unique (LoadNewColumn_nodup M c hnodup hnotin) (by omega)
  rw [LoadNewColumn_which, if_pos (by omega)]
  rw [show k0 - 1 + 1 = k0 by omega]
  exact hx

theorem InColBuffer_LoadNewColumn_absent (M : DBM) (c x : Nat)
    (hnot : ∀ k, k < lastcol M → M.which_cols k ≠ x) (hxc : x ≠ c) :
    dbm_InColBuffer (dbm_LoadNewColumn M c) x = none := by
  unfold dbm_InColBuffer
  rw [lastcol_LoadNewColumn]
  apply searchDown_eq_none_iff.mpr
  intro k hk
  rw [LoadNewColumn_which]
  rcases Nat.lt_or_ge (k + 1) (lastcol M) with h1 | h1
  · rw [if_pos h1]; exact hnot (k + 1) h1
  · rw [if_neg (by omega), if_pos (by omega)]
    exact fun h => hxc h.symm

theorem LoadNewColumn_spec (M : DBM) (c : Nat) (hWF : WF M)
    (hnotin : ∀ k, k < lastcol M → M.which_cols k ≠ c) (hc : c < M.cols)
    (hlc0 : 0 < lastcol M)
    (hflush : ∀ r, r < M.rows → M.files (M.which_cols 0) r = M.coldata 0 r)
    (hseg : M.colmode = false → ∀ t, t < M.max_rows →
      M.rowdata c t = M.files c (M.first_rowdata + t)) :
    sameShape M (dbm_LoadNewColumn M c) ∧ avEq M (dbm_LoadNewColumn M c) ∧
    WF (dbm_LoadNewColumn M c) := by
  obtain ⟨hrows, hcols, hmaxc, hmaxr, hrowd, hfirst, hfiles, hclsh, hclr, hclc,
    hcmode, hro⟩ := LoadNewColumn_proj M c
  have hshape : sameShape M (dbm_LoadNewColumn M c) :=
    ⟨hrows, hcols, hmaxc, hmaxr, hcmode, hro⟩
  have hlc : lastcol (dbm_LoadNewColumn M c) = lastcol M := lastcol_LoadNewColumn M c
  have haveq : avEq M (dbm_LoadNewColumn M c) := by
    intro r c' hr hc'
    unfold av
    rw [hcmode, hfirst, hmaxr, hrowd]
    by_cases hwc : M.colmode = false ∧ M.first_rowdata ≤ r ∧
        r < M.first_rowdata + M.max_rows
    · rw [if_pos hwc, if_pos hwc]
    · rw [if_neg hwc, if_neg hwc]
      cases hicbc : dbm_InColBuffer M c' with
      | some k =>
        obtain ⟨hkL, hkc, _⟩ := searchDown_eq_some hicbc
        rcases Nat.eq_zero_or_pos k with rfl | hkpos
        · -- the evicted column: now read back from its (just flushed) file
          have hne0 : M.which_cols 0 ≠ c := hnotin 0 hlc0
          rw [← hkc]
          rw [InColBuffer_LoadNewColumn_evicted M c hWF.hnodup hne0 hlc0]
          dsimp only
          rw [hfiles]
          exact hflush r hr
        · -- a surviving column: shifted down one slot
          rw [InColBuffer_LoadNewColumn_shift M c c' k hWF.hnodup hnotin hkL hkpos hkc]
          dsimp only
          rw [LoadNewColumn_coldata, if_pos (by omega)]
          rw [show k - 1 + 1 = k by omega]
      | none =>
        have hnot := searchDown_eq_none_iff.mp hicbc
        rcases eq_or_ne c' c with rfl | hne
        · -- the newly loaded column: cache now holds its file image
          rw [InColBuffer_LoadNewColumn_self M c' hlc0]
          dsimp only
          rw [LoadNewColumn_coldata, if_neg (by omega), if_pos (by omega)]
        · rw [InColBuffer_LoadNewColumn_absent M c c' hnot hne]
          dsimp only
          rw [hfiles]
  refine ⟨hshape, haveq, ?_⟩
  constructor
  · rw [hmaxc]; exact hWF.hmc
  · rw [hlc, hcols]
    intro k hk
    rw [LoadNewColumn_which]
    rcases Nat.lt_or_ge (k + 1) (lastcol M) with h1 | h1
    · rw [if_pos h1]; exact hWF.hmem (k + 1) h1
    · rw [if_neg (by omega), if_pos (by omega)]; exact hc
  · rw [hlc]; exact LoadNewColumn_nodup M c hWF.hnodup hnotin
  · rw [hrows, hmaxr]; exact hWF.hmr_le
  · rw [hrows, hmaxr]; exact hWF.hmr_pos
  · rw [hcmode, hfirst, hmaxr, hrows]; exact hWF.hwin
  · rw [hclsh, hcmode, hfirst, hclr, hclc, hmaxr, hcols]; exact hWF.hclash
  · rw [hcmode, hlc, hfirst, hmaxr, hrowd, hclsh, hclr, hclc]
    intro hcmf k hk t ht
    rw [LoadNewColumn_coldata, LoadNewColumn_which]
    rcases Nat.lt_or_ge (k + 1) (lastcol M) with h1 | h1
    · rw [if_pos h1, if_pos h1]
      exact hWF.hcoher hcmf (k + 1) h1 t ht
    · rw [if_neg (by omega), if_pos (by omega), if_neg (by omega), if_pos (by omega)]
      left
      exact (hseg hcmf t ht).symm
  · rw [hro, hlc, hrows, hfiles]
    intro hrof k hk r hrr
    rw [LoadNewColumn_coldata, LoadNewColumn_which]
    rcases Nat.lt_or_ge (k + 1) (lastcol M) with h1 | h1
    · rw [if_pos h1, if_pos h1]
      exact hWF.hro_col hrof (k + 1) h1 r hrr
    · rw [if_neg (by omega), if_pos (by omega), if_neg (by omega), if_pos (by omega)]
  · rw [hro, hcmode, hcols, hmaxr, hrowd, hfiles, hfirst]
    exact hWF.hro_row

theorem LoadRowBuffer_proj (M : DBM) (row : Nat) :
    (dbm_LoadRowBuffer M row).rows = M.rows ∧
    (dbm_LoadRowBuffer M row).cols = M.cols ∧
    (dbm_LoadRowBuffer M row).max_cols = M.max_cols ∧
    (dbm_LoadRowBuffer M row).max_rows = M.max_rows ∧
    (dbm_LoadRowBuffer M row).coldata = M.coldata ∧
    (dbm_LoadRowBuffer M row).which_cols = M.which_cols ∧
    (dbm_LoadRowBuffer M row).files = M.files ∧
    (dbm_LoadRowBuffer M row).rowcolclash = M.rowcolclash ∧
    (dbm_LoadRowBuffer M row).clash_row = M.clash_row ∧
    (dbm_LoadRowBuffer M row).clash_col = M.clash_col ∧
    (dbm_LoadRowBuffer M row).colmode = M.colmode ∧
    (dbm_LoadRowBuffer M row).readonly = M.readonly := by
  simp [dbm_LoadRowBuffer]

theorem LoadRowBuffer_first (M : DBM) (row : Nat) (hmrle : M.max_rows ≤ M.rows) :
    (dbm_LoadRowBuffer M row).first_rowdata =
      if M.rows - M.max_rows < row then M.rows - M.max_rows else row := by
  unfold dbm_LoadRowBuffer
  dsimp only
  by_cases h : M.rows - M.max_rows < row
  · rw [if_pos h, if_pos (by omega)]
    omega
  · rw [if_neg h, if_neg (by omega)]
    omega

theorem LoadRowBuffer_rowdata (M : DBM) (row j i : Nat) :
    (dbm_LoadRowBuffer M row).rowdata j i =
      if j < M.cols ∧ i < M.max_rows then
        match dbm_InColBuffer M j with
        | some k => M.coldata k ((dbm_LoadRowBuffer M row).first_rowdata + i)
        | none => M.files j ((dbm_LoadRowBuffer M row).first_rowdata + i)
      else M.rowdata j i := rfl

theorem LoadRowBuffer_spec (M : DBM) (row : Nat) (hWF : WF M)
    (hcm : M.colmode = false) (hnoclash : M.rowcolclash = false)
    (hrowlt : row < M.rows)
    (hfilesWin : ∀ j, j < M.cols → ∀ t, t < M.max_rows →
      M.files j (M.first_rowdata + t) = M.rowdata j t) :
    sameShape M (dbm_LoadRowBuffer M row) ∧ avEq M (dbm_LoadRowBuffer M row) ∧
    WF (dbm_LoadRowBuffer M row) ∧
    (dbm_LoadRowBuffer M row).first_rowdata ≤ row ∧
    row < (dbm_LoadRowBuffer M row).first_rowdata + M.max_rows := by
  obtain ⟨hrows, hcols, hmaxc, hmaxr, hcold, hwhich, hfiles, hclsh, hclr, hclc,
    hcmode, hro⟩ := LoadRowBuffer_proj M row
  have hrpos : 0 < M.rows := by omega
  have hmrle : M.max_rows ≤ M.rows := hWF.hmr_le hrpos
  have hmr1 : 1 ≤ M.max_rows := hWF.hmr_pos hrpos
  have hfr := LoadRowBuffer_first M row hmrle
  set fr := (dbm_LoadRowBuffer M row).first_rowdata with hfrdef
  have hfr1 : fr ≤ row := by rw [hfr]; split <;> omega
  have hfr2 : row < fr + M.max_rows := by rw [hfr]; split <;> omega
  have hfr3 : fr + M.max_rows ≤ M.rows := by rw [hfr]; split <;> omega
  have hshape : sameShape M (dbm_LoadRowBuffer M row) :=
    ⟨hrows, hcols, hmaxc, hmaxr, hcmode, hro⟩
  have hlc : lastcol (dbm_LoadRowBuffer M row) = lastcol M := lastcol_eq_of_sameShape hshape
  have hicb : ∀ c, dbm_InColBuffer (dbm_LoadRowBuffer M row) c = dbm_InColBuffer M c :=
    fun c => InColBuffer_congr hwhich hcols hmaxc c
  have hcoherE : ∀ k, k < lastcol M → ∀ t, t < M.max_rows →
      M.coldata k (M.first_rowdata + t) = M.rowdata (M.which_cols k) t := by
    intro k hk t ht
    rcases hWF.hcoher hcm k hk t ht with h | ⟨hcl, _⟩
    · exact h
    · rw [hnoclash] at hcl; exact absurd hcl (by simp)
  have haveq : avEq M (dbm_LoadRowBuffer M row) := by
    intro r c hr hc
    unfold av
    rw [hcmode, hmaxr, hicb c, ← hfrdef]
    by_cases hnew : M.colmode = false ∧ fr ≤ r ∧ r < fr + M.max_rows
    · rw [if_pos hnew]
      rw [LoadRowBuffer_rowdata, ← hfrdef]
      rw [if_pos ⟨hc, by omega⟩]
      have harith : fr + (r - fr) = r := by omega
      by_cases hold : M.colmode = false ∧ M.first_rowdata ≤ r ∧
          r < M.first_rowdata + M.max_rows
      · rw [if_pos hold]
        cases hicbc : dbm_InColBuffer M c with
        | some k =>
          dsimp only
          rw [harith]
          obtain ⟨hkL, hkc, _⟩ := searchDown_eq_some hicbc
          have := hcoherE k hkL (r - M.first_rowdata) (by omega)
          rw [show M.first_rowdata + (r - M.first_rowdata) = r by omega] at this
          rw [this, hkc]
        | none =>
          dsimp only
          rw [harith]
          have := hfilesWin c hc (r - M.first_rowdata) (by omega)
          rw [show M.first_rowdata + (r - M.first_rowdata) = r by omega] at this
          rw [this]
      · rw [if_neg hold]
        cases hicbc : dbm_InColBuffer M c with
        | some k => dsimp only; rw [harith]
        | none => dsimp only; rw [harith]
    · rw [if_neg hnew]
      by_cases hold : M.colmode = false ∧ M.first_rowdata ≤ r ∧
          r < M.first_rowdata + M.max_rows
      · rw [if_pos hold]
        -- rows leaving the window: their cache or file copy is up to date
        cases hicbc : dbm_InColBuffer M c with
        | some k =>
          dsimp only
          rw [hcold]
          obtain ⟨hkL, hkc, _⟩ := searchDown_eq_some hicbc
          have := hcoherE k hkL (r - M.first_rowdata) (by omega)
          rw [show M.first_rowdata + (r - M.first_rowdata) = r by omega] at this
          rw [this, hkc]
        | none =>
          dsimp only
          rw [hfiles]
          have := hfilesWin c hc (r - M.first_rowdata) (by omega)
          rw [show M.first_rowdata + (r - M.first_rowdata) = r by omega] at this
          rw [this]
      · rw [if_neg hold]
        cases dbm_InColBuffer M c with
        | some k => dsimp only; rw [hcold]
        | none => dsimp only; rw [hfiles]
  refine ⟨hshape, haveq, ?_, hfr1, hfr2⟩
  constructor
  · rw [hmaxc]; exact hWF.hmc
  · rw [hlc, hwhich, hcols]; exact hWF.hmem
  · rw [hlc, hwhich]; exact hWF.hnodup
  · rw [hrows, hmaxr]; exact hWF.hmr_le
  · rw [hrows, hmaxr]; exact hWF.hmr_pos
  · rw [hmaxr, hrows, ← hfrdef]
    intro _
    exact hfr3
  · rw [hclsh, hnoclash]
    intro h; exact absurd h (by simp)
  · rw [hcmode, hlc, hwhich, hmaxr, hcold, hclsh, ← hfrdef]
    intro hcmf k hk t ht
    rw [LoadRowBuffer_rowdata, ← hfrdef]
    rw [if_pos ⟨hWF.hmem k hk, ht⟩]
    have hu : dbm_InColBuffer M (M.which_cols k) = some k :=
      searchDown_unique hWF.hnodup hk rfl
    rw [hu]
    left
    rfl
  · rw [hro, hlc, hwhich, hrows, hcold, hfiles]
    exact hWF.hro_col
  · rw [hro, hcmode, hcols, hmaxr, hfiles, ← hfrdef]
    intro hrof hcmf j hj t ht
    rw [LoadRowBuffer_rowdata, ← hfrdef]
    rw [if_pos ⟨hj, ht⟩]
    cases hicbc : dbm_InColBuffer M j with
    | some k =>
      dsimp only
      obtain ⟨hkL, hkc, _⟩ := searchDown_eq_some hicbc
      have := hWF.hro_col hrof k hkL (fr + t) (by omega)
      rw [this, hkc]
    | none => rfl

theorem SetClash_spec (M : DBM) (row col : Nat) (hWF : WF M)
    (hnoclash : M.rowcolclash = false) (hcm : M.colmode = false)
    (hr1 : M.first_rowdata ≤ row) (hr2 : row < M.first_rowdata + M.max_rows)
    (hcol : col < M.cols) :
    sameShape M (dbm_SetClash M row col) ∧ avEq M (dbm_SetClash M row col) ∧
    WF (dbm_SetClash M row col) := by
  refine ⟨⟨rfl, rfl, rfl, rfl, rfl, rfl⟩, fun _ _ _ _ => rfl, ?_⟩
  have hlc : lastcol (dbm_SetClash M row col) = lastcol M := rfl
  constructor
  · exact hWF.hmc
  · exact hWF.hmem
  · exact hWF.hnodup
  · exact hWF.hmr_le
  · exact hWF.hmr_pos
  · exact hWF.hwin
  · intro _
    exact ⟨hcm, hr1, hr2, hcol⟩
  · intro hcmf k hk t ht
    rcases hWF.hcoher hcmf k hk t ht with h | ⟨hcl, _⟩
    · left; exact h
    · rw [hnoclash] at hcl; exact absurd hcl (by simp)
  · exact hWF.hro_col
  · exact hWF.hro_row

theorem readLoc_eq_av (N : DBM) (l : Loc) (r c : Nat) (h : LocOK N l r c) :
    readLoc N l = av N r c := by
  cases l with
  | rowbuf c' i =>
    obtain ⟨rfl, rfl, hcm, h1, h2, _⟩ := h
    unfold readLoc av
    rw [if_pos ⟨hcm, h1, h2⟩]
  | colbuf k row' =>
    obtain ⟨rfl, hicb, hnw⟩ := h
    unfold readLoc av
    rw [if_neg hnw, hicb]

theorem writeLoc_rowbuf_proj (N : DBM) (c' i : Nat) (v : D) :
    (writeLoc N (Loc.rowbuf c' i) v).rows = N.rows ∧
    (writeLoc N (Loc.rowbuf c' i) v).cols = N.cols ∧
    (writeLoc N (Loc.rowbuf c' i) v).max_cols = N.max_cols ∧
    (writeLoc N (Loc.rowbuf c' i) v).max_rows = N.max_rows ∧
    (writeLoc N (Loc.rowbuf c' i) v).coldata = N.coldata ∧
    (writeLoc N (Loc.rowbuf c' i) v).first_rowdata = N.first_rowdata ∧
    (writeLoc N (Loc.rowbuf c' i) v).which_cols = N.which_cols ∧
    (writeLoc N (Loc.rowbuf c' i) v).files = N.files ∧
    (writeLoc N (Loc.rowbuf c' i) v).rowcolclash = N.rowcolclash ∧
    (writeLoc N (Loc.rowbuf c' i) v).clash_row = N.clash_row ∧
    (writeLoc N (Loc.rowbuf c' i) v).clash_col = N.clash_col ∧
    (writeLoc N (Loc.rowbuf c' i) v).colmode = N.colmode ∧
    (writeLoc N (Loc.rowbuf c' i) v).readonly = N.readonly := by
  simp [writeLoc]

theorem writeLoc_rowbuf_rowdata (N : DBM) (c' i : Nat) (v : D) (a b : Nat) :
    (writeLoc N (Loc.rowbuf c' i) v).rowdata a b =
      if a = c' ∧ b = i then v else N.rowdata a b := rfl

theorem writeLoc_colbuf_proj (N : DBM) (k row' : Nat) (v : D) :
    (writeLoc N (Loc.colbuf k row') v).rows = N.rows ∧
    (writeLoc N (Loc.colbuf k row') v).cols = N.cols ∧
    (writeLoc N (Loc.colbuf k row') v).max_cols = N.max_cols ∧
    (writeLoc N (Loc.colbuf k row') v).max_rows = N.max_rows ∧
    (writeLoc N (Loc.colbuf k row') v).rowdata = N.rowdata ∧
    (writeLoc N (Loc.colbuf k row') v).first_rowdata = N.first_rowdata ∧
    (writeLoc N (Loc.colbuf k row') v).which_cols = N.which_cols ∧
    (writeLoc N (Loc.colbuf k row') v).files = N.files ∧
    (writeLoc N (Loc.colbuf k row') v).rowcolclash = N.rowcolclash ∧
    (writeLoc N (Loc.colbuf k row') v).clash_row = N.clash_row ∧
    (writeLoc N (Loc.colbuf k row') v).clash_col = N.clash_col ∧
    (writeLoc N (Loc.colbuf k row') v).colmode = N.colmode ∧
    (writeLoc N (Loc.colbuf k row') v).readonly = N.readonly := by
  simp [writeLoc]

theorem writeLoc_colbuf_coldata (N : DBM) (k row' : Nat) (v : D) (a b : Nat) :
    (writeLoc N (Loc.colbuf k row') v).coldata a b =
      if a = k ∧ b = row' then v else N.coldata a b := rfl

theorem writeLoc_spec (N : DBM) (l : Loc) (r c : Nat) (v : D) (hWF : WF N)
    (hly : LocOK N l r c) (hr : r < N.rows) (hc : c < N.cols)
    (hro : N.readonly = false) :
    sameShape N (writeLoc N l v) ∧ WF (writeLoc N l v) ∧
    av (writeLoc N l v) r c = v ∧
    (∀ r' c', r' < N.rows → c' < N.cols → (r' ≠ r ∨ c' ≠ c) →
      av (writeLoc N l v) r' c' = av N r' c') := by
  cases l with
  | rowbuf c' i =>
    obtain ⟨rfl, rfl, hcm, h1, h2, hcov⟩ := hly
    obtain ⟨hrows, hcols, hmaxc, hmaxr, hcold, hfirst, hwhich, hfiles, hclsh, hclr,
      hclc, hcmode, hrop⟩ := writeLoc_rowbuf_proj N c' (r - N.first_rowdata) v
    have hshape : sameShape N (writeLoc N (Loc.rowbuf c' (r - N.first_rowdata)) v) :=
      ⟨hrows, hcols, hmaxc, hmaxr, hcmode, hrop⟩
    have hlc : lastcol (writeLoc N (Loc.rowbuf c' (r - N.first_rowdata)) v) =
        lastcol N := lastcol_eq_of_sameShape hshape
    have hicb : ∀ x, dbm_InColBuffer
        (writeLoc N (Loc.rowbuf c' (r - N.first_rowdata)) v) x = dbm_InColBuffer N x :=
      fun x => InColBuffer_congr hwhich hcols hmaxc x
    refine ⟨hshape, ?_, ?_, ?_⟩
    · constructor
      · rw [hmaxc]; exact hWF.hmc
      · rw [hlc, hwhich, hcols]; exact hWF.hmem
      · rw [hlc, hwhich]; exact hWF.hnodup
      · rw [hrows, hmaxr]; exact hWF.hmr_le
      · rw [hrows, hmaxr]; exact hWF.hmr_pos
      · rw [hcmode, hfirst, hmaxr, hrows]; exact hWF.hwin
      · rw [hclsh, hcmode, hfirst, hclr, hclc, hmaxr, hcols]; exact hWF.hclash
      · rw [hcmode, hlc, hwhich, hfirst, hmaxr, hcold, hclsh, hclr, hclc]
        intro hcmf k hk t ht
        rw [writeLoc_rowbuf_rowdata]
        by_cases hhit : N.which_cols k = c' ∧ t = r - N.first_rowdata
        · rw [if_pos hhit]
          rcases hcov with hnone | ⟨hcl, hclr2, hclc2⟩
          · exfalso
            exact searchDown_eq_none_iff.mp hnone k hk hhit.1
          · right
            refine ⟨hcl, ?_, ?_⟩
            · rw [hclc2, hhit.1]
            · rw [hclr2]; omega
        · rw [if_neg hhit]
          rcases hWF.hcoher hcmf k hk t ht with h | hcl
          · left; exact h
          · right; exact hcl
      · rw [hrop, hro]
        intro hrof
        exact absurd hrof (by simp)
      · rw [hrop, hro]
        intro hrof
        exact absurd hrof (by simp)
    · unfold av
      rw [hcmode, hfirst, hmaxr]
      rw [if_pos ⟨hcm, h1, h2⟩]
      rw [writeLoc_rowbuf_rowdata]
      rw [if_pos ⟨rfl, rfl⟩]
    · intro r' cc hr' hcc hne
      unfold av
      rw [hcmode, hfirst, hmaxr, hicb cc, hcold, hfiles]
      by_cases hwc : N.colmode = false ∧ N.first_rowdata ≤ r' ∧
          r' < N.first_rowdata + N.max_rows
      · rw [if_pos hwc, if_pos hwc]
        rw [writeLoc_rowbuf_rowdata]
        rw [if_neg ?hgoal]
        case hgoal =>
          rintro ⟨rfl, hi⟩
          rcases hne with hner | hnec
          · exact hner (by omega)
          · exact hnec rfl
      · rw [if_neg hwc, if_neg hwc]
  | colbuf k row' =>
    obtain ⟨hre, hicbN, hnw⟩ := hly
    have hre2 : r = row' := hre.symm
    subst hre2
    obtain ⟨hkL, hkc, _⟩ := searchDown_eq_some hicbN
    obtain ⟨hrows, hcols, hmaxc, hmaxr, hrowd, hfirst, hwhich, hfiles, hclsh, hclr,
      hclc, hcmode, hrop⟩ := writeLoc_colbuf_proj N k r v
    have hshape : sameShape N (writeLoc N (Loc.colbuf k r) v) :=
      ⟨hrows, hcols, hmaxc, hmaxr, hcmode, hrop⟩
    have hlc : lastcol (writeLoc N (Loc.colbuf k r) v) = lastcol N :=
      lastcol_eq_of_sameShape hshape
    have hicb : ∀ x, dbm_InColBuffer (writeLoc N (Loc.colbuf k r) v) x =
        dbm_InColBuffer N x :=
      fun x => InColBuffer_congr hwhich hcols hmaxc x
    refine ⟨hshape, ?_, ?_, ?_⟩
    · constructor
      · rw [hmaxc]; exact hWF.hmc
      · rw [hlc, hwhich, hcols]; exact hWF.hmem
      · rw [hlc, hwhich]; exact hWF.hnodup
      · rw [hrows, hmaxr]; exact hWF.hmr_le
      · rw [hrows, hmaxr]; exact hWF.hmr_pos
      · rw [hcmode, hfirst, hmaxr, hrows]; exact hWF.hwin
      · rw [hclsh, hcmode, hfirst, hclr, hclc, hmaxr, hcols]; exact hWF.hclash
      · rw [hcmode, hlc, hwhich, hfirst, hmaxr, hrowd, hclsh, hclr, hclc]
        intro hcmf k' hk' t ht
        rw [writeLoc_colbuf_coldata]
        rw [if_neg ?hgoal2]
        case hgoal2 =>
          rintro ⟨rfl, hrow⟩
          exact hnw ⟨hcmf, by omega, by omega⟩
        rcases hWF.hcoher hcmf k' hk' t ht with h | hcl
        · left; exact h
        · right; exact hcl
      · rw [hrop, hro]
        intro hrof
        exact absurd hrof (by simp)
      · rw [hrop, hro]
        intro hrof
        exact absurd hrof (by simp)
    · unfold av
      rw [hcmode, hfirst, hmaxr]
      rw [if_neg hnw, hicb c, hicbN]
      dsimp only
      rw [writeLoc_colbuf_coldata]
      rw [if_pos ⟨rfl, rfl⟩]
    · intro r' cc hr' hcc hne
      unfold av
      rw [hcmode, hfirst, hmaxr, hicb cc, hrowd, hfiles]
      by_cases hwc : N.colmode = false ∧ N.first_rowdata ≤ r' ∧
          r' < N.first_rowdata + N.max_rows
      · rw [if_pos hwc, if_pos hwc]
      · rw [if_neg hwc, if_neg hwc]
        cases hicbc : dbm_InColBuffer N cc with
        | none => rfl
        | some k2 =>
          dsimp only
          obtain ⟨hk2L, hk2c, _⟩ := searchDown_eq_some hicbc
          rw [writeLoc_colbuf_coldata]
          rw [if_neg ?hgoal3]
          case hgoal3 =>
            rintro ⟨rfl, rfl⟩
            rcases hne with hner | hnec
            · exact hner rfl
            · exact hnec (by rw [← hk2c, hkc])

theorem internalGet_eq (M : DBM) (row col : Nat) :
    dbm_internalgetValue M row col =
      if M.colmode = false then
        igvRow (if M.rowcolclash then dbm_ClearClash M else M) row col
      else igvCol M row col := rfl

/-- The file-miss path in row mode (after the buffers were flushed, or in
read-only mode where they are known clean): reload the row window around
`r`, bring column `c` into the cache, record the clash. -/
theorem missChain_spec (M2 : DBM) (r c : Nat) (hWF : WF M2)
    (hcm : M2.colmode = false) (hnc : M2.rowcolclash = false)
    (hr : r < M2.rows) (hc : c < M2.cols) (hlc0 : 0 < lastcol M2)
    (hnotin : ∀ k, k < lastcol M2 → M2.which_cols k ≠ c)
    (hfilesWin : ∀ j, j < M2.cols → ∀ t, t < M2.max_rows →
      M2.files j (M2.first_rowdata + t) = M2.rowdata j t)
    (hflush : ∀ rr, rr < M2.rows → M2.files (M2.which_cols 0) rr = M2.coldata 0 rr) :
    sameShape M2 (dbm_SetClash (dbm_LoadNewColumn (dbm_LoadRowBuffer M2 r) c) r c) ∧
    avEq M2 (dbm_SetClash (dbm_LoadNewColumn (dbm_LoadRowBuffer M2 r) c) r c) ∧
    WF (dbm_SetClash (dbm_LoadNewColumn (dbm_LoadRowBuffer M2 r) c) r c) ∧
    LocOK (dbm_SetClash (dbm_LoadNewColumn (dbm_LoadRowBuffer M2 r) c) r c)
      (Loc.rowbuf c (r - (dbm_SetClash (dbm_LoadNewColumn
        (dbm_LoadRowBuffer M2 r) c) r c).first_rowdata)) r c := by
  obtain ⟨s3, a3, w3, hfr1, hfr2⟩ := LoadRowBuffer_spec M2 r hWF hcm hnc hr hfilesWin
  set M3 := dbm_LoadRowBuffer M2 r with hM3
  obtain ⟨hrows3, hcols3, hmaxc3, hmaxr3, hcold3, hwhich3, hfiles3, hclsh3, hclr3,
    hclc3, hcmode3, hro3⟩ := LoadRowBuffer_proj M2 r
  have hlc3 : lastcol M3 = lastcol M2 := lastcol_eq_of_sameShape s3
  have hnotin3 : ∀ k, k < lastcol M3 → M3.which_cols k ≠ c := by
    rw [hlc3, hwhich3]; exact hnotin
  have hicb3 : dbm_InColBuffer M3 c = none := by
    apply searchDown_eq_none_iff.mpr
    intro k hk
    exact hnotin3 k hk
  have hicb2 : dbm_InColBuffer M2 c = none :=
    searchDown_eq_none_iff.mpr hnotin
  have hflush3 : ∀ rr, rr < M3.rows → M3.files (M3.which_cols 0) rr = M3.coldata 0 rr := by
    rw [hrows3, hwhich3, hfiles3, hcold3]
    exact hflush
  have hseg3 : M3.colmode = false → ∀ t, t < M3.max_rows →
      M3.rowdata c t = M3.files c (M3.first_rowdata + t) := by
    intro _ t ht
    rw [hmaxr3] at ht
    rw [LoadRowBuffer_rowdata, if_pos ⟨hc, ht⟩, hicb2, hfiles3]
  obtain ⟨s4, a4, w4⟩ := LoadNewColumn_spec M3 c w3 hnotin3 (hcols3 ▸ hc)
    (by omega) (hrows3 ▸ hflush3) hseg3
  set M4 := dbm_LoadNewColumn M3 c with hM4
  obtain ⟨hrows4, hcols4, hmaxc4, hmaxr4, hrowd4, hfirst4, hfiles4, hclsh4, hclr4,
    hclc4, hcmode4, hro4⟩ := LoadNewColumn_proj M3 c
  have hcm4 : M4.colmode = false := by rw [hcmode4, hcmode3]; exact hcm
  have hnc4 : M4.rowcolclash = false := by rw [hclsh4, hclsh3]; exact hnc
  have hw4a : M4.first_rowdata ≤ r := by rw [hfirst4]; exact hfr1
  have hw4b : r < M4.first_rowdata + M4.max_rows := by
    rw [hfirst4, hmaxr4, hmaxr3]; exact hfr2
  have hc4 : c < M4.cols := by rw [hcols4, hcols3]; exact hc
  obtain ⟨s5, a5, w5⟩ := SetClash_spec M4 r c w4 hnc4 hcm4 hw4a hw4b hc4
  refine ⟨sameShape_trans s3 (sameShape_trans s4 s5),
    avEq_trans s3 a3 (avEq_trans s4 a4 a5), w5, ?_⟩
  -- the location is valid in the final state
  refine ⟨rfl, rfl, ?_, ?_, ?_, Or.inr ⟨rfl, rfl, rfl⟩⟩
  · exact hcm4
  · exact hw4a
  · exact hw4b

theorem igvRow_spec (M1 : DBM) (r c : Nat) (hWF : WF M1)
    (hcm : M1.colmode = false) (hnc : M1.rowcolclash = false)
    (hr : r < M1.rows) (hc : c < M1.cols) :
    sameShape M1 (igvRow M1 r c).1 ∧ avEq M1 (igvRow M1 r c).1 ∧
    WF (igvRow M1 r c).1 ∧ LocOK (igvRow M1 r c).1 (igvRow M1 r c).2 r c ∧
    (dbm_InColBuffer M1 c ≠ none → (igvRow M1 r c).1.which_cols = M1.which_cols) := by
  have hlc0 : 0 < lastcol M1 := by
    have := hWF.hmc
    unfold lastcol
    split <;> omega
  have hcoherE : ∀ k, k < lastcol M1 → ∀ t, t < M1.max_rows →
      M1.coldata k (M1.first_rowdata + t) = M1.rowdata (M1.which_cols k) t := by
    intro k hk t ht
    rcases hWF.hcoher hcm k hk t ht with h | ⟨hcl, _⟩
    · exact h
    · rw [hnc] at hcl; exact absurd hcl (by simp)
  by_cases hirb : dbm_InRowBuffer M1 r = true
  · -- row-window hit
    have hwin : M1.first_rowdata ≤ r ∧ r < M1.first_rowdata + M1.max_rows := by
      have := of_decide_eq_true hirb
      exact this
    have higv : igvRow M1 r c =
        (match dbm_InColBuffer M1 c with
          | some _ => dbm_SetClash M1 r c
          | none => M1,
         Loc.rowbuf c (r - (match dbm_InColBuffer M1 c with
          | some _ => dbm_SetClash M1 r c
          | none => M1).first_rowdata)) := by
      unfold igvRow
      rw [if_pos hirb]
    cases hicbc : dbm_InColBuffer M1 c with
    | some k =>
      rw [higv, hicbc]
      dsimp only
      obtain ⟨s2, a2, w2⟩ := SetClash_spec M1 r c hWF hnc hcm hwin.1 hwin.2 hc
      refine ⟨s2, a2, w2, ?_, fun _ => rfl⟩
      exact ⟨rfl, rfl, hcm, hwin.1, hwin.2, Or.inr ⟨rfl, rfl, rfl⟩⟩
    | none =>
      rw [higv, hicbc]
      dsimp only
      refine ⟨sameShape_refl M1, avEq_refl M1, hWF, ?_, fun _ => rfl⟩
      exact ⟨rfl, rfl, hcm, hwin.1, hwin.2, Or.inl hicbc⟩
  · -- not in the row window
    have hnwin : ¬(M1.first_rowdata ≤ r ∧ r < M1.first_rowdata + M1.max_rows) := by
      intro h
      exact hirb (decide_eq_true h)
    have higv : igvRow M1 r c =
        (match dbm_InColBuffer M1 c with
          | some curcol => (M1, Loc.colbuf curcol r)
          | none =>
            let M2 :=
              if M1.readonly = false then
                dbm_FlushOldestColumn (dbm_FlushRowBuffer M1)
              else M1
            let M3 := dbm_LoadRowBuffer M2 r
            let M4 := dbm_LoadNewColumn M3 c
            let M5 := dbm_SetClash M4 r c
            (M5, Loc.rowbuf c (r - M5.first_rowdata))) := by
      unfold igvRow
      rw [if_neg hirb]
    cases hicbc : dbm_InColBuffer M1 c with
    | some k =>
      rw [higv, hicbc]
      dsimp only
      refine ⟨sameShape_refl M1, avEq_refl M1, hWF, ?_, fun _ => rfl⟩
      exact ⟨rfl, hicbc, fun h => hnwin h.2⟩
    | none =>
      rw [higv, hicbc]
      dsimp only
      have hnotin : ∀ k, k < lastcol M1 → M1.which_cols k ≠ c :=
        searchDown_eq_none_iff.mp hicbc
      by_cases hro : M1.readonly = false
      · rw [if_pos hro]
        -- flush the row window, then the oldest column
        obtain ⟨sF, aF, wF⟩ := FlushRowBuffer_spec M1 hWF hcm
        set MF := dbm_FlushRowBuffer M1 with hMF
        obtain ⟨hrowsF, hcolsF, hmaxcF, hmaxrF, hcoldF, hrowdF, hfirstF, hwhichF,
          hclshF, hclrF, hclcF, hcmodeF, hroF⟩ := FlushRowBuffer_proj M1
        have hlcF : lastcol MF = lastcol M1 := lastcol_eq_of_sameShape sF
        obtain ⟨sO, aO, wO⟩ := FlushOldestColumn_spec MF wF (by omega)
        set M2 := dbm_FlushOldestColumn MF with hM2
        obtain ⟨hrows2, hcols2, hmaxc2, hmaxr2, hcold2, hrowd2, hfirst2, hwhich2,
          hclsh2, hclr2, hclc2, hcmode2, hro2⟩ := FlushOldestColumn_proj MF
        have hcm2 : M2.colmode = false := by rw [hcmode2, hcmodeF]; exact hcm
        have hnc2 : M2.rowcolclash = false := by rw [hclsh2, hclshF]; exact hnc
        have hr2 : r < M2.rows := by rw [hrows2, hrowsF]; exact hr
        have hc2 : c < M2.cols := by rw [hcols2, hcolsF]; exact hc
        have hlc2 : lastcol M2 = lastcol M1 := by
          rw [lastcol_eq_of_sameShape sO, hlcF]
        have hnotin2 : ∀ k, k < lastcol M2 → M2.which_cols k ≠ c := by
          rw [hlc2, hwhich2, hwhichF]; exact hnotin
        have hwin1 : M1.first_rowdata + M1.max_rows ≤ M1.rows := hWF.hwin hcm
        have hfilesWin2 : ∀ j, j < M2.cols → ∀ t, t < M2.max_rows →
            M2.files j (M2.first_rowdata + t) = M2.rowdata j t := by
          rw [hcols2, hcolsF, hmaxr2, hmaxrF, hfirst2, hfirstF, hrowd2, hrowdF]
          intro j hj t ht
          rw [FlushOldestColumn_files, hwhichF, hcoldF, hrowsF]
          by_cases hhit : j = M1.which_cols 0 ∧ M1.first_rowdata + t < M1.rows
          · rw [if_pos hhit]
            have := hcoherE 0 (by omega) t ht
            rw [this, hhit.1]
          · rw [if_neg hhit]
            rw [FlushRowBuffer_files]
            rw [if_pos ⟨hj, by omega, by omega⟩]
            congr 1
            omega
        have hflush2 : ∀ rr, rr < M2.rows →
            M2.files (M2.which_cols 0) rr = M2.coldata 0 rr := by
          rw [hrows2, hrowsF, hwhich2, hwhichF, hcold2, hcoldF]
          intro rr hrr
          rw [FlushOldestColumn_files, hwhichF, hcoldF, hrowsF]
          rw [if_pos ⟨rfl, hrr⟩]
        obtain ⟨sC, aC, wC, hloc⟩ := missChain_spec M2 r c wO hcm2 hnc2 hr2 hc2
          (by omega) hnotin2 hfilesWin2 hflush2
        refine ⟨sameShape_trans sF (sameShape_trans sO sC),
          avEq_trans sF aF (avEq_trans sO aO aC), wC, hloc, ?_⟩
        intro habs
        exact absurd rfl habs
      · rw [if_neg hro]
        have hrot : M1.readonly = true := by
          cases h : M1.readonly
          · exact absurd h hro
          · rfl
        have hfilesWin1 : ∀ j, j < M1.cols → ∀ t, t < M1.max_rows →
            M1.files j (M1.first_rowdata + t) = M1.rowdata j t := by
          intro j hj t ht
          exact (hWF.hro_row hrot hcm j hj t ht).symm
        have hflush1 : ∀ rr, rr < M1.rows →
            M1.files (M1.which_cols 0) rr = M1.coldata 0 rr := by
          intro rr hrr
          exact (hWF.hro_col hrot 0 hlc0 rr hrr).symm
        obtain ⟨sC, aC, wC, hloc⟩ := missChain_spec M1 r c hWF hcm hnc hr hc
          hlc0 hnotin hfilesWin1 hflush1
        refine ⟨sC, aC, wC, hloc, ?_⟩
        intro habs
        exact absurd rfl habs

theorem igvCol_spec (M : DBM) (r c : Nat) (hWF : WF M)
    (hcmT : M.colmode = true) (hr : r < M.rows) (hc : c < M.cols) :
    sameShape M (igvCol M r c).1 ∧ avEq M (igvCol M r c).1 ∧
    WF (igvCol M r c).1 ∧ LocOK (igvCol M r c).1 (igvCol M r c).2 r c ∧
    (dbm_InColBuffer M c ≠ none → (igvCol M r c).1.which_cols = M.which_cols) := by
  have hlc0 : 0 < lastcol M := by
    have := hWF.hmc
    unfold lastcol
    split <;> omega
  have hnwin : ¬(M.colmode = false ∧ M.first_rowdata ≤ r ∧
      r < M.first_rowdata + M.max_rows) := by
    intro h
    rw [hcmT] at h
    exact absurd h.1 (by simp)
  cases hicbc : dbm_InColBuffer M c with
  | some k =>
    have higv : igvCol M r c = (M, Loc.colbuf k r) := by
      unfold igvCol
      rw [hicbc]
    rw [higv]
    exact ⟨sameShape_refl M, avEq_refl M, hWF, ⟨rfl, hicbc, hnwin⟩, fun _ => rfl⟩
  | none =>
    have hnotin : ∀ k, k < lastcol M → M.which_cols k ≠ c :=
      searchDown_eq_none_iff.mp hicbc
    -- the cache cannot cover all columns here, so it is at full capacity
    have hfull : lastcol M = M.max_cols := by
      by_cases h : lastcol M = M.cols
      · exfalso
        obtain ⟨k, hk, hkc⟩ := all_cols_cached M hWF.hmem hWF.hnodup h c hc
        exact hnotin k hk hkc
      · unfold lastcol at h ⊢
        split at h
        · exact absurd rfl h
        · next hnlt => rw [if_neg hnlt]
    have higv : igvCol M r c =
        (dbm_LoadNewColumn (if M.readonly = false then dbm_FlushOldestColumn M else M) c,
         Loc.colbuf ((dbm_LoadNewColumn
           (if M.readonly = false then dbm_FlushOldestColumn M else M) c).max_cols - 1) r) := by
      unfold igvCol
      rw [hicbc]
    rw [higv]
    by_cases hro : M.readonly = false
    · rw [if_pos hro]
      obtain ⟨sO, aO, wO⟩ := FlushOldestColumn_spec M hWF hlc0
      set M1 := dbm_FlushOldestColumn M with hM1
      obtain ⟨hrows1, hcols1, hmaxc1, hmaxr1, hcold1, hrowd1, hfirst1, hwhich1,
        hclsh1, hclr1, hclc1, hcmode1, hro1⟩ := FlushOldestColumn_proj M
      have hlc1 : lastcol M1 = lastcol M := lastcol_eq_of_sameShape sO
      have hnotin1 : ∀ k, k < lastcol M1 → M1.which_cols k ≠ c := by
        rw [hlc1, hwhich1]; exact hnotin
      have hflush1 : ∀ rr, rr < M1.rows →
          M1.files (M1.which_cols 0) rr = M1.coldata 0 rr := by
        rw [hrows1, hwhich1, hcold1]
        intro rr hrr
        rw [FlushOldestColumn_files]
        rw [if_pos ⟨rfl, hrr⟩]
      have hseg1 : M1.colmode = false → ∀ t, t < M1.max_rows →
          M1.rowdata c t = M1.files c (M1.first_rowdata + t) := by
        intro h
        rw [hcmode1, hcmT] at h
        exact absurd h (by simp)
      obtain ⟨sL, aL, wL⟩ := LoadNewColumn_spec M1 c wO hnotin1 (hcols1 ▸ hc)
        (by omega) hflush1 hseg1
      set M2 := dbm_LoadNewColumn M1 c with hM2
      obtain ⟨hrows2, hcols2, hmaxc2, hmaxr2, hrowd2, hfirst2, hfiles2, hclsh2,
        hclr2, hclc2, hcmode2, hro2⟩ := LoadNewColumn_proj M1 c
      have hicb2 : dbm_InColBuffer M2 c = some (lastcol M1 - 1) :=
        InColBuffer_LoadNewColumn_self M1 c (by omega)
      have hmc2 : M2.max_cols - 1 = lastcol M1 - 1 := by
        rw [hmaxc2, hmaxc1, ← hfull, hlc1]
      have hnwin2 : ¬(M2.colmode = false ∧ M2.first_rowdata ≤ r ∧
          r < M2.first_rowdata + M2.max_rows) := by
        intro h
        rw [hcmode2, hcmode1, hcmT] at h
        exact absurd h.1 (by simp)
      refine ⟨sameShape_trans sO sL, avEq_trans sO aO aL, wL, ?_, ?_⟩
      · exact ⟨rfl, hmc2 ▸ hicb2, hnwin2⟩
      · intro habs
        exact absurd rfl habs
    · rw [if_neg hro]
      have hrot : M.readonly = true := by
        cases h : M.readonly
        · exact absurd h hro
        · rfl
      have hflush1 : ∀ rr, rr < M.rows →
          M.files (M.which_cols 0) rr = M.coldata 0 rr := by
        intro rr hrr
        exact (hWF.hro_col hrot 0 hlc0 rr hrr).symm
      have hseg1 : M.colmode = false → ∀ t, t < M.max_rows →
          M.rowdata c t = M.files c (M.first_rowdata + t) := by
        intro h
        rw [hcmT] at h
        exact absurd h (by simp)
      obtain ⟨sL, aL, wL⟩ := LoadNewColumn_spec M c hWF hnotin hc hlc0 hflush1 hseg1
      set M2 := dbm_LoadNewColumn M c with hM2
      obtain ⟨hrows2, hcols2, hmaxc2, hmaxr2, hrowd2, hfirst2, hfiles2, hclsh2,
        hclr2, hclc2, hcmode2, hro2⟩ := LoadNewColumn_proj M c
      have hicb2 : dbm_InColBuffer M2 c = some (lastcol M - 1) :=
        InColBuffer_LoadNewColumn_self M c hlc0
      have hmc2 : M2.max_cols - 1 = lastcol M - 1 := by
        rw [hmaxc2, ← hfull]
      have hnwin2 : ¬(M2.colmode = false ∧ M2.first_rowdata ≤ r ∧
          r < M2.first_rowdata + M2.max_rows) := by
        intro h
        rw [hcmode2, hcmT] at h
        exact absurd h.1 (by simp)
      refine ⟨sL, aL, wL, ?_, ?_⟩
      · exact ⟨rfl, hmc2 ▸ hicb2, hnwin2⟩
      · intro habs
        exact absurd rfl habs

/-- Full specification of `dbm_internalgetValue` on a well-formed state with
an in-range cell: the dimensions and modes are unchanged, every cell's
abstract value is unchanged, well-formedness is preserved, the returned
location is valid (so dereferencing it yields the cell's value), and a cache
hit never changes the cache order. -/
theorem internalGet_spec (M : DBM) (r c : Nat) (hWF : WF M)
    (hr : r < M.rows) (hc : c < M.cols) :
    sameShape M (dbm_internalgetValue M r c).1 ∧
    avEq M (dbm_internalgetValue M r c).1 ∧
    WF (dbm_internalgetValue M r c).1 ∧
    LocOK (dbm_internalgetValue M r c).1 (dbm_internalgetValue M r c).2 r c ∧
    (dbm_InColBuffer M c ≠ none →
      (dbm_internalgetValue M r c).1.which_cols = M.which_cols) := by
  rw [internalGet_eq]
  by_cases hcm : M.colmode = false
  · rw [if_pos hcm]
    by_cases hclash0 : M.rowcolclash = true
    · rw [if_pos hclash0]
      obtain ⟨sC, aC, wC⟩ := ClearClash_spec M hWF hclash0
      obtain ⟨hrowsC, hcolsC, hmaxcC, hmaxrC, hrowdC, hfirstC, hwhichC, hfilesC,
        hcmC, hroC, hflagC⟩ := ClearClash_proj M
      set M1 := dbm_ClearClash M with hM1
      have hcm1 : M1.colmode = false := by rw [hcmC]; exact hcm
      obtain ⟨s, a, w, hl, hwp⟩ := igvRow_spec M1 r c wC hcm1 hflagC
        (by rw [hrowsC]; exact hr) (by rw [hcolsC]; exact hc)
      refine ⟨sameShape_trans sC s, avEq_trans sC aC a, w, hl, ?_⟩
      intro habs
      have hicb1 : dbm_InColBuffer M1 c = dbm_InColBuffer M c :=
        InColBuffer_congr hwhichC hcolsC hmaxcC c
      rw [hwp (by rw [hicb1]; exact habs), hwhichC]
    · have hclashF : M.rowcolclash = false := by
        cases h : M.rowcolclash
        · rfl
        · exact absurd h hclash0
      rw [if_neg hclash0]
      exact igvRow_spec M r c hWF hcm hclashF hr hc
  · rw [if_neg hcm]
    have hcmT : M.colmode = true := by
      cases h : M.colmode
      · exact absurd h hcm
      · rfl
    exact igvCol_spec M r c hWF hcmT hr hc

/-- Resetting the clash flag is harmless when the state is read-only (the
caches agree with the files, so there is nothing to reconcile); this is the
`rowcolclash = 0` step at the end of `dbm_getValue` in read-only row mode. -/
theorem clearFlag_spec (N : DBM) (hWF : WF N) (hro : N.readonly = true) :
    sameShape N { N with rowcolclash := false } ∧
    avEq N { N with rowcolclash := false } ∧
    WF { N with rowcolclash := false } := by
  refine ⟨⟨rfl, rfl, rfl, rfl, rfl, rfl⟩, fun _ _ _ _ => rfl, ?_⟩
  constructor
  · exact hWF.hmc
  · exact hWF.hmem
  · exact hWF.hnodup
  · exact hWF.hmr_le
  · exact hWF.hmr_pos
  · exact hWF.hwin
  · intro h
    exact absurd h (by simp)
  · intro hcmf k hk t ht
    left
    have hk2 : k < lastcol N := hk
    have ht2 : t < N.max_rows := ht
    have hcmf2 : N.colmode = false := hcmf
    have h1 := hWF.hro_col hro k hk2 (N.first_rowdata + t)
      (by have := hWF.hwin hcmf2; omega)
    have h2 := hWF.hro_row hro hcmf2 (N.which_cols k) (hWF.hmem k hk2) t ht2
    show N.coldata k (N.first_rowdata + t) = N.rowdata (N.which_cols k) t
    rw [h1, h2]
  · exact hWF.hro_col
  · exact hWF.hro_row

theorem getValue_spec (M : DBM) (r c : Nat) (hWF : WF M)
    (hr : r < M.rows) (hc : c < M.cols) :
    (dbm_getValue M r c).2 = some (av M r c) ∧
    sameShape M (dbm_getValue M r c).1 ∧ avEq M (dbm_getValue M r c).1 ∧
    WF (dbm_getValue M r c).1 := by
  obtain ⟨s, a, w, hl, _⟩ := internalGet_spec M r c hWF hr hc
  have hcond : ¬((M.rows : Int) ≤ (r : Int) ∨ (M.cols : Int) ≤ (c : Int) ∨
      (r : Int) < 0 ∨ (c : Int) < 0) := by
    push_neg
    refine ⟨by exact_mod_cast hr, by exact_mod_cast hc, by positivity, by positivity⟩
  have heq : dbm_getValue M r c =
      (if (dbm_internalgetValue M r c).1.colmode = false ∧
           (dbm_internalgetValue M r c).1.readonly then
         { (dbm_internalgetValue M r c).1 with rowcolclash := false }
       else (dbm_internalgetValue M r c).1,
       some (readLoc (dbm_internalgetValue M r c).1 (dbm_internalgetValue M r c).2)) := by
    unfold dbm_getValue
    rw [if_neg hcond]
    simp only [Int.toNat_natCast]
  rw [heq]
  have hval : readLoc (dbm_internalgetValue M r c).1 (dbm_internalgetValue M r c).2 =
      av M r c := by
    rw [readLoc_eq_av _ _ r c hl]
    exact a r c hr hc
  refine ⟨by rw [hval], ?_, ?_, ?_⟩
  all_goals {
    by_cases hcl : (dbm_internalgetValue M r c).1.colmode = false ∧
        (dbm_internalgetValue M r c).1.readonly = true
    · rw [if_pos hcl]
      obtain ⟨s2, a2, w2⟩ := clearFlag_spec (dbm_internalgetValue M r c).1 w hcl.2
      first
      | exact sameShape_trans s s2
      | exact avEq_trans s a a2
      | exact w2
    · rw [if_neg hcl]
      first
      | exact s
      | exact a
      | exact w
  }

theorem setValue_spec (M : DBM) (r c : Nat) (v : D) (hWF : WF M)
    (hr : r < M.rows) (hc : c < M.cols) (hro : M.readonly = false) :
    (dbm_setValue M r c v).2 = 1 ∧
    sameShape M (dbm_setValue M r c v).1 ∧ WF (dbm_setValue M r c v).1 ∧
    av (dbm_setValue M r c v).1 r c = v ∧
    (∀ r' c', r' < M.rows → c' < M.cols → (r' ≠ r ∨ c' ≠ c) →
      av (dbm_setValue M r c v).1 r' c' = av M r' c') := by
  obtain ⟨s, a, w, hl, _⟩ := internalGet_spec M r c hWF hr hc
  have hcond : ¬((M.rows : Int) ≤ (r : Int) ∨ (M.cols : Int) ≤ (c : Int) ∨
      (r : Int) < 0 ∨ (c : Int) < 0) := by
    push_neg
    refine ⟨by exact_mod_cast hr, by exact_mod_cast hc, by positivity, by positivity⟩
  have heq : dbm_setValue M r c v =
      (writeLoc (dbm_internalgetValue M r c).1 (dbm_internalgetValue M r c).2 v, 1) := by
    unfold dbm_setValue
    rw [if_neg (by rw [hro]; simp), if_neg hcond]
    simp only [Int.toNat_natCast]
  rw [heq]
  have hrN : r < (dbm_internalgetValue M r c).1.rows := by rw [s.1]; exact hr
  have hcN : c < (dbm_internalgetValue M r c).1.cols := by rw [s.2.1]; exact hc
  have hroN : (dbm_internalgetValue M r c).1.readonly = false := by
    rw [s.2.2.2.2.2]; exact hro
  obtain ⟨sW, wW, hvW, hoW⟩ := writeLoc_spec (dbm_internalgetValue M r c).1
    (dbm_internalgetValue M r c).2 r c v w hl hrN hcN hroN
  refine ⟨rfl, sameShape_trans s sW, wW, hvW, ?_⟩
  intro r' c' hr' hc' hne
  rw [hoW r' c' (by rw [s.1]; exact hr') (by rw [s.2.1]; exact hc') hne]
  exact a r' c' hr' hc'

/-- C1: if `set(r, c, v)` succeeds (in-range cell, matrix not read-only),
an immediately following `get(r, c)` succeeds and returns exactly `v`; in
particular the returned value is NaN iff `v` is NaN.  Mode and read-only
state are unchanged in between. -/
theorem C1_set_then_get (M : DBM) (r c : Nat) (v : D) (hWF : WF M)
    (hr : r < M.rows) (hc : c < M.cols) (hro : M.readonly = false) :
    (dbm_setValue M r c v).2 = 1 ∧
    (dbm_setValue M r c v).1.colmode = M.colmode ∧
    (dbm_setValue M r c v).1.readonly = M.readonly ∧
    (dbm_getValue (dbm_setValue M r c v).1 r c).2 = some v ∧
    (dbm_getValue (dbm_setValue M r c v).1 r c).2.map dIsNaN = some (dIsNaN v) := by
  obtain ⟨h1, s, w, hv, _⟩ := setValue_spec M r c v hWF hr hc hro
  have hr2 : r < (dbm_setValue M r c v).1.rows := by rw [s.1]; exact hr
  have hc2 : c < (dbm_setValue M r c v).1.cols := by rw [s.2.1]; exact hc
  obtain ⟨hg, _, _, _⟩ := getValue_spec (dbm_setValue M r c v).1 r c w hr2 hc2
  rw [hg, hv]
  exact ⟨h1, s.2.2.2.2.1, s.2.2.2.2.2, rfl, rfl⟩

theorem exM_WF : WF exM := by
  constructor <;> decide

/-- Witness for C1 at a concrete input. -/
theorem C1_set_then_get_witness :
    (dbm_setValue exM 0 1 (D.val 7)).2 = 1 ∧
    (dbm_setValue exM 0 1 (D.val 7)).1.colmode = exM.colmode ∧
    (dbm_setValue exM 0 1 (D.val 7)).1.readonly = exM.readonly ∧
    (dbm_getValue (dbm_setValue exM 0 1 (D.val 7)).1 0 1).2 = some (D.val 7) ∧
    (dbm_getValue (dbm_setValue exM 0 1 (D.val 7)).1 0 1).2.map dIsNaN =
      some (dIsNaN (D.val 7)) :=
  C1_set_then_get exM 0 1 (D.val 7) exM_WF (by decide) (by decide) (by decide)


theorem RowMode_spec (M : DBM) (hWF : WF M) (hcmT : M.colmode = true)
    (hrpos : 0 < M.rows) :
    (dbm_RowMode M).rows = M.rows ∧ (dbm_RowMode M).cols = M.cols ∧
    (dbm_RowMode M).max_cols = M.max_cols ∧ (dbm_RowMode M).max_rows = M.max_rows ∧
    (dbm_RowMode M).readonly = M.readonly ∧ (dbm_RowMode M).colmode = false ∧
    WF (dbm_RowMode M) ∧
    (∀ r c, r < M.rows → c < M.cols → av (dbm_RowMode M) r c = av M r c) := by
  have hmrle : M.max_rows ≤ M.rows := hWF.hmr_le hrpos
  have hmr1 : 1 ≤ M.max_rows := hWF.hmr_pos hrpos
  have hncl : M.rowcolclash = false := by
    cases h : M.rowcolclash
    · rfl
    · have := (hWF.hclash h).1
      rw [hcmT] at this
      exact absurd this (by simp)
  have heq : dbm_RowMode M =
      { dbm_LoadRowBuffer { M with rowdata := fun _ _ => dzero } 0 with
        colmode := false } := by
    unfold dbm_RowMode
    rw [if_pos hcmT]
  set M1 : DBM := { M with rowdata := fun _ _ => dzero } with hM1
  set M2 := dbm_LoadRowBuffer M1 0 with hM2
  obtain ⟨hrows2, hcols2, hmaxc2, hmaxr2, hcold2, hwhich2, hfiles2, hclsh2, hclr2,
    hclc2, hcmode2, hro2⟩ := LoadRowBuffer_proj M1 0
  have hrows2m : M2.rows = M.rows := hrows2
  have hcols2m : M2.cols = M.cols := hcols2
  have hmaxc2m : M2.max_cols = M.max_cols := hmaxc2
  have hmaxr2m : M2.max_rows = M.max_rows := hmaxr2
  have hcold2m : M2.coldata = M.coldata := hcold2
  have hwhich2m : M2.which_cols = M.which_cols := hwhich2
  have hfiles2m : M2.files = M.files := hfiles2
  have hclsh2m : M2.rowcolclash = M.rowcolclash := hclsh2
  have hro2m : M2.readonly = M.readonly := hro2
  have hfr : M2.first_rowdata = 0 := by
    rw [hM2, LoadRowBuffer_first M1 0 (by exact hmrle)]
    rw [if_neg (by show ¬(M1.rows - M1.max_rows < 0); omega)]
  have hicb2 : ∀ x, dbm_InColBuffer M2 x = dbm_InColBuffer M x :=
    fun x => InColBuffer_congr hwhich2m hcols2m hmaxc2m x
  have hlc2 : lastcol M2 = lastcol M := by
    unfold lastcol
    rw [hcols2m, hmaxc2m]
  have hrowd2 : ∀ j i, j < M.cols → i < M.max_rows →
      M2.rowdata j i =
        (match dbm_InColBuffer M j with
          | some k => M.coldata k i
          | none => M.files j i) := by
    intro j i hj hi
    rw [hM2, LoadRowBuffer_rowdata]
    rw [if_pos ⟨by exact hj, by exact hi⟩]
    rw [← hM2, hfr]
    cases hicbc : dbm_InColBuffer M1 j with
    | some k =>
      dsimp only
      have hx : dbm_InColBuffer M j = some k := hicbc
      rw [hx]
      show M1.coldata k (0 + i) = M.coldata k i
      rw [Nat.zero_add]
    | none =>
      dsimp only
      have hx : dbm_InColBuffer M j = none := hicbc
      rw [hx]
      show M1.files j (0 + i) = M.files j i
      rw [Nat.zero_add]
  rw [heq]
  set N : DBM := { M2 with colmode := false } with hN
  have hnr : N.rows = M.rows := hrows2m
  have hnc : N.cols = M.cols := hcols2m
  have hnmc : N.max_cols = M.max_cols := hmaxc2m
  have hnmr : N.max_rows = M.max_rows := hmaxr2m
  have hnro : N.readonly = M.readonly := hro2m
  have hncold : N.coldata = M.coldata := hcold2m
  have hnwhich : N.which_cols = M.which_cols := hwhich2m
  have hnfiles : N.files = M.files := hfiles2m
  have hnfirst : N.first_rowdata = 0 := hfr
  have hnclash : N.rowcolclash = false := by
    show M2.rowcolclash = false
    rw [hclsh2m, hncl]
  have hnlc : lastcol N = lastcol M := by
    unfold lastcol
    rw [hnc, hnmc]
  have hnicb : ∀ x, dbm_InColBuffer N x = dbm_InColBuffer M x :=
    fun x => InColBuffer_congr hnwhich hnc hnmc x
  have hnrowd : N.rowdata = M2.rowdata := rfl
  refine ⟨hnr, hnc, hnmc, hnmr, hnro, rfl, ?_, ?_⟩
  · constructor
    · rw [hnmc]; exact hWF.hmc
    · rw [hnlc, hnwhich, hnc]; exact hWF.hmem
    · rw [hnlc, hnwhich]; exact hWF.hnodup
    · rw [hnr, hnmr]; exact hWF.hmr_le
    · rw [hnr, hnmr]; exact hWF.hmr_pos
    · rw [hnfirst, hnmr, hnr]
      intro _
      omega
    · rw [hnclash]
      intro h
      exact absurd h (by simp)
    · rw [hnlc, hnwhich, hnfirst, hnmr, hncold, hnrowd]
      intro _ k hk t ht
      rw [hrowd2 (M.which_cols k) t (hWF.hmem k hk) ht]
      have hu : dbm_InColBuffer M (M.which_cols k) = some k :=
        searchDown_unique hWF.hnodup hk rfl
      rw [hu]
      left
      rw [Nat.zero_add]
    · rw [hnro, hnlc, hnwhich, hnr, hncold, hnfiles]
      exact hWF.hro_col
    · rw [hnro, hnc, hnmr, hnrowd, hnfiles, hnfirst]
      intro hrof _ j hj t ht
      rw [hrowd2 j t hj ht]
      cases hicbc : dbm_InColBuffer M j with
      | some k =>
        dsimp only
        obtain ⟨hkL, hkc, _⟩ := searchDown_eq_some hicbc
        rw [Nat.zero_add]
        rw [hWF.hro_col hrof k hkL t (by omega), hkc]
      | none =>
        dsimp only
        rw [Nat.zero_add]
  · intro r c hr hc
    unfold av
    rw [hnfirst, hnmr, hnicb c, hncold, hnfiles, hcmT]
    by_cases hrw : r < M.max_rows
    · rw [if_pos ⟨rfl, by omega, by omega⟩]
      rw [if_neg (by rintro ⟨h, _⟩; exact absurd h (by simp))]
      show M2.rowdata c (r - 0) = _
      rw [Nat.sub_zero, hrowd2 c r hc hrw]
    · rw [if_neg (by rintro ⟨_, _, h⟩; omega)]
      rw [if_neg (by rintro ⟨h, _⟩; exact absurd h (by simp))]

/-- Dropping the row window and returning to column mode preserves every
cell value once the window has been flushed and no clash is pending. -/
theorem colModeFlip_spec (X : DBM) (hWF : WF X) (hcm : X.colmode = false)
    (hnc : X.rowcolclash = false)
    (hflushedWin : ∀ j, j < X.cols → ∀ t, t < X.max_rows →
      X.files j (X.first_rowdata + t) = X.rowdata j t) :
    WF { X with rowdata := fun _ _ => dzero, colmode := true } ∧
    (∀ r c, r < X.rows → c < X.cols →
      av { X with rowdata := fun _ _ => dzero, colmode := true } r c = av X r c) := by
  set N : DBM := { X with rowdata := fun _ _ => dzero, colmode := true } with hN
  have hlcN : lastcol N = lastcol X := rfl
  have hicbN : ∀ x, dbm_InColBuffer N x = dbm_InColBuffer X x := fun _ => rfl
  have hcoherE : ∀ k, k < lastcol X → ∀ t, t < X.max_rows →
      X.coldata k (X.first_rowdata + t) = X.rowdata (X.which_cols k) t := by
    intro k hk t ht
    rcases hWF.hcoher hcm k hk t ht with h | ⟨hcl, _⟩
    · exact h
    · rw [hnc] at hcl; exact absurd hcl (by simp)
  constructor
  · constructor
    · exact hWF.hmc
    · exact hWF.hmem
    · exact hWF.hnodup
    · exact hWF.hmr_le
    · exact hWF.hmr_pos
    · intro h
      exact absurd (show (true : Bool) = false from h) (by simp)
    · intro h
      exact absurd (show X.rowcolclash = true from h) (by rw [hnc]; simp)
    · intro h
      exact absurd (show (true : Bool) = false from h) (by simp)
    · exact hWF.hro_col
    · intro hrof h
      exact absurd (show (true : Bool) = false from h) (by simp)
  · intro r c hr hc
    unfold av
    rw [hicbN c]
    rw [if_neg (by rintro ⟨h, _⟩; exact absurd (show (true : Bool) = false from h) (by simp))]
    by_cases hwc : X.colmode = false ∧ X.first_rowdata ≤ r ∧
        r < X.first_rowdata + X.max_rows
    · rw [if_pos hwc]
      cases hicbc : dbm_InColBuffer X c with
      | some k =>
        dsimp only
        obtain ⟨hkL, hkc, _⟩ := searchDown_eq_some hicbc
        have := hcoherE k hkL (r - X.first_rowdata) (by omega)
        rw [show X.first_rowdata + (r - X.first_rowdata) = r by omega] at this
        show X.coldata k r = X.rowdata c (r - X.first_rowdata)
        rw [this, hkc]
      | none =>
        dsimp only
        have := hflushedWin c hc (r - X.first_rowdata) (by omega)
        rw [show X.first_rowdata + (r - X.first_rowdata) = r by omega] at this
        exact this
      
    · rw [if_neg hwc]

theorem ColMode_spec (M : DBM) (hWF : WF M) (hcmF : M.colmode = false) :
    (dbm_ColMode M).rows = M.rows ∧ (dbm_ColMode M).cols = M.cols ∧
    (dbm_ColMode M).max_cols = M.max_cols ∧ (dbm_ColMode M).max_rows = M.max_rows ∧
    (dbm_ColMode M).readonly = M.readonly ∧ (dbm_ColMode M).colmode = true ∧
    WF (dbm_ColMode M) ∧
    (∀ r c, r < M.rows → c < M.cols → av (dbm_ColMode M) r c = av M r c) := by
  have heq : dbm_ColMode M =
      { dbm_FlushRowBuffer (if M.rowcolclash then dbm_ClearClash M else M) with
        rowdata := fun _ _ => dzero, colmode := true } := by
    unfold dbm_ColMode
    rw [if_pos hcmF]
  by_cases hclash0 : M.rowcolclash = true
  · rw [heq, if_pos hclash0]
    obtain ⟨sC, aC, wC⟩ := ClearClash_spec M hWF hclash0
    obtain ⟨hrowsC, hcolsC, hmaxcC, hmaxrC, hrowdC, hfirstC, hwhichC, hfilesC,
      hcmC, hroC, hflagC⟩ := ClearClash_proj M
    set M1 := dbm_ClearClash M with hM1
    have hcm1 : M1.colmode = false := by rw [hcmC]; exact hcmF
    obtain ⟨sF, aF, wF⟩ := FlushRowBuffer_spec M1 wC hcm1
    set M2 := dbm_FlushRowBuffer M1 with hM2
    obtain ⟨hrowsF, hcolsF, hmaxcF, hmaxrF, hcoldF, hrowdF, hfirstF, hwhichF,
      hclshF, hclrF, hclcF, hcmodeF, hroF⟩ := FlushRowBuffer_proj M1
    have hcm2 : M2.colmode = false := by rw [hcmodeF]; exact hcm1
    have hnc2 : M2.rowcolclash = false := by rw [hclshF, hflagC]
    have hfw2 : ∀ j, j < M2.cols → ∀ t, t < M2.max_rows →
        M2.files j (M2.first_rowdata + t) = M2.rowdata j t := by
      rw [hcolsF, hmaxrF, hfirstF, hrowdF]
      intro j hj t ht
      rw [hM2, FlushRowBuffer_files]
      rw [if_pos ⟨hj, by omega, by omega⟩]
      congr 1
      omega
    obtain ⟨wN, aN⟩ := colModeFlip_spec M2 wF hcm2 hnc2 hfw2
    refine ⟨?_, ?_, ?_, ?_, ?_, rfl, wN, ?_⟩
    · show M2.rows = M.rows
      rw [hrowsF, hrowsC]
    · show M2.cols = M.cols
      rw [hcolsF, hcolsC]
    · show M2.max_cols = M.max_cols
      rw [hmaxcF, hmaxcC]
    · show M2.max_rows = M.max_rows
      rw [hmaxrF, hmaxrC]
    · show M2.readonly = M.readonly
      rw [hroF, hroC]
    · intro r c hr hc
      have hr2 : r < M2.rows := by rw [hrowsF, hrowsC]; exact hr
      have hc2 : c < M2.cols := by rw [hcolsF, hcolsC]; exact hc
      rw [aN r c hr2 hc2]
      rw [aF r c (by rw [hrowsC]; exact hr) (by rw [hcolsC]; exact hc)]
      rw [aC r c hr hc]
  · rw [heq, if_neg hclash0]
    have hnc : M.rowcolclash = false := by
      cases h : M.rowcolclash
      · rfl
      · exact absurd h hclash0
    obtain ⟨sF, aF, wF⟩ := FlushRowBuffer_spec M hWF hcmF
    set M2 := dbm_FlushRowBuffer M with hM2
    obtain ⟨hrowsF, hcolsF, hmaxcF, hmaxrF, hcoldF, hrowdF, hfirstF, hwhichF,
      hclshF, hclrF, hclcF, hcmodeF, hroF⟩ := FlushRowBuffer_proj M
    have hcm2 : M2.colmode = false := by rw [hcmodeF]; exact hcmF
    have hnc2 : M2.rowcolclash = false := by rw [hclshF]; exact hnc
    have hfw2 : ∀ j, j < M2.cols → ∀ t, t < M2.max_rows →
        M2.files j (M2.first_rowdata + t) = M2.rowdata j t := by
      rw [hcolsF, hmaxrF, hfirstF, hrowdF]
      intro j hj t ht
      rw [hM2, FlushRowBuffer_files]
      rw [if_pos ⟨hj, by omega, by omega⟩]
      congr 1
      omega
    obtain ⟨wN, aN⟩ := colModeFlip_spec M2 wF hcm2 hnc2 hfw2
    refine ⟨hrowsF, hcolsF, hmaxcF, hmaxrF, hroF, rfl, wN, ?_⟩
    intro r c hr hc
    have hr2 : r < M2.rows := by rw [hrowsF]; exact hr
    have hc2 : c < M2.cols := by rw [hcolsF]; exact hc
    rw [aN r c hr2 hc2]
    rw [aF r c hr hc]

theorem RowMode_dims (M : DBM) :
    (dbm_RowMode M).rows = M.rows ∧ (dbm_RowMode M).cols = M.cols := by
  unfold dbm_RowMode
  split
  · exact ⟨(LoadRowBuffer_proj { M with rowdata := fun _ _ => dzero } 0).1,
      (LoadRowBuffer_proj { M with rowdata := fun _ _ => dzero } 0).2.1⟩
  · exact ⟨rfl, rfl⟩

theorem ColMode_dims (M : DBM) :
    (dbm_ColMode M).rows = M.rows ∧ (dbm_ColMode M).cols = M.cols := by
  unfold dbm_ColMode
  split
  · constructor
    · show (dbm_FlushRowBuffer _).rows = M.rows
      rw [(FlushRowBuffer_proj _).1]
      split <;> [exact (ClearClash_proj M).1; rfl]
    · show (dbm_FlushRowBuffer _).cols = M.cols
      rw [(FlushRowBuffer_proj _).2.1]
      split <;> [exact (ClearClash_proj M).2.1; rfl]
  · exact ⟨rfl, rfl⟩

theorem getValue_oor (M : DBM) (r c : Int)
    (h : (M.rows : Int) ≤ r ∨ (M.cols : Int) ≤ c ∨ r < 0 ∨ c < 0) :
    dbm_getValue M r c = (M, none) := by
  unfold dbm_getValue
  rw [if_pos h]

/-- C2: switching into row mode and back out (`dbm_RowMode` then
`dbm_ColMode`) does not change the value `dbm_getValue` reports for any
cell (out-of-range requests fail identically on both sides). -/
theorem C2_mode_switch_noop (M : DBM) (hWF : WF M) (r c : Int) :
    (dbm_getValue (dbm_ColMode (dbm_RowMode M)) r c).2 = (dbm_getValue M r c).2 := by
  obtain ⟨hRr, hRc⟩ := RowMode_dims M
  obtain ⟨hCr, hCc⟩ := ColMode_dims (dbm_RowMode M)
  by_cases hoor : (M.rows : Int) ≤ r ∨ (M.cols : Int) ≤ c ∨ r < 0 ∨ c < 0
  · rw [getValue_oor M r c hoor]
    rw [getValue_oor _ r c (by rw [hCr, hCc, hRr, hRc]; exact hoor)]
  · push_neg at hoor
    obtain ⟨h1, h2, h3, h4⟩ := hoor
    have hrn : r = ((r.toNat : Nat) : Int) := by omega
    have hcn : c = ((c.toNat : Nat) : Int) := by omega
    have hrlt : r.toNat < M.rows := by omega
    have hclt : c.toNat < M.cols := by omega
    have hrpos : 0 < M.rows := by omega
    by_cases hcm : M.colmode = true
    · obtain ⟨_, _, _, _, _, hRcm, wR, aR⟩ := RowMode_spec M hWF hcm hrpos
      obtain ⟨_, _, _, _, _, _, wC, aC⟩ := ColMode_spec (dbm_RowMode M) wR hRcm
      have hrlt2 : r.toNat < (dbm_ColMode (dbm_RowMode M)).rows := by
        rw [hCr, hRr]; exact hrlt
      have hclt2 : c.toNat < (dbm_ColMode (dbm_RowMode M)).cols := by
        rw [hCc, hRc]; exact hclt
      rw [hrn, hcn]
      rw [(getValue_spec M r.toNat c.toNat hWF hrlt hclt).1]
      rw [(getValue_spec _ r.toNat c.toNat wC hrlt2 hclt2).1]
      rw [aC r.toNat c.toNat (by rw [hRr]; exact hrlt) (by rw [hRc]; exact hclt)]
      rw [aR r.toNat c.toNat hrlt hclt]
    · have hcmF : M.colmode = false := by
        cases h : M.colmode
        · rfl
        · exact absurd h hcm
      have hRid : dbm_RowMode M = M := by
        unfold dbm_RowMode
        rw [if_neg (by rw [hcmF]; simp)]
      rw [hRid]
      obtain ⟨hCr2, hCc2, _, _, _, _, wC, aC⟩ := ColMode_spec M hWF hcmF
      have hrlt2 : r.toNat < (dbm_ColMode M).rows := by rw [hCr2]; exact hrlt
      have hclt2 : c.toNat < (dbm_ColMode M).cols := by rw [hCc2]; exact hclt
      rw [hrn, hcn]
      rw [(getValue_spec M r.toNat c.toNat hWF hrlt hclt).1]
      rw [(getValue_spec _ r.toNat c.toNat wC hrlt2 hclt2).1]
      rw [aC r.toNat c.toNat hrlt hclt]

/-- Witness for C2 at a concrete state and cell. -/
theorem C2_mode_switch_noop_witness :
    (dbm_getValue (dbm_ColMode (dbm_RowMode exM)) 1 1).2 = (dbm_getValue exM 1 1).2 :=
  C2_mode_switch_noop exM exM_WF 1 1

theorem AddColumn_code (M : DBM) : (dbm_AddColumn M).2 = 0 := by
  unfold dbm_AddColumn
  split
  · by_cases hcm : ({ M with
        which_cols := fun k => if k = M.cols then M.cols else M.which_cols k,
        coldata := fun k r => if k = M.cols then dzero else M.coldata k r } : DBM).colmode
        = false
    · simp only [hcm, if_true]
    · simp only [hcm]
  · by_cases hcm : M.colmode = false
    · simp only [hcm]
    · simp only [hcm]

theorem AddColumn_char1 (M : DBM) (h : M.cols < M.max_cols) :
    (dbm_AddColumn M).1.rows = M.rows ∧
    (dbm_AddColumn M).1.cols = M.cols + 1 ∧
    (dbm_AddColumn M).1.max_cols = M.max_cols ∧
    (dbm_AddColumn M).1.max_rows = M.max_rows ∧
    (dbm_AddColumn M).1.first_rowdata = M.first_rowdata ∧
    (dbm_AddColumn M).1.rowcolclash = M.rowcolclash ∧
    (dbm_AddColumn M).1.clash_row = M.clash_row ∧
    (dbm_AddColumn M).1.clash_col = M.clash_col ∧
    (dbm_AddColumn M).1.colmode = M.colmode ∧
    (dbm_AddColumn M).1.readonly = M.readonly ∧
    (∀ k, (dbm_AddColumn M).1.which_cols k =
      if k = M.cols then M.cols else M.which_cols k) ∧
    (∀ k r, (dbm_AddColumn M).1.coldata k r =
      if k = M.cols then dzero else M.coldata k r) ∧
    (∀ j i, (dbm_AddColumn M).1.rowdata j i =
      if M.colmode = false ∧ j = M.cols then dzero else M.rowdata j i) ∧
    (∀ j r, (dbm_AddColumn M).1.files j r =
      if j = M.cols ∧ r < M.rows then dzero else M.files j r) := by
  unfold dbm_AddColumn
  rw [if_pos h]
  dsimp only
  by_cases hcm : M.colmode = false
  · rw [if_pos hcm]
    refine ⟨rfl, rfl, rfl, rfl, rfl, rfl, rfl, rfl, rfl, rfl,
      fun k => rfl, fun k r => rfl, ?_, ?_⟩
    · intro j i
      dsimp only
      by_cases hj : j = M.cols
      · rw [if_pos hj, if_pos ⟨hcm, hj⟩]
      · rw [if_neg hj, if_neg (fun hh => hj hh.2)]
    · intro j r
      dsimp only
      by_cases hj : j = M.cols ∧ r < M.rows
      · rw [if_pos hj, if_pos hj]
        simp
      · rw [if_neg hj, if_neg hj]
  · rw [if_neg hcm]
    refine ⟨rfl, rfl, rfl, rfl, rfl, rfl, rfl, rfl, rfl, rfl,
      fun k => rfl, fun k r => rfl, ?_, ?_⟩
    · intro j i
      dsimp only
      rw [if_neg (fun hh => hcm hh.1)]
    · intro j r
      dsimp only
      by_cases hj : j = M.cols ∧ r < M.rows
      · rw [if_pos hj, if_pos hj]
        simp
      · rw [if_neg hj, if_neg hj]

theorem AddColumn_char2 (M : DBM) (h : ¬(M.cols < M.max_cols))
    (hmc : 1 ≤ M.max_cols) :
    (dbm_AddColumn M).1.rows = M.rows ∧
    (dbm_AddColumn M).1.cols = M.cols + 1 ∧
    (dbm_AddColumn M).1.max_cols = M.max_cols ∧
    (dbm_AddColumn M).1.max_rows = M.max_rows ∧
    (dbm_AddColumn M).1.first_rowdata = M.first_rowdata ∧
    (dbm_AddColumn M).1.rowcolclash = M.rowcolclash ∧
    (dbm_AddColumn M).1.clash_row = M.clash_row ∧
    (dbm_AddColumn M).1.clash_col = M.clash_col ∧
    (dbm_AddColumn M).1.colmode = M.colmode ∧
    (dbm_AddColumn M).1.readonly = M.readonly ∧
    (∀ k, (dbm_AddColumn M).1.which_cols k =
      if k + 1 < M.max_cols then M.which_cols (k + 1)
      else if k + 1 = M.max_cols then M.cols
      else M.which_cols k) ∧
    (∀ k r, (dbm_AddColumn M).1.coldata k r =
      if k + 1 < M.max_cols then M.coldata (k + 1) r
      else if k + 1 = M.max_cols then dzero
      else M.coldata k r) ∧
    (∀ j i, (dbm_AddColumn M).1.rowdata j i =
      if M.colmode = false ∧ j = M.cols then dzero else M.rowdata j i) ∧
    (∀ j r, (dbm_AddColumn M).1.files j r =
      if j = M.cols ∧ r < M.rows then dzero
      else if j = M.which_cols 0 ∧ r < M.rows then M.coldata 0 r
      else M.files j r) := by
  unfold dbm_AddColumn
  rw [if_neg h]
  dsimp only
  by_cases hcm : M.colmode = false
  · rw [if_pos hcm]
    refine ⟨rfl, rfl, rfl, rfl, rfl, rfl, rfl, rfl, rfl, rfl,
      fun k => rfl, fun k r => rfl, ?_, ?_⟩
    · intro j i
      dsimp only
      by_cases hj : j = M.cols
      · rw [if_pos hj, if_pos ⟨hcm, hj⟩]
      · rw [if_neg hj, if_neg (fun hh => hj hh.2)]
    · intro j r
      dsimp only
      by_cases hj : j = M.cols ∧ r < M.rows
      · rw [if_pos hj, if_pos hj]
        rw [if_neg (by omega), if_pos (by omega)]
      · rw [if_neg hj, if_neg hj]
  · rw [if_neg hcm]
    refine ⟨rfl, rfl, rfl, rfl, rfl, rfl, rfl, rfl, rfl, rfl,
      fun k => rfl, fun k r => rfl, ?_, ?_⟩
    · intro j i
      dsimp only
      rw [if_neg (fun hh => hcm hh.1)]
    · intro j r
      dsimp only
      by_cases hj : j = M.cols ∧ r < M.rows
      · rw [if_pos hj, if_pos hj]
        rw [if_neg (by omega), if_pos (by omega)]
      · rw [if_neg hj, if_neg hj]

theorem AddColumn_spec (M : DBM) (hWF : WF M) :
    WF (dbm_AddColumn M).1 ∧
    (dbm_AddColumn M).1.rows = M.rows ∧ (dbm_AddColumn M).1.cols = M.cols + 1 ∧
    (∀ r, r < M.rows → av (dbm_AddColumn M).1 r M.cols = dzero) ∧
    (∀ rr, rr < M.rows → (dbm_AddColumn M).1.files M.cols rr = dzero) ∧
    (M.colmode = false → ∀ t, t < M.max_rows →
      (dbm_AddColumn M).1.rowdata M.cols t = dzero) ∧
    (∀ k, k < lastcol (dbm_AddColumn M).1 →
      (dbm_AddColumn M).1.which_cols k = M.cols →
      ∀ rr, rr < M.rows → (dbm_AddColumn M).1.coldata k rr = dzero) := by
  by_cases h : M.cols < M.max_cols
  · obtain ⟨hrows, hcols, hmaxc, hmaxr, hfirst, hclsh, hclr, hclc, hcmode, hro,
      hwhich, hcold, hrowd, hfiles⟩ := AddColumn_char1 M h
    have hlcM : lastcol M = M.cols := by
      unfold lastcol
      rw [if_pos h]
    have hlcA : lastcol (dbm_AddColumn M).1 = M.cols + 1 := by
      unfold lastcol
      rw [hcols, hmaxc]
      split <;> omega
    have hicbA : dbm_InColBuffer (dbm_AddColumn M).1 M.cols = some M.cols := by
      unfold dbm_InColBuffer
      rw [hlcA]
      unfold searchDown
      rw [hwhich M.cols, if_pos rfl]
      simp
    have hWFA : WF (dbm_AddColumn M).1 := by
      constructor
      · rw [hmaxc]; exact hWF.hmc
      · rw [hlcA, hcols]
        intro k hk
        rw [hwhich k]
        by_cases hkc : k = M.cols
        · rw [if_pos hkc]; omega
        · rw [if_neg hkc]
          have := hWF.hmem k (by omega)
          omega
      · rw [hlcA]
        intro a ha b hb hab
        rw [hwhich a, hwhich b]
        by_cases hac : a = M.cols
        · rw [if_pos hac]
          have hbc : b ≠ M.cols := by omega
          rw [if_neg hbc]
          have := hWF.hmem b (by omega)
          omega
        · rw [if_neg hac]
          by_cases hbc : b = M.cols
          · rw [if_pos hbc]
            have := hWF.hmem a (by omega)
            omega
          · rw [if_neg hbc]
            exact hWF.hnodup a (by omega) b (by omega) hab
      · rw [hrows, hmaxr]; exact hWF.hmr_le
      · rw [hrows, hmaxr]; exact hWF.hmr_pos
      · rw [hcmode, hfirst, hmaxr, hrows]; exact hWF.hwin
      · rw [hclsh, hcmode, hfirst, hclr, hclc, hmaxr, hcols]
        intro hcl
        obtain ⟨a, b, cc, d⟩ := hWF.hclash hcl
        exact ⟨a, b, cc, by omega⟩
      · rw [hcmode, hlcA, hfirst, hmaxr, hclsh, hclr, hclc]
        intro hcmf k hk t ht
        rw [hcold, hwhich]
        by_cases hkc : k = M.cols
        · rw [if_pos hkc, if_pos hkc, hrowd]
          rw [if_pos ⟨hcmf, rfl⟩]
          left; rfl
        · rw [if_neg hkc, if_neg hkc, hrowd]
          have hkL : k < lastcol M := by omega
          rw [if_neg (by
            rintro ⟨_, hh⟩
            have := hWF.hmem k hkL
            omega)]
          exact hWF.hcoher hcmf k hkL t ht
      · rw [hro, hlcA, hrows]
        intro hrof k hk r hrr
        rw [hcold, hwhich, hfiles]
        by_cases hkc : k = M.cols
        · rw [if_pos hkc, if_pos hkc, if_pos ⟨rfl, hrr⟩]
        · rw [if_neg hkc, if_neg hkc]
          have hkL : k < lastcol M := by omega
          rw [if_neg (by
            rintro ⟨hh, _⟩
            have := hWF.hmem k hkL
            omega)]
          exact hWF.hro_col hrof k hkL r hrr
      · rw [hro, hcmode, hcols, hmaxr, hfirst]
        intro hrof hcmf j hj t ht
        rw [hrowd, hfiles]
        have hwint : M.first_rowdata + t < M.rows := by
          have := hWF.hwin hcmf
          omega
        by_cases hjc : j = M.cols
        · rw [if_pos ⟨hcmf, hjc⟩, if_pos ⟨hjc, hwint⟩]
        · rw [if_neg (fun hh => hjc hh.2), if_neg (fun hh => hjc hh.1)]
          exact hWF.hro_row hrof hcmf j (by omega) t ht
    refine ⟨hWFA, hrows, hcols, ?_, ?_, ?_, ?_⟩
    · intro r hr
      unfold av
      rw [hcmode, hfirst, hmaxr, hicbA]
      by_cases hwc : M.colmode = false ∧ M.first_rowdata ≤ r ∧
          r < M.first_rowdata + M.max_rows
      · rw [if_pos hwc, hrowd]
        rw [if_pos ⟨hwc.1, rfl⟩]
      · rw [if_neg hwc]
        dsimp only
        rw [hcold, if_pos rfl]
    · intro rr hrr
      rw [hfiles, if_pos ⟨rfl, hrr⟩]
    · intro hcmf t ht
      rw [hrowd, if_pos ⟨hcmf, rfl⟩]
    · intro k hk hkc rr hrr
      rw [hcold]
      by_cases hkcc : k = M.cols
      · rw [if_pos hkcc]
      · exfalso
        rw [hwhich, if_neg hkcc] at hkc
        rw [hlcA] at hk
        have := hWF.hmem k (by omega)
        omega
  · obtain ⟨hrows, hcols, hmaxc, hmaxr, hfirst, hclsh, hclr, hclc, hcmode, hro,
      hwhich, hcold, hrowd, hfiles⟩ := AddColumn_char2 M h hWF.hmc
    have hlcM : lastcol M = M.max_cols := by
      unfold lastcol
      rw [if_neg h]
    have hlcA : lastcol (dbm_AddColumn M).1 = M.max_cols := by
      unfold lastcol
      rw [hcols, hmaxc]
      split <;> omega
    have hmc := hWF.hmc
    have hicbA : dbm_InColBuffer (dbm_AddColumn M).1 M.cols = some (M.max_cols - 1) := by
      unfold dbm_InColBuffer
      rw [hlcA]
      obtain ⟨m, hm⟩ : ∃ m, M.max_cols = m + 1 := ⟨M.max_cols - 1, by omega⟩
      rw [hm]
      unfold searchDown
      have hw : (dbm_AddColumn M).1.which_cols m = M.cols := by
        rw [hwhich m]
        rw [if_neg (by omega), if_pos (by omega)]
      rw [if_pos hw]
      simp [hm]
    have hWFA : WF (dbm_AddColumn M).1 := by
      constructor
      · rw [hmaxc]; exact hWF.hmc
      · rw [hlcA, hcols]
        intro k hk
        rw [hwhich k]
        by_cases h1 : k + 1 < M.max_cols
        · rw [if_pos h1]
          have := hWF.hmem (k + 1) (by omega)
          omega
        · rw [if_neg h1, if_pos (by omega)]
          omega
      · rw [hlcA]
        intro a ha b hb hab
        rw [hwhich a, hwhich b]
        by_cases ha1 : a + 1 < M.max_cols
        · by_cases hb1 : b + 1 < M.max_cols
          · rw [if_pos ha1, if_pos hb1]
            exact hWF.hnodup (a + 1) (by omega) (b + 1) (by omega) (by omega)
          · rw [if_pos ha1, if_neg hb1, if_pos (by omega)]
            have := hWF.hmem (a + 1) (by omega)
            omega
        · by_cases hb1 : b + 1 < M.max_cols
          · rw [if_neg ha1, if_pos (by omega), if_pos hb1]
            have := hWF.hmem (b + 1) (by omega)
            omega
          · omega
      · rw [hrows, hmaxr]; exact hWF.hmr_le
      · rw [hrows, hmaxr]; exact hWF.hmr_pos
      · rw [hcmode, hfirst, hmaxr, hrows]; exact hWF.hwin
      · rw [hclsh, hcmode, hfirst, hclr, hclc, hmaxr, hcols]
        intro hcl
        obtain ⟨a, b, cc, d⟩ := hWF.hclash hcl
        exact ⟨a, b, cc, by omega⟩
      · rw [hcmode, hlcA, hfirst, hmaxr, hclsh, hclr, hclc]
        intro hcmf k hk t ht
        rw [hcold, hwhich]
        by_cases h1 : k + 1 < M.max_cols
        · rw [if_pos h1, if_pos h1, hrowd]
          rw [if_neg (by
            rintro ⟨_, hh⟩
            have := hWF.hmem (k + 1) (by omega)
            omega)]
          exact hWF.hcoher hcmf (k + 1) (by omega) t ht
        · rw [if_neg h1, if_pos (by omega), if_neg h1, if_pos (by omega), hrowd]
          rw [if_pos ⟨hcmf, rfl⟩]
          left; rfl
      · rw [hro, hlcA, hrows]
        intro hrof k hk r hrr
        rw [hcold, hwhich, hfiles]
        by_cases h1 : k + 1 < M.max_cols
        · rw [if_pos h1, if_pos h1]
          have hmem1 := hWF.hmem (k + 1) (by omega)
          rw [if_neg (by rintro ⟨hh, _⟩; omega)]
          by_cases h0 : M.which_cols (k + 1) = M.which_cols 0 ∧ r < M.rows
          · exfalso
            have := hWF.hnodup (k + 1) (by omega) 0 (by omega) (by omega)
            exact this h0.1
          · rw [if_neg h0]
            exact hWF.hro_col hrof (k + 1) (by omega) r hrr
        · rw [if_neg h1]
          rw [if_pos (show k + 1 = M.max_cols by omega)]
          rw [if_neg h1]
          rw [if_pos (show k + 1 = M.max_cols by omega)]
          rw [if_pos ⟨rfl, hrr⟩]
      · rw [hro, hcmode, hcols, hmaxr, hfirst]
        intro hrof hcmf j hj t ht
        rw [hrowd, hfiles]
        have hwint : M.first_rowdata + t < M.rows := by
          have := hWF.hwin hcmf
          omega
        by_cases hjc : j = M.cols
        · rw [if_pos ⟨hcmf, hjc⟩, if_pos ⟨hjc, hwint⟩]
        · rw [if_neg (fun hh => hjc hh.2), if_neg (fun hh => hjc hh.1)]
          by_cases h0 : j = M.which_cols 0 ∧ M.first_rowdata + t < M.rows
          · rw [if_pos h0]
            rw [hWF.hro_row hrof hcmf j (by omega) t ht, h0.1]
            exact (hWF.hro_col hrof 0 (by omega) (M.first_rowdata + t) hwint).symm
          · rw [if_neg h0]
            exact hWF.hro_row hrof hcmf j (by omega) t ht
    refine ⟨hWFA, hrows, hcols, ?_, ?_, ?_, ?_⟩
    · intro r hr
      unfold av
      rw [hcmode, hfirst, hmaxr, hicbA]
      by_cases hwc : M.colmode = false ∧ M.first_rowdata ≤ r ∧
          r < M.first_rowdata + M.max_rows
      · rw [if_pos hwc, hrowd]
        rw [if_pos ⟨hwc.1, rfl⟩]
      · rw [if_neg hwc]
        dsimp only
        rw [hcold]
        rw [if_neg (by omega), if_pos (by omega)]
    · intro rr hrr
      rw [hfiles, if_pos ⟨rfl, hrr⟩]
    · intro hcmf t ht
      rw [hrowd, if_pos ⟨hcmf, rfl⟩]
    · intro k hk hkc rr hrr
      rw [hcold]
      rw [hlcA] at hk
      rw [hwhich] at hkc
      by_cases h1 : k + 1 < M.max_cols
      · exfalso
        rw [if_pos h1] at hkc
        have := hWF.hmem (k + 1) (by omega)
        omega
      · rw [if_neg h1, if_pos (by omega)]

/-- C5: immediately after a successful `dbm_AddColumn` on a matrix with
`rows > 0`, every cell of the new column (index `cols`) reads as zero
through `dbm_getValue`; the new column's file, its row-window segment (in
row mode) and its cache buffer all hold only zeros. -/
theorem C5_append_zero_fill (M : DBM) (hWF : WF M) (i : Nat) (hi : i < M.rows) :
    (dbm_AddColumn M).2 = 0 ∧
    (dbm_getValue (dbm_AddColumn M).1 i M.cols).2 = some dzero ∧
    (∀ rr, rr < M.rows → (dbm_AddColumn M).1.files M.cols rr = dzero) ∧
    (M.colmode = false → ∀ t, t < M.max_rows →
      (dbm_AddColumn M).1.rowdata M.cols t = dzero) ∧
    (∀ k, k < lastcol (dbm_AddColumn M).1 →
      (dbm_AddColumn M).1.which_cols k = M.cols →
      ∀ rr, rr < M.rows → (dbm_AddColumn M).1.coldata k rr = dzero) := by
  obtain ⟨hWFA, hrows, hcols, hav, hfile, hrowd, hcold⟩ := AddColumn_spec M hWF
  have hiA : i < (dbm_AddColumn M).1.rows := by rw [hrows]; exact hi
  have hcA : M.cols < (dbm_AddColumn M).1.cols := by rw [hcols]; omega
  obtain ⟨hg, _, _, _⟩ := getValue_spec (dbm_AddColumn M).1 i M.cols hWFA hiA hcA
  refine ⟨AddColumn_code M, ?_, hfile, hrowd, hcold⟩
  rw [hg, hav i hi]

/-- Witness for C5 at a concrete state and row. -/
theorem C5_append_zero_fill_witness :
    (dbm_AddColumn exM).2 = 0 ∧
    (dbm_getValue (dbm_AddColumn exM).1 1 exM.cols).2 = some dzero ∧
    (∀ rr, rr < exM.rows → (dbm_AddColumn exM).1.files exM.cols rr = dzero) ∧
    (exM.colmode = false → ∀ t, t < exM.max_rows →
      (dbm_AddColumn exM).1.rowdata exM.cols t = dzero) ∧
    (∀ k, k < lastcol (dbm_AddColumn exM).1 →
      (dbm_AddColumn exM).1.which_cols k = exM.cols →
      ∀ rr, rr < exM.rows → (dbm_AddColumn exM).1.coldata k rr = dzero) :=
  C5_append_zero_fill exM exM_WF 1 (by decide)

/-- C4: eviction is strict FIFO by insertion order.  `dbm_LoadNewColumn`
shifts every surviving slot down by one (so slot 0 is the entry evicted) and
places the incoming column in the last live slot; after a column-mode miss
the cache of `dbm_internalgetValue` has exactly that shifted shape, with the
old slot-0 column no longer resident; and a cache hit (`dbm_InColBuffer`
finding the column) leaves the cache order completely unchanged — lookups
never promote. -/
theorem C4_fifo_eviction (M : DBM) (r c : Nat) (hWF : WF M)
    (hr : r < M.rows) (hc : c < M.cols) :
    (∀ k, k + 1 < lastcol M →
      (dbm_LoadNewColumn M c).which_cols k = M.which_cols (k + 1)) ∧
    ((dbm_LoadNewColumn M c).which_cols (lastcol M - 1) = c) ∧
    ((∀ k, k < lastcol M → M.which_cols k ≠ c) →
      dbm_InColBuffer (dbm_LoadNewColumn M c) (M.which_cols 0) = none) ∧
    (dbm_InColBuffer M c ≠ none →
      (dbm_internalgetValue M r c).1.which_cols = M.which_cols) ∧
    (M.colmode = true → dbm_InColBuffer M c = none →
      (∀ k, k + 1 < lastcol M →
        (dbm_internalgetValue M r c).1.which_cols k = M.which_cols (k + 1)) ∧
      (dbm_internalgetValue M r c).1.which_cols (lastcol M - 1) = c) := by
  have hlc0 : 0 < lastcol M := by
    have := hWF.hmc
    unfold lastcol
    split <;> omega
  refine ⟨?_, ?_, ?_, ?_, ?_⟩
  · intro k hk
    rw [LoadNewColumn_which, if_pos hk]
  · rw [LoadNewColumn_which]
    rw [if_neg (by omega), if_pos (by omega)]
  · intro hnotin
    exact InColBuffer_LoadNewColumn_evicted M c hWF.hnodup (hnotin 0 hlc0) hlc0
  · intro hhit
    exact (internalGet_spec M r c hWF hr hc).2.2.2.2 hhit
  · intro hcmT hicbc
    have heq : dbm_internalgetValue M r c =
        (dbm_LoadNewColumn (if M.readonly = false then dbm_FlushOldestColumn M else M) c,
         Loc.colbuf ((dbm_LoadNewColumn
           (if M.readonly = false then dbm_FlushOldestColumn M else M) c).max_cols - 1) r) := by
      rw [internalGet_eq]
      rw [if_neg (by rw [hcmT]; simp)]
      unfold igvCol
      rw [hicbc]
    rw [heq]
    by_cases hro : M.readonly = false
    · rw [if_pos hro]
      have hw1 : (dbm_FlushOldestColumn M).which_cols = M.which_cols :=
        (FlushOldestColumn_proj M).2.2.2.2.2.2.2.1
      have hlc1 : lastcol (dbm_FlushOldestColumn M) = lastcol M := by
        unfold lastcol
        rw [(FlushOldestColumn_proj M).2.1, (FlushOldestColumn_proj M).2.2.1]
      constructor
      · intro k hk
        rw [LoadNewColumn_which, hlc1, if_pos hk, hw1]
      · rw [LoadNewColumn_which, hlc1]
        rw [if_neg (by omega), if_pos (by omega)]
    · rw [if_neg hro]
      constructor
      · intro k hk
        rw [LoadNewColumn_which, if_pos hk]
      · rw [LoadNewColumn_which]
        rw [if_neg (by omega), if_pos (by omega)]

/-- Witness for C4 at a concrete state and cell. -/
theorem C4_fifo_eviction_witness :
    (∀ k, k + 1 < lastcol exM →
      (dbm_LoadNewColumn exM 1).which_cols k = exM.which_cols (k + 1)) ∧
    ((dbm_LoadNewColumn exM 1).which_cols (lastcol exM - 1) = 1) ∧
    ((∀ k, k < lastcol exM → exM.which_cols k ≠ 1) →
      dbm_InColBuffer (dbm_LoadNewColumn exM 1) (exM.which_cols 0) = none) ∧
    (dbm_InColBuffer exM 1 ≠ none →
      (dbm_internalgetValue exM 0 1).1.which_cols = exM.which_cols) ∧
    (exM.colmode = true → dbm_InColBuffer exM 1 = none →
      (∀ k, k + 1 < lastcol exM →
        (dbm_internalgetValue exM 0 1).1.which_cols k = exM.which_cols (k + 1)) ∧
      (dbm_internalgetValue exM 0 1).1.which_cols (lastcol exM - 1) = 1) :=
  C4_fifo_eviction exM 0 1 exM_WF (by decide) (by decide)

/-- C10: `dbm_AddColumn` does not enforce its documented `rows > 0`
precondition.  On any well-formed matrix whose row count was never set
(`rows = 0`) it reports success, increments `cols` (creating a new,
zero-row — hence empty — column file), leaves `rows` at 0, and a later
`dbm_setRows` still succeeds even though columns already exist. -/
theorem C10_append_without_rows (M : DBM) (hWF : WF M) (h0 : M.rows = 0) :
    (dbm_AddColumn M).2 = 0 ∧
    (dbm_AddColumn M).1.cols = M.cols + 1 ∧
    (dbm_AddColumn M).1.rows = 0 ∧
    (∀ n, (dbm_setRows (dbm_AddColumn M).1 n).2 = 1) := by
  obtain ⟨_, hrows, hcols, _⟩ := AddColumn_spec M hWF
  refine ⟨AddColumn_code M, hcols, by rw [hrows, h0], ?_⟩
  intro n
  unfold dbm_setRows
  rw [if_neg (by rw [hrows, h0]; simp)]

theorem alloc_WF : WF (dbm_alloc 3 2) := by
  constructor <;> decide

/-- Witness for C10 at a freshly allocated descriptor. -/
theorem C10_append_without_rows_witness :
    (dbm_AddColumn (dbm_alloc 3 2)).2 = 0 ∧
    (dbm_AddColumn (dbm_alloc 3 2)).1.cols = (dbm_alloc 3 2).cols + 1 ∧
    (dbm_AddColumn (dbm_alloc 3 2)).1.rows = 0 ∧
    (dbm_setRows (dbm_AddColumn (dbm_alloc 3 2)).1 5).2 = 1 :=
  ⟨(C10_append_without_rows (dbm_alloc 3 2) alloc_WF rfl).1,
   (C10_append_without_rows (dbm_alloc 3 2) alloc_WF rfl).2.1,
   (C10_append_without_rows (dbm_alloc 3 2) alloc_WF rfl).2.2.1,
   (C10_append_without_rows (dbm_alloc 3 2) alloc_WF rfl).2.2.2 5⟩

theorem CacheOK_of_WF {M : DBM} (hWF : WF M) : CacheOK M :=
  ⟨hWF.hmem, hWF.hnodup⟩

theorem CacheOK_congr {M N : DBM} (hc : N.cols = M.cols) (hm : N.max_cols = M.max_cols)
    (hw : ∀ k, N.which_cols k = M.which_cols k) (hok : CacheOK M) : CacheOK N := by
  have hlc : lastcol N = lastcol M := by unfold lastcol; rw [hc, hm]
  refine ⟨?_, ?_⟩
  · intro k hk
    rw [hc, hw]
    exact hok.1 k (hlc ▸ hk)
  · intro k hk l hl hkl
    rw [hw, hw]
    exact hok.2 k (hlc ▸ hk) l (hlc ▸ hl) hkl

theorem CacheOK_set_maxcols (M : DBM) (hok : CacheOK M) (nmc : Nat)
    (h : lastcol { M with max_cols := nmc } ≤ lastcol M) :
    CacheOK { M with max_cols := nmc } :=
  ⟨fun k hk => hok.1 k (lt_of_lt_of_le hk h),
   fun k hk l hl hkl =>
     hok.2 k (lt_of_lt_of_le hk h) l (lt_of_lt_of_le hl h) hkl⟩

theorem removeN_proj (n : Nat) : ∀ (M : DBM),
    (removeN M n).rows = M.rows ∧ (removeN M n).cols = M.cols ∧
    (removeN M n).max_cols = M.max_cols ∧
    ∀ k, (removeN M n).which_cols k = M.which_cols (k + n) := by
  induction n with
  | zero => intro M; exact ⟨rfl, rfl, rfl, fun k => rfl⟩
  | succ m ih =>
    intro M
    obtain ⟨h1, h2, h3, h4⟩ := ih (removeOldest M)
    refine ⟨h1, h2, h3, fun k => ?_⟩
    show (removeN (removeOldest M) m).which_cols k = M.which_cols (k + (m + 1))
    rw [h4 k]
    rfl

theorem findAbsentFrom_none (M : DBM) : ∀ (fuel j0 : Nat),
    findAbsentFrom M fuel j0 = none →
    ∀ t, t < fuel → (dbm_InColBuffer M (j0 + t)).isNone = false := by
  intro fuel
  induction fuel with
  | zero => intro j0 _ t ht; exact absurd ht (Nat.not_lt_zero t)
  | succ m ih =>
    intro j0 h t ht
    simp only [findAbsentFrom] at h
    by_cases habs : (dbm_InColBuffer M j0).isNone = true
    · rw [if_pos habs] at h
      exact absurd h (by simp)
    · rw [if_neg habs] at h
      cases t with
      | zero =>
        simp only [Nat.add_zero]
        cases hb : (dbm_InColBuffer M j0).isNone
        · rfl
        · exact absurd hb habs
      | succ t' =>
        have h1 := ih (j0 + 1) h t' (by omega)
        have heq : j0 + (t' + 1) = j0 + 1 + t' := by omega
        rw [heq]
        exact h1

theorem findAbsentFrom_some (M : DBM) : ∀ (fuel j0 j : Nat),
    findAbsentFrom M fuel j0 = some j →
    j0 ≤ j ∧ j < j0 + fuel ∧ (dbm_InColBuffer M j).isNone = true ∧
    ∀ t, j0 + t < j → (dbm_InColBuffer M (j0 + t)).isNone = false := by
  intro fuel
  induction fuel with
  | zero => intro j0 j h; exact absurd h (by simp [findAbsentFrom])
  | succ m ih =>
    intro j0 j h
    simp only [findAbsentFrom] at h
    by_cases habs : (dbm_InColBuffer M j0).isNone = true
    · rw [if_pos habs] at h
      obtain rfl : j0 = j := by simpa using h
      exact ⟨le_refl _, by omega, habs, fun t ht => absurd ht (by omega)⟩
    · rw [if_neg habs] at h
      obtain ⟨h1, h2, h3, h4⟩ := ih (j0 + 1) j h
      refine ⟨by omega, by omega, h3, ?_⟩
      intro t ht
      cases t with
      | zero =>
        simp only [Nat.add_zero]
        cases hb : (dbm_InColBuffer M j0).isNone
        · rfl
        · exact absurd hb habs
      | succ t' =>
        have heq : j0 + (t' + 1) = j0 + 1 + t' := by omega
        rw [heq]
        exact h4 t' (by omega)

theorem findAbsent_some_of_card (M : DBM) (j0 : Nat)
    (h : 0 < (absentSet M j0).card) :
    ∃ j, findAbsent M j0 = some j ∧ j0 ≤ j ∧ j < M.cols ∧
      (dbm_InColBuffer M j).isNone = true ∧
      ∀ x, x ∈ absentSet M j0 → j ≤ x := by
  obtain ⟨x, hx⟩ := Finset.card_pos.mp h
  simp only [absentSet, Finset.mem_filter, Finset.mem_Ico] at hx
  obtain ⟨⟨hxl, hxr⟩, hxa⟩ := hx
  cases hfa : findAbsent M j0 with
  | none =>
    exfalso
    have hnone := findAbsentFrom_none M (M.cols - j0) j0 hfa
    have h1 := hnone (x - j0) (by omega)
    rw [show j0 + (x - j0) = x by omega, hxa] at h1
    exact absurd h1 (by simp)
  | some j =>
    obtain ⟨h1, h2, h3, h4⟩ := findAbsentFrom_some M (M.cols - j0) j0 j hfa
    refine ⟨j, rfl, h1, by omega, h3, ?_⟩
    intro y hy
    simp only [absentSet, Finset.mem_filter, Finset.mem_Ico] at hy
    by_contra hlt
    push_neg at hlt
    have h5 := h4 (y - j0) (by omega)
    rw [show j0 + (y - j0) = y by omega, hy.2] at h5
    exact absurd h5 (by simp)

theorem absent_card (M : DBM) (hok : CacheOK M) :
    M.cols - lastcol M ≤ (absentSet M 0).card := by
  classical
  have hsub : (Finset.range M.cols).filter
      (fun j => ¬((dbm_InColBuffer M j).isNone = true)) ⊆
      (Finset.range (lastcol M)).image M.which_cols := by
    intro j hj
    simp only [Finset.mem_filter, Finset.mem_range] at hj
    obtain ⟨hjc, hjn⟩ := hj
    cases hicb : dbm_InColBuffer M j with
    | none => rw [hicb] at hjn; exact absurd rfl hjn
    | some k =>
      obtain ⟨hk, hkc, _⟩ := searchDown_eq_some hicb
      simp only [Finset.mem_image, Finset.mem_range]
      exact ⟨k, hk, hkc⟩
  have hcard1 : ((Finset.range M.cols).filter
      (fun j => ¬((dbm_InColBuffer M j).isNone = true))).card ≤ lastcol M := by
    refine le_trans (Finset.card_le_card hsub) (le_trans Finset.card_image_le ?_)
    rw [Finset.card_range]
  have hsplit : ((Finset.range M.cols).filter
        (fun j => (dbm_InColBuffer M j).isNone = true)).card +
      ((Finset.range M.cols).filter
        (fun j => ¬((dbm_InColBuffer M j).isNone = true))).card = M.cols := by
    rw [Finset.filter_card_add_filter_neg_card_eq_card, Finset.card_range]
  have habs : (absentSet M 0).card = ((Finset.range M.cols).filter
      (fun j => (dbm_InColBuffer M j).isNone = true)).card := by
    unfold absentSet
    rw [Finset.range_eq_Ico]
  omega

theorem pickAdd_spec (M : DBM) : ∀ (n j0 : Nat), n ≤ (absentSet M j0).card →
    (pickAdd M n j0).length = n ∧
    (∀ x ∈ pickAdd M n j0, j0 ≤ x ∧ x < M.cols ∧
      (dbm_InColBuffer M x).isNone = true) ∧
    (pickAdd M n j0).Pairwise (· < ·) := by
  intro n
  induction n with
  | zero =>
    intro j0 _
    exact ⟨rfl, fun x hx => absurd hx (List.not_mem_nil x), List.Pairwise.nil⟩
  | succ m ih =>
    intro j0 hcard
    obtain ⟨j, hfa, hj0, hjc, hjabs, hjmin⟩ :=
      findAbsent_some_of_card M j0 (by omega)
    have hsub : absentSet M j0 ⊆ insert j (absentSet M (j + 1)) := by
      intro x hx
      have hxge := hjmin x hx
      simp only [absentSet, Finset.mem_filter, Finset.mem_Ico] at hx
      rcases eq_or_lt_of_le hxge with heq | hlt
      · rw [← heq]; exact Finset.mem_insert_self _ _
      · refine Finset.mem_insert_of_mem ?_
        simp only [absentSet, Finset.mem_filter, Finset.mem_Ico]
        exact ⟨⟨hlt, hx.1.2⟩, hx.2⟩
    have hcard2 : m ≤ (absentSet M (j + 1)).card := by
      have h1 : (absentSet M j0).card ≤ (insert j (absentSet M (j + 1))).card :=
        Finset.card_le_card hsub
      have h2 : (insert j (absentSet M (j + 1))).card ≤
          (absentSet M (j + 1)).card + 1 := Finset.card_insert_le _ _
      omega
    obtain ⟨hlen, hmem, hpw⟩ := ih (j + 1) hcard2
    have hpick : pickAdd M (m + 1) j0 = j :: pickAdd M m (j + 1) := by
      simp only [pickAdd, hfa]
    rw [hpick]
    refine ⟨by simp [hlen], ?_, ?_⟩
    · intro x hx
      rcases List.mem_cons.mp hx with heq | hx'
      · rw [heq]; exact ⟨hj0, hjc, hjabs⟩
      · obtain ⟨ha, hb, hc⟩ := hmem x hx'
        exact ⟨by omega, hb, hc⟩
    · refine List.Pairwise.cons ?_ hpw
      intro x hx
      have := (hmem x hx).1
      omega

theorem addList_proj : ∀ (cs : List Nat) (M : DBM) (w : Nat),
    (addList M cs w).rows = M.rows ∧ (addList M cs w).cols = M.cols ∧
    (addList M cs w).max_cols = M.max_cols := by
  intro cs
  induction cs with
  | nil => intro M w; exact ⟨rfl, rfl, rfl⟩
  | cons c cs ih => intro M w; exact ih (dbm_LoadAdditionalColumn M c w) (w + 1)

theorem addList_which_lt : ∀ (cs : List Nat) (M : DBM) (w k : Nat), k < w →
    (addList M cs w).which_cols k = M.which_cols k := by
  intro cs
  induction cs with
  | nil => intro M w k _; rfl
  | cons c cs ih =>
    intro M w k hk
    have h1 := ih (dbm_LoadAdditionalColumn M c w) (w + 1) k (by omega)
    show (addList (dbm_LoadAdditionalColumn M c w) cs (w + 1)).which_cols k =
      M.which_cols k
    rw [h1]
    show (if k = w then c else M.which_cols k) = M.which_cols k
    rw [if_neg (by omega)]

theorem addList_getD : ∀ (cs : List Nat) (M : DBM) (w i : Nat), i < cs.length →
    (addList M cs w).which_cols (w + i) = cs.getD i 0 := by
  intro cs
  induction cs with
  | nil => intro M w i hi; exact absurd hi (by simp)
  | cons c cs ih =>
    intro M w i hi
    cases i with
    | zero =>
      have h1 := addList_which_lt cs (dbm_LoadAdditionalColumn M c w) (w + 1)
        (w + 0) (by omega)
      show (addList (dbm_LoadAdditionalColumn M c w) cs (w + 1)).which_cols (w + 0) =
        (c :: cs).getD 0 0
      rw [h1]
      show (if w + 0 = w then c else M.which_cols (w + 0)) = c
      rw [if_pos (by omega)]
    | succ i' =>
      have h1 := ih (dbm_LoadAdditionalColumn M c w) (w + 1) i' (by simpa using hi)
      show (addList (dbm_LoadAdditionalColumn M c w) cs (w + 1)).which_cols
        (w + (i' + 1)) = (c :: cs).getD (i' + 1) 0
      rw [show w + (i' + 1) = (w + 1) + i' by omega, h1]
      rfl

theorem addPick_ok (M : DBM) (hok : CacheOK M) (n : Nat)
    (hlc : lastcol M = M.max_cols) (hn : M.max_cols + n ≤ M.cols) :
    (∀ k, k < M.max_cols + n →
      (addList M (pickAdd M n 0) M.max_cols).which_cols k < M.cols) ∧
    (∀ k, k < M.max_cols + n → ∀ l, l < M.max_cols + n → k ≠ l →
      (addList M (pickAdd M n 0) M.max_cols).which_cols k ≠
      (addList M (pickAdd M n 0) M.max_cols).which_cols l) := by
  have hcard : n ≤ (absentSet M 0).card := by
    have h1 := absent_card M hok
    rw [hlc] at h1
    omega
  obtain ⟨hlen, hmem, hpw⟩ := pickAdd_spec M n 0 hcard
  have hwlow : ∀ k, k < M.max_cols →
      (addList M (pickAdd M n 0) M.max_cols).which_cols k = M.which_cols k :=
    fun k hk => addList_which_lt (pickAdd M n 0) M M.max_cols k hk
  have hwhigh : ∀ i, i < n →
      (addList M (pickAdd M n 0) M.max_cols).which_cols (M.max_cols + i) =
        (pickAdd M n 0).getD i 0 :=
    fun i hi => addList_getD (pickAdd M n 0) M M.max_cols i (by rw [hlen]; exact hi)
  have hpsmem : ∀ i, i < n → (pickAdd M n 0).getD i 0 ∈ pickAdd M n 0 := by
    intro i hi
    have hi' : i < (pickAdd M n 0).length := by rw [hlen]; exact hi
    rw [List.getD_eq_getElem (pickAdd M n 0) 0 hi']
    exact List.getElem_mem hi'
  have habsent : ∀ i, i < n → dbm_InColBuffer M ((pickAdd M n 0).getD i 0) = none :=
    fun i hi => Option.isNone_iff_eq_none.mp (hmem _ (hpsmem i hi)).2.2
  have hltc : ∀ i, i < n → (pickAdd M n 0).getD i 0 < M.cols :=
    fun i hi => (hmem _ (hpsmem i hi)).2.1
  have hdistinct : ∀ i i', i < n → i' < n → i ≠ i' →
      (pickAdd M n 0).getD i 0 ≠ (pickAdd M n 0).getD i' 0 := by
    intro i i' hi hi' hne
    have hi2 : i < (pickAdd M n 0).length := by rw [hlen]; exact hi
    have hi2' : i' < (pickAdd M n 0).length := by rw [hlen]; exact hi'
    rw [List.getD_eq_getElem (pickAdd M n 0) 0 hi2,
      List.getD_eq_getElem (pickAdd M n 0) 0 hi2']
    have hpg := List.pairwise_iff_getElem.mp hpw
    rcases Nat.lt_or_ge i i' with hlt' | hge
    · exact Nat.ne_of_lt (hpg i i' hi2 hi2' hlt')
    · exact (Nat.ne_of_lt (hpg i' i hi2' hi2 (by omega))).symm
  have hmix : ∀ k i, k < M.max_cols → i < n →
      M.which_cols k ≠ (pickAdd M n 0).getD i 0 := by
    intro k i hk hi hc
    have hs := searchDown_eq_none_iff.mp (habsent i hi) k (by rw [hlc]; exact hk)
    exact hs hc
  constructor
  · intro k hk
    by_cases hkm : k < M.max_cols
    · rw [hwlow k hkm]
      exact hok.1 k (by rw [hlc]; exact hkm)
    · rw [show k = M.max_cols + (k - M.max_cols) by omega,
        hwhigh (k - M.max_cols) (by omega)]
      exact hltc _ (by omega)
  · intro k hk l hl hkl
    by_cases hkm : k < M.max_cols <;> by_cases hlm : l < M.max_cols
    · rw [hwlow k hkm, hwlow l hlm]
      exact hok.2 k (by rw [hlc]; exact hkm) l (by rw [hlc]; exact hlm) hkl
    · rw [hwlow k hkm, show l = M.max_cols + (l - M.max_cols) by omega,
        hwhigh (l - M.max_cols) (by omega)]
      exact hmix k _ hkm (by omega)
    · rw [show k = M.max_cols + (k - M.max_cols) by omega,
        hwhigh (k - M.max_cols) (by omega), hwlow l hlm]
      exact (hmix l _ hlm (by omega)).symm
    · rw [show k = M.max_cols + (k - M.max_cols) by omega,
        hwhigh (k - M.max_cols) (by omega),
        show l = M.max_cols + (l - M.max_cols) by omega,
        hwhigh (l - M.max_cols) (by omega)]
      exact hdistinct _ _ (by omega) (by omega) (by omega)

theorem removeN_cacheOK (M : DBM) (hok : CacheOK M) (t nR : Nat)
    (htc : t < M.cols) (hbound : t + nR ≤ lastcol M) :
    CacheOK { removeN M nR with max_cols := t } := by
  obtain ⟨hrows, hcols, hmaxc, hwhich⟩ := removeN_proj nR M
  have hlast : lastcol { removeN M nR with max_cols := t } = t := by
    unfold lastcol
    show (if (removeN M nR).cols < t then (removeN M nR).cols else t) = t
    rw [hcols, if_neg (by omega)]
  constructor
  · intro k hk
    rw [hlast] at hk
    show (removeN M nR).which_cols k < (removeN M nR).cols
    rw [hcols, hwhich k]
    exact hok.1 (k + nR) (by omega)
  · intro k hk l hl hkl
    rw [hlast] at hk
    rw [hlast] at hl
    show (removeN M nR).which_cols k ≠ (removeN M nR).which_cols l
    rw [hwhich k, hwhich l]
    exact hok.2 (k + nR) (by omega) (l + nR) (by omega) (by omega)

theorem addList_cacheOK (M : DBM) (hok : CacheOK M) (t n : Nat)
    (hlc : lastcol M = M.max_cols) (hn : M.max_cols + n ≤ M.cols)
    (hlast : lastcol { addList M (pickAdd M n 0) M.max_cols with max_cols := t } =
      M.max_cols + n) :
    CacheOK { addList M (pickAdd M n 0) M.max_cols with max_cols := t } := by
  obtain ⟨hmem2, hnd2⟩ := addPick_ok M hok n hlc hn
  obtain ⟨hrows, hcols, hmaxc⟩ := addList_proj (pickAdd M n 0) M M.max_cols
  constructor
  · intro k hk
    rw [hlast] at hk
    show (addList M (pickAdd M n 0) M.max_cols).which_cols k <
      (addList M (pickAdd M n 0) M.max_cols).cols
    rw [hcols]
    exact hmem2 k hk
  · intro k hk l hl hkl
    rw [hlast] at hk
    rw [hlast] at hl
    exact hnd2 k hk l hl hkl

theorem ResizeColBuffer_char (M0 : DBM) (nmc : Int) :
    dbm_ResizeColBuffer M0 nmc =
      (if nmc ≤ 0 then ((if M0.rowcolclash then dbm_ClearClash M0 else M0), 1)
       else
         let M := if M0.rowcolclash then dbm_ClearClash M0 else M0
         if M.max_cols = nmc.toNat then (M, 0)
         else if nmc.toNat < M.max_cols then
           ({ (if nmc.toNat < M.cols then
                removeN M (if M.max_cols < M.cols then M.max_cols - nmc.toNat
                           else M.cols - nmc.toNat)
              else M) with max_cols := nmc.toNat }, 0)
         else if nmc.toNat < M.cols then
           ({ addList M (pickAdd M (nmc.toNat - M.max_cols) 0) M.max_cols with
              max_cols := nmc.toNat }, 0)
         else if M.max_cols < M.cols then
           ({ addList M (pickAdd M (M.cols - M.max_cols) 0) M.max_cols with
              max_cols := nmc.toNat }, 0)
         else ({ M with max_cols := nmc.toNat }, 0)) := rfl

theorem ResizeColBuffer_cache (M0 : DBM) (hok : CacheOK M0) (nmc : Int) :
    CacheOK (dbm_ResizeColBuffer M0 nmc).1 := by
  have hMok : CacheOK (if M0.rowcolclash then dbm_ClearClash M0 else M0) := by
    split
    · obtain ⟨_, hc, hm, _, _, _, hw, _⟩ := ClearClash_proj M0
      exact CacheOK_congr hc hm (fun k => by rw [hw]) hok
    · exact hok
  rw [ResizeColBuffer_char]
  by_cases h0 : nmc ≤ 0
  · rw [if_pos h0]
    exact hMok
  rw [if_neg h0]
  set M := if M0.rowcolclash then dbm_ClearClash M0 else M0 with hMdef
  set t := nmc.toNat with htdef
  dsimp only
  by_cases heqmc : M.max_cols = t
  · rw [if_pos heqmc]
    exact hMok
  rw [if_neg heqmc]
  by_cases hshrink : t < M.max_cols
  · rw [if_pos hshrink]
    by_cases hc : t < M.cols
    · rw [if_pos hc]
      by_cases hmm : M.max_cols < M.cols
      · rw [if_pos hmm]
        dsimp only
        refine removeN_cacheOK M hMok t (M.max_cols - t) hc ?_
        unfold lastcol
        rw [if_neg (by omega)]
        omega
      · rw [if_neg hmm]
        dsimp only
        refine removeN_cacheOK M hMok t (M.cols - t) hc ?_
        unfold lastcol
        split <;> omega
    · rw [if_neg hc]
      dsimp only
      refine CacheOK_set_maxcols M hMok t ?_
      rw [show lastcol { M with max_cols := t } = if M.cols < t then M.cols else t
        from rfl]
      unfold lastcol
      split <;> split <;> omega
  · rw [if_neg hshrink]
    by_cases hc : t < M.cols
    · rw [if_pos hc]
      dsimp only
      refine addList_cacheOK M hMok t (t - M.max_cols) ?_ (by omega) ?_
      · unfold lastcol
        rw [if_neg (by omega)]
      · unfold lastcol
        show (if (addList M (pickAdd M (t - M.max_cols) 0) M.max_cols).cols < t then
            (addList M (pickAdd M (t - M.max_cols) 0) M.max_cols).cols else t) =
          M.max_cols + (t - M.max_cols)
        rw [show (addList M (pickAdd M (t - M.max_cols) 0) M.max_cols).cols = M.cols
          from (addList_proj _ _ _).2.1]
        rw [if_neg (by omega)]
        omega
    · rw [if_neg hc]
      by_cases hmm : M.max_cols < M.cols
      · rw [if_pos hmm]
        dsimp only
        refine addList_cacheOK M hMok t (M.cols - M.max_cols) ?_ (by omega) ?_
        · unfold lastcol
          rw [if_neg (by omega)]
        · unfold lastcol
          show (if (addList M (pickAdd M (M.cols - M.max_cols) 0) M.max_cols).cols < t
              then (addList M (pickAdd M (M.cols - M.max_cols) 0) M.max_cols).cols
              else t) = M.max_cols + (M.cols - M.max_cols)
          rw [show (addList M (pickAdd M (M.cols - M.max_cols) 0) M.max_cols).cols =
            M.cols from (addList_proj _ _ _).2.1]
          split <;> omega
      · rw [if_neg hmm]
        dsimp only
        refine CacheOK_set_maxcols M hMok t ?_
        rw [show lastcol { M with max_cols := t } = if M.cols < t then M.cols else t
          from rfl]
        unfold lastcol
        split <;> split <;> omega

theorem flushSlots_cacheproj : ∀ (n : Nat) (M : DBM),
    (flushSlots M n).cols = M.cols ∧ (flushSlots M n).max_cols = M.max_cols ∧
    ∀ k, (flushSlots M n).which_cols k = M.which_cols k := by
  intro n
  induction n with
  | zero => intro M; exact ⟨rfl, rfl, fun _ => rfl⟩
  | succ m ih =>
    intro M
    obtain ⟨h1, h2, h3⟩ := ih M
    exact ⟨h1, h2, h3⟩

theorem RowMode_cacheproj (M : DBM) :
    (dbm_RowMode M).cols = M.cols ∧ (dbm_RowMode M).max_cols = M.max_cols ∧
    ∀ k, (dbm_RowMode M).which_cols k = M.which_cols k := by
  unfold dbm_RowMode
  split
  · refine ⟨(LoadRowBuffer_proj { M with rowdata := fun _ _ => dzero } 0).2.1,
      (LoadRowBuffer_proj { M with rowdata := fun _ _ => dzero } 0).2.2.1, fun k => ?_⟩
    exact congrFun
      (LoadRowBuffer_proj { M with rowdata := fun _ _ => dzero } 0).2.2.2.2.2.1 k
  · exact ⟨rfl, rfl, fun _ => rfl⟩

theorem ColMode_cacheproj (M : DBM) :
    (dbm_ColMode M).cols = M.cols ∧ (dbm_ColMode M).max_cols = M.max_cols ∧
    ∀ k, (dbm_ColMode M).which_cols k = M.which_cols k := by
  unfold dbm_ColMode
  split
  · set M1 := if M.rowcolclash then dbm_ClearClash M else M with hM1
    have hcp : M1.cols = M.cols ∧ M1.max_cols = M.max_cols ∧
        ∀ k, M1.which_cols k = M.which_cols k := by
      rw [hM1]
      split
      · obtain ⟨_, hc, hm, _, _, _, hw, _⟩ := ClearClash_proj M
        exact ⟨hc, hm, fun k => by rw [hw]⟩
      · exact ⟨rfl, rfl, fun _ => rfl⟩
    refine ⟨?_, ?_, fun k => ?_⟩
    · show (dbm_FlushRowBuffer M1).cols = M.cols
      rw [(FlushRowBuffer_proj M1).2.1, hcp.1]
    · show (dbm_FlushRowBuffer M1).max_cols = M.max_cols
      rw [(FlushRowBuffer_proj M1).2.2.1, hcp.2.1]
    · show (dbm_FlushRowBuffer M1).which_cols k = M.which_cols k
      rw [(FlushRowBuffer_proj M1).2.2.2.2.2.2.2.1, hcp.2.2 k]
  · exact ⟨rfl, rfl, fun _ => rfl⟩

theorem ReadOnlyMode_cacheproj (M : DBM) (b : Bool) :
    (dbm_ReadOnlyMode M b).cols = M.cols ∧
    (dbm_ReadOnlyMode M b).max_cols = M.max_cols ∧
    ∀ k, (dbm_ReadOnlyMode M b).which_cols k = M.which_cols k := by
  unfold dbm_ReadOnlyMode
  split
  · set Ma := if M.colmode = false then
        dbm_FlushRowBuffer (if M.rowcolclash then dbm_ClearClash M else M)
      else M with hMa
    have hcp : Ma.cols = M.cols ∧ Ma.max_cols = M.max_cols ∧
        ∀ k, Ma.which_cols k = M.which_cols k := by
      rw [hMa]
      split
      · set M1 := if M.rowcolclash then dbm_ClearClash M else M with hM1
        have hcp1 : M1.cols = M.cols ∧ M1.max_cols = M.max_cols ∧
            ∀ k, M1.which_cols k = M.which_cols k := by
          rw [hM1]
          split
          · obtain ⟨_, hc, hm, _, _, _, hw, _⟩ := ClearClash_proj M
            exact ⟨hc, hm, fun k => by rw [hw]⟩
          · exact ⟨rfl, rfl, fun _ => rfl⟩
        refine ⟨?_, ?_, fun k => ?_⟩
        · rw [(FlushRowBuffer_proj M1).2.1, hcp1.1]
        · rw [(FlushRowBuffer_proj M1).2.2.1, hcp1.2.1]
        · rw [(FlushRowBuffer_proj M1).2.2.2.2.2.2.2.1, hcp1.2.2 k]
      · exact ⟨rfl, rfl, fun _ => rfl⟩
    obtain ⟨h1, h2, h3⟩ := flushSlots_cacheproj (lastcol Ma) Ma
    exact ⟨h1.trans hcp.1, h2.trans hcp.2.1, fun k => (h3 k).trans (hcp.2.2 k)⟩
  · exact ⟨rfl, rfl, fun _ => rfl⟩

theorem setRows_cacheproj (M : DBM) (n : Nat) :
    (dbm_setRows M n).1.cols = M.cols ∧ (dbm_setRows M n).1.max_cols = M.max_cols ∧
    ∀ k, (dbm_setRows M n).1.which_cols k = M.which_cols k := by
  by_cases h : 0 < M.rows
  · unfold dbm_setRows
    rw [if_pos h]
    exact ⟨rfl, rfl, fun _ => rfl⟩
  · have hred : dbm_setRows M n =
        ((if n < M.max_rows then { M with rows := n, max_rows := n }
          else { M with rows := n }), 1) := by
      unfold dbm_setRows
      rw [if_neg h]
    rw [hred]
    by_cases h2 : n < M.max_rows
    · rw [if_pos h2]
      exact ⟨rfl, rfl, fun _ => rfl⟩
    · rw [if_neg h2]
      exact ⟨rfl, rfl, fun _ => rfl⟩

theorem ResizeRowBuffer_char (M : DBM) (nmr : Int) :
    dbm_ResizeRowBuffer M nmr =
      (if nmr ≤ 0 then (M, 1)
       else
         let t : Nat := if (M.rows : Int) < nmr then M.rows else nmr.toNat
         if M.colmode then ({ M with max_rows := t }, 0)
         else
           let M1 := if M.rowcolclash then dbm_ClearClash M else M
           if M1.max_rows = t then (M1, 0)
           else if t < M1.max_rows then
             ({ dbm_FlushRowBuffer M1 with
                rowdata := fun j i =>
                  if j < (dbm_FlushRowBuffer M1).cols ∧ i < t then
                    (dbm_FlushRowBuffer M1).rowdata j i
                  else dzero,
                max_rows := t }, 0)
           else
             (dbm_LoadRowBuffer
               { dbm_FlushRowBuffer M1 with
                 rowdata := fun _ _ => dzero,
                 max_rows := t }
               (if (dbm_FlushRowBuffer M1).rows <
                   (dbm_FlushRowBuffer M1).first_rowdata + t then
                  (dbm_FlushRowBuffer M1).rows - t
                else (dbm_FlushRowBuffer M1).rows), 0)) := rfl

theorem ResizeRowBuffer_cacheproj (M : DBM) (nmr : Int) :
    (dbm_ResizeRowBuffer M nmr).1.cols = M.cols ∧
    (dbm_ResizeRowBuffer M nmr).1.max_cols = M.max_cols ∧
    ∀ k, (dbm_ResizeRowBuffer M nmr).1.which_cols k = M.which_cols k := by
  rw [ResizeRowBuffer_char]
  by_cases h0 : nmr ≤ 0
  · rw [if_pos h0]
    exact ⟨rfl, rfl, fun _ => rfl⟩
  rw [if_neg h0]
  dsimp only
  by_cases hcm : M.colmode
  · rw [if_pos hcm]
    exact ⟨rfl, rfl, fun _ => rfl⟩
  rw [if_neg hcm]
  set t : Nat := if (M.rows : Int) < nmr then M.rows else nmr.toNat with htdef
  set M1 := if M.rowcolclash then dbm_ClearClash M else M with hM1
  have hcp1 : M1.cols = M.cols ∧ M1.max_cols = M.max_cols ∧
      ∀ k, M1.which_cols k = M.which_cols k := by
    rw [hM1]
    split
    · obtain ⟨_, hc, hm, _, _, _, hw, _⟩ := ClearClash_proj M
      exact ⟨hc, hm, fun k => by rw [hw]⟩
    · exact ⟨rfl, rfl, fun _ => rfl⟩
  by_cases he : M1.max_rows = t
  · rw [if_pos he]
    exact hcp1
  rw [if_neg he]
  by_cases hlt : t < M1.max_rows
  · rw [if_pos hlt]
    refine ⟨?_, ?_, fun k => ?_⟩
    · show (dbm_FlushRowBuffer M1).cols = M.cols
      rw [(FlushRowBuffer_proj M1).2.1, hcp1.1]
    · show (dbm_FlushRowBuffer M1).max_cols = M.max_cols
      rw [(FlushRowBuffer_proj M1).2.2.1, hcp1.2.1]
    · show (dbm_FlushRowBuffer M1).which_cols k = M.which_cols k
      rw [(FlushRowBuffer_proj M1).2.2.2.2.2.2.2.1, hcp1.2.2 k]
  · rw [if_neg hlt]
    refine ⟨?_, ?_, fun k => ?_⟩
    · rw [(LoadRowBuffer_proj _ _).2.1]
      show (dbm_FlushRowBuffer M1).cols = M.cols
      rw [(FlushRowBuffer_proj M1).2.1, hcp1.1]
    · rw [(LoadRowBuffer_proj _ _).2.2.1]
      show (dbm_FlushRowBuffer M1).max_cols = M.max_cols
      rw [(FlushRowBuffer_proj M1).2.2.1, hcp1.2.1]
    · rw [congrFun (LoadRowBuffer_proj _ _).2.2.2.2.2.1 k]
      show (dbm_FlushRowBuffer M1).which_cols k = M.which_cols k
      rw [(FlushRowBuffer_proj M1).2.2.2.2.2.2.2.1, hcp1.2.2 k]

theorem ResizeBuffer_cache (M : DBM) (hok : CacheOK M) (nmr nmc : Int) :
    CacheOK (dbm_ResizeBuffer M nmr nmc).1 := by
  have h1 := ResizeColBuffer_cache M hok nmc
  unfold dbm_ResizeBuffer
  dsimp only
  by_cases hcm : (dbm_ResizeColBuffer M nmc).1.colmode = false
  · rw [if_pos hcm]
    obtain ⟨hc, hm, hw⟩ := ResizeRowBuffer_cacheproj (dbm_ResizeColBuffer M nmc).1 nmr
    exact CacheOK_congr hc hm hw h1
  · rw [if_neg hcm]
    exact CacheOK_congr rfl rfl (fun _ => rfl) h1

/-- C3: after every public operation of the descriptor API (`dbm_getValue`,
`dbm_setValue`, `dbm_setRows`, `dbm_AddColumn`, `dbm_RowMode`, `dbm_ColMode`,
`dbm_ReadOnlyMode`, `dbm_ResizeColBuffer`, `dbm_ResizeRowBuffer`,
`dbm_ResizeBuffer`) applied to a well-formed matrix, the column cache again
satisfies `CacheOK`: its live slots number exactly `min(cols, max_cols)` (so
it holds at most that many entries), the cached column indices are pairwise
distinct, and each lies in `[0, cols)`. -/
theorem C3_cache_capacity (M : DBM) (hWF : WF M) (r c : Int) (v : D) (n : Nat)
    (nmr nmc : Int) (b : Bool) :
    CacheOK (dbm_getValue M r c).1 ∧
    CacheOK (dbm_setValue M r c v).1 ∧
    CacheOK (dbm_setRows M n).1 ∧
    CacheOK (dbm_AddColumn M).1 ∧
    CacheOK (dbm_RowMode M) ∧
    CacheOK (dbm_ColMode M) ∧
    CacheOK (dbm_ReadOnlyMode M b) ∧
    CacheOK (dbm_ResizeColBuffer M nmc).1 ∧
    CacheOK (dbm_ResizeRowBuffer M nmr).1 ∧
    CacheOK (dbm_ResizeBuffer M nmr nmc).1 := by
  have hok := CacheOK_of_WF hWF
  refine ⟨?_, ?_, ?_, ?_, ?_, ?_, ?_, ?_, ?_, ?_⟩
  · by_cases hoor : (M.rows : Int) ≤ r ∨ (M.cols : Int) ≤ c ∨ r < 0 ∨ c < 0
    · rw [getValue_oor M r c hoor]
      exact hok
    · push_neg at hoor
      obtain ⟨h1, h2, h3, h4⟩ := hoor
      rw [show r = ((r.toNat : Nat) : Int) by omega,
        show c = ((c.toNat : Nat) : Int) by omega]
      exact CacheOK_of_WF
        (getValue_spec M r.toNat c.toNat hWF (by omega) (by omega)).2.2.2
  · by_cases hro : M.readonly = true
    · have heq : dbm_setValue M r c v = (M, 0) := by
        unfold dbm_setValue
        rw [if_pos hro]
      rw [heq]
      exact hok
    · by_cases hoor : (M.rows : Int) ≤ r ∨ (M.cols : Int) ≤ c ∨ r < 0 ∨ c < 0
      · have heq : dbm_setValue M r c v = (M, 0) := by
          unfold dbm_setValue
          rw [if_neg hro, if_pos hoor]
        rw [heq]
        exact hok
      · push_neg at hoor
        obtain ⟨h1, h2, h3, h4⟩ := hoor
        rw [show r = ((r.toNat : Nat) : Int) by omega,
          show c = ((c.toNat : Nat) : Int) by omega]
        exact CacheOK_of_WF
          (setValue_spec M r.toNat c.toNat v hWF (by omega) (by omega)
            (by simpa using hro)).2.2.1
  · exact CacheOK_congr (setRows_cacheproj M n).1 (setRows_cacheproj M n).2.1
      (setRows_cacheproj M n).2.2 hok
  · exact CacheOK_of_WF (AddColumn_spec M hWF).1
  · exact CacheOK_congr (RowMode_cacheproj M).1 (RowMode_cacheproj M).2.1
      (RowMode_cacheproj M).2.2 hok
  · exact CacheOK_congr (ColMode_cacheproj M).1 (ColMode_cacheproj M).2.1
      (ColMode_cacheproj M).2.2 hok
  · exact CacheOK_congr (ReadOnlyMode_cacheproj M b).1 (ReadOnlyMode_cacheproj M b).2.1
      (ReadOnlyMode_cacheproj M b).2.2 hok
  · exact ResizeColBuffer_cache M hok nmc
  · exact CacheOK_congr (ResizeRowBuffer_cacheproj M nmr).1
      (ResizeRowBuffer_cacheproj M nmr).2.1 (ResizeRowBuffer_cacheproj M nmr).2.2 hok
  · exact ResizeBuffer_cache M hok nmr nmc

/-- Witness for C3 at the concrete two-column cached state `exM`. -/
theorem C3_cache_capacity_witness :
    CacheOK (dbm_getValue exM 0 1).1 ∧
    CacheOK (dbm_setValue exM 0 1 dzero).1 ∧
    CacheOK (dbm_setRows exM 3).1 ∧
    CacheOK (dbm_AddColumn exM).1 ∧
    CacheOK (dbm_RowMode exM) ∧
    CacheOK (dbm_ColMode exM) ∧
    CacheOK (dbm_ReadOnlyMode exM true) ∧
    CacheOK (dbm_ResizeColBuffer exM 2).1 ∧
    CacheOK (dbm_ResizeRowBuffer exM 2).1 ∧
    CacheOK (dbm_ResizeBuffer exM 2 2).1 :=
  C3_cache_capacity exM exM_WF 0 1 dzero 3 2 2 true

/-- C9: evaluation of the embedded `dbm_ResizeRowBuffer` at a failing input.
`exM9` is in row mode with `first_rowdata = 0` and `rows = 4`; growing the
window to `new_maxrow = 2` keeps `first_rowdata + new_maxrow ≤ rows`, so the
claimed repositioning leaves the window anchored at the previous
`first_rowdata` 0.  The code instead reloads at `rows` (the grow arm passes
`Matrix->rows` where the claim expects `Matrix->first_rowdata`), which the
loader clamps to `rows - new_maxrow = 2`. -/
theorem C9_resize_row_buffer_anchor :
    exM9.colmode = false ∧ exM9.rowcolclash = false ∧
    exM9.max_rows = 1 ∧ exM9.first_rowdata = 0 ∧
    exM9.first_rowdata + 2 ≤ exM9.rows ∧
    (dbm_ResizeRowBuffer exM9 2).2 = 0 ∧
    (dbm_ResizeRowBuffer exM9 2).1.first_rowdata = 2 := by decide

/-- C7: evaluation of the embedded `dbm_rowMedians` at a failing input.
The single row of `exM7` holds the values 1 and 3 (non-NaN count 2, even),
so the claimed average of the two central order statistics is 2; but the
even-count arm of the source averages `results[j]` — the loop index `j`
having run past the row count — with the lower statistic instead of the
first selection `results[i]`, so what is written is the junk the result
array held past its end (here NaN), not 2. -/
theorem C7_row_medians_even :
    (dbm_rowMedians exM7 false (fun _ => D.NaN)).2 0 = D.NaN ∧
    dhalf (dadd (rPsortVal [D.val 1, D.val 3] 1) (rPsortVal [D.val 1, D.val 3] 0)) =
      D.val 2 ∧
    (dbm_rowMedians exM7 false (fun _ => D.NaN)).2 0 ≠ D.val 2 := by
  refine ⟨by decide, ?_, by decide⟩
  rw [show rPsortVal [D.val 1, D.val 3] 1 = D.val 3 by decide,
    show rPsortVal [D.val 1, D.val 3] 0 = D.val 1 by decide]
  show dhalf (dadd (D.val 3) (D.val 1)) = D.val 2
  simp only [dadd, dhalf]
  norm_num

/-- C6 counterexample: `dbm_ResizeBuffer` on the non-positive column
capacity 0 reports success (0) and still mutates the descriptor, clamping
`max_rows` from 2 down to 1. -/
theorem C6_resize_buffer_mutates :
    (dbm_ResizeBuffer exM6 0 0).2 = 0 ∧
    exM6.max_rows = 2 ∧
    (dbm_ResizeBuffer exM6 0 0).1.max_rows = 1 := by decide

/-- C6 (amended): out-of-range `get`, `set` while read-only or out of range,
and a second `set_rows` all fail and leave the descriptor untouched; but
`dbm_ResizeBuffer` never signals failure — it always returns 0 — and on a
non-positive requested column capacity in column mode (no pending clash) it
still clamps `max_rows` into `[1, rows]`, only the column capacity being
left unchanged. -/
theorem C6_precondition_failures (M : DBM) (r c : Int) (v : D) (n : Nat)
    (nmr nmc : Int) :
    (((M.rows : Int) ≤ r ∨ (M.cols : Int) ≤ c ∨ r < 0 ∨ c < 0) →
      dbm_getValue M r c = (M, none)) ∧
    (M.readonly = true → dbm_setValue M r c v = (M, 0)) ∧
    (((M.rows : Int) ≤ r ∨ (M.cols : Int) ≤ c ∨ r < 0 ∨ c < 0) →
      dbm_setValue M r c v = (M, 0)) ∧
    (0 < M.rows → dbm_setRows M n = (M, 0)) ∧
    (dbm_ResizeBuffer M nmr nmc).2 = 0 ∧
    (M.colmode = true → M.rowcolclash = false → nmc ≤ 0 →
      dbm_ResizeBuffer M nmr nmc =
        ({ M with max_rows :=
            if nmr < 1 then 1
            else if (M.rows : Int) < nmr then M.rows
            else nmr.toNat }, 0)) := by
  refine ⟨fun h => getValue_oor M r c h, ?_, ?_, ?_, ?_, ?_⟩
  · intro hro
    unfold dbm_setValue
    rw [if_pos hro]
  · intro hoor
    unfold dbm_setValue
    by_cases hro : M.readonly = true
    · rw [if_pos hro]
    · rw [if_neg hro, if_pos hoor]
  · intro hpos
    unfold dbm_setRows
    rw [if_pos hpos]
  · unfold dbm_ResizeBuffer
    dsimp only
    split <;> rfl
  · intro hcm hncl h0
    have hrcb : dbm_ResizeColBuffer M nmc = (M, 1) := by
      rw [ResizeColBuffer_char, if_pos h0, hncl]
      rfl
    unfold dbm_ResizeBuffer
    rw [hrcb]
    dsimp only
    rw [if_neg (by rw [hcm]; simp)]

/-- Witness for C6 at the concrete states `exM6` and `exM6ro`. -/
theorem C6_precondition_failures_witness :
    dbm_getValue exM6 5 0 = (exM6, none) ∧
    dbm_setValue exM6ro 0 0 dzero = (exM6ro, 0) ∧
    dbm_setValue exM6 5 0 dzero = (exM6, 0) ∧
    dbm_setRows exM6 7 = (exM6, 0) ∧
    (dbm_ResizeBuffer exM6 0 0).2 = 0 ∧
    dbm_ResizeBuffer exM6 0 0 = ({ exM6 with max_rows := 1 }, 0) := by
  refine ⟨(C6_precondition_failures exM6 5 0 dzero 7 0 0).1 (by decide),
    (C6_precondition_failures exM6ro 0 0 dzero 7 0 0).2.1 (by decide),
    (C6_precondition_failures exM6 5 0 dzero 7 0 0).2.2.1 (by decide),
    (C6_precondition_failures exM6 5 0 dzero 7 0 0).2.2.2.1 (by decide),
    (C6_precondition_failures exM6 5 0 dzero 7 0 0).2.2.2.2.1, ?_⟩
  have h := (C6_precondition_failures exM6 5 0 dzero 7 0 0).2.2.2.2.2
    (by decide) (by decide) (by decide)
  rw [h]
  rfl

/-- C8 counterexample: the single cell of `exM8` is `+inf` — no finite
element exists — yet with `ignore_na` set `dbm_max` returns `+inf` rather
than `-inf` and reports `foundfinite = 1`, because the source's
`foundfinite` test is merely `max < *value`, which `+inf` passes. -/
theorem C8_no_finite_counterexample :
    (∀ r, r < exM8.rows → ∀ c, c < exM8.cols → av exM8 r c = D.PosInf) ∧
    (dbm_max exM8 true).2.1 = D.PosInf ∧
    (dbm_max exM8 true).2.2 = 1 := by decide


theorem scanPure_nan_hit (upd : D → D → Bool) (hnan : ∀ v, upd D.NaN v = false) :
    ∀ (vs : List D) (mx : D) (ff : Nat),
      ((∃ v ∈ vs, dIsNaN v = true) ∨ mx = D.NaN) →
      (scanPure false upd vs mx ff).1 = D.NaN := by
  intro vs
  induction vs with
  | nil =>
    intro mx ff h
    rcases h with ⟨v, hv, _⟩ | h
    · exact absurd hv (List.not_mem_nil v)
    · exact h
  | cons v vs ih =>
    intro mx ff h
    simp only [scanPure]
    by_cases hv : dIsNaN v = true
    · rw [if_pos ⟨hv, by trivial⟩]
    · rw [if_neg (fun hc => hv hc.1)]
      rcases h with ⟨v', hv', hn'⟩ | h
      · have hmem : v' ∈ vs := by
          rcases List.mem_cons.mp hv' with heq | hmem
          · rw [heq] at hn'
            exact absurd hn' hv
          · exact hmem
        by_cases hu : upd mx v = true
        · rw [if_pos hu]
          exact ih v 1 (Or.inl ⟨v', hmem, hn'⟩)
        · rw [if_neg hu]
          exact ih mx ff (Or.inl ⟨v', hmem, hn'⟩)
      · rw [h, if_neg (by rw [hnan v]; exact Bool.false_ne_true)]
        exact ih D.NaN ff (Or.inr rfl)

theorem scanPure_ff_mono (naflag : Bool) (upd : D → D → Bool) :
    ∀ (vs : List D) (mx : D), (scanPure naflag upd vs mx 1).2 = 1 := by
  intro vs
  induction vs with
  | nil => intro mx; rfl
  | cons v vs ih =>
    intro mx
    simp only [scanPure]
    by_cases h1 : dIsNaN v = true ∧ naflag = false
    · rw [if_pos h1]
    · rw [if_neg h1]
      by_cases hu : upd mx v = true
      · rw [if_pos hu]; exact ih v
      · rw [if_neg hu]; exact ih mx

theorem scanPure_const (upd : D → D → Bool) :
    ∀ (vs : List D) (mx : D) (ff : Nat), (∀ v ∈ vs, upd mx v = false) →
      scanPure true upd vs mx ff = (mx, ff) := by
  intro vs
  induction vs with
  | nil => intro mx ff _; rfl
  | cons v vs ih =>
    intro mx ff hall
    simp only [scanPure]
    rw [if_neg (by simp),
      if_neg (by rw [hall v (List.mem_cons_self v vs)]; exact Bool.false_ne_true)]
    exact ih mx ff (fun v' hv' => hall v' (List.mem_cons_of_mem v hv'))

theorem scanPure_inv (upd : D → D → Bool) (bot : D) :
    ∀ (vs : List D) (mx : D) (ff : Nat), ((mx = bot ∧ ff = 0) ∨ ff = 1) →
      (((scanPure true upd vs mx ff).1 = bot ∧ (scanPure true upd vs mx ff).2 = 0) ∨
        (scanPure true upd vs mx ff).2 = 1) := by
  intro vs
  induction vs with
  | nil => intro mx ff h; exact h
  | cons v vs ih =>
    intro mx ff h
    simp only [scanPure]
    rw [if_neg (by simp)]
    by_cases hu : upd mx v = true
    · rw [if_pos hu]
      exact Or.inr (scanPure_ff_mono true upd vs v)
    · rw [if_neg hu]
      exact ih mx ff h

theorem scanPure_ff_hit (upd : D → D → Bool) (bot : D) :
    ∀ (vs : List D) (mx : D) (ff : Nat), ((mx = bot ∧ ff = 0) ∨ ff = 1) →
      (∃ v ∈ vs, upd bot v = true) →
      (scanPure true upd vs mx ff).2 = 1 := by
  intro vs
  induction vs with
  | nil =>
    intro mx ff _ h
    obtain ⟨v, hv, _⟩ := h
    exact absurd hv (List.not_mem_nil v)
  | cons v vs ih =>
    intro mx ff hinv h
    simp only [scanPure]
    rw [if_neg (by simp)]
    by_cases hu : upd mx v = true
    · rw [if_pos hu]
      exact scanPure_ff_mono true upd vs v
    · rw [if_neg hu]
      obtain ⟨v', hv', hb'⟩ := h
      rcases List.mem_cons.mp hv' with heq | hmem
      · rcases hinv with ⟨hmx, _⟩ | hff
        · rw [hmx, ← heq] at hu
          exact absurd hb' hu
        · rw [hff]
          exact scanPure_ff_mono true upd vs mx
      · exact ih mx ff hinv ⟨v', hmem, hb'⟩

theorem scanColsPure_congr (naflag : Bool) (upd : D → D → Bool)
    (vals vals' : Nat → List D) :
    ∀ (js : List Nat) (mx : D) (ff : Nat), (∀ j ∈ js, vals j = vals' j) →
      scanColsPure naflag upd vals js mx ff =
        scanColsPure naflag upd vals' js mx ff := by
  intro js
  induction js with
  | nil => intro mx ff _; rfl
  | cons j js ih =>
    intro mx ff hall
    simp only [scanColsPure]
    rw [hall j (List.mem_cons_self j js)]
    exact ih _ _ (fun j' hj' => hall j' (List.mem_cons_of_mem j hj'))

theorem scanColsPure_append (naflag : Bool) (upd : D → D → Bool)
    (vals : Nat → List D) :
    ∀ (xs ys : List Nat) (mx : D) (ff : Nat),
      scanColsPure naflag upd vals (xs ++ ys) mx ff =
        scanColsPure naflag upd vals ys
          (scanColsPure naflag upd vals xs mx ff).1
          (scanColsPure naflag upd vals xs mx ff).2 := by
  intro xs
  induction xs with
  | nil => intro ys mx ff; rfl
  | cons x xs ih =>
    intro ys mx ff
    simp only [List.cons_append, scanColsPure]
    exact ih ys _ _

theorem scanColsPure_ff_mono (naflag : Bool) (upd : D → D → Bool)
    (vals : Nat → List D) :
    ∀ (js : List Nat) (mx : D), (scanColsPure naflag upd vals js mx 1).2 = 1 := by
  intro js
  induction js with
  | nil => intro mx; rfl
  | cons j js ih =>
    intro mx
    simp only [scanColsPure]
    rw [scanPure_ff_mono naflag upd (vals j) mx]
    exact ih _

theorem scanColsPure_nan (upd : D → D → Bool) (hnan : ∀ v, upd D.NaN v = false)
    (vals : Nat → List D) :
    ∀ (js : List Nat) (mx : D) (ff : Nat),
      ((∃ j ∈ js, ∃ v ∈ vals j, dIsNaN v = true) ∨ mx = D.NaN) →
      (scanColsPure false upd vals js mx ff).1 = D.NaN := by
  intro js
  induction js with
  | nil =>
    intro mx ff h
    rcases h with ⟨j, hj, _⟩ | h
    · exact absurd hj (List.not_mem_nil j)
    · exact h
  | cons j js ih =>
    intro mx ff h
    simp only [scanColsPure]
    rcases h with ⟨j', hj', hv'⟩ | h
    · rcases List.mem_cons.mp hj' with heq | hmem
      · refine ih _ _ (Or.inr ?_)
        rw [← heq]
        exact scanPure_nan_hit upd hnan (vals j') mx ff (Or.inl hv')
      · exact ih _ _ (Or.inl ⟨j', hmem, hv'⟩)
    · refine ih _ _ (Or.inr ?_)
      exact scanPure_nan_hit upd hnan (vals j) mx ff (Or.inr h)

theorem scanColsPure_const (upd : D → D → Bool) (bot : D) (vals : Nat → List D) :
    ∀ (js : List Nat), (∀ j ∈ js, ∀ v ∈ vals j, upd bot v = false) →
      scanColsPure true upd vals js bot 0 = (bot, 0) := by
  intro js
  induction js with
  | nil => intro _; rfl
  | cons j js ih =>
    intro hall
    simp only [scanColsPure]
    rw [scanPure_const upd (vals j) bot 0 (hall j (List.mem_cons_self j js))]
    exact ih (fun j' hj' => hall j' (List.mem_cons_of_mem j hj'))

theorem scanColsPure_ff_hit (upd : D → D → Bool) (bot : D) (vals : Nat → List D) :
    ∀ (js : List Nat) (mx : D) (ff : Nat), ((mx = bot ∧ ff = 0) ∨ ff = 1) →
      (∃ j ∈ js, ∃ v ∈ vals j, upd bot v = true) →
      (scanColsPure true upd vals js mx ff).2 = 1 := by
  intro js
  induction js with
  | nil =>
    intro mx ff _ h
    obtain ⟨j, hj, _⟩ := h
    exact absurd hj (List.not_mem_nil j)
  | cons j js ih =>
    intro mx ff hinv h
    simp only [scanColsPure]
    rcases h with ⟨j', hj', hv'⟩
    rcases List.mem_cons.mp hj' with heq | hmem
    · have hq : (scanPure true upd (vals j) mx ff).2 = 1 := by
        rw [← heq]
        exact scanPure_ff_hit upd bot (vals j') mx ff hinv hv'
      rw [hq]
      exact scanColsPure_ff_mono true upd vals js _
    · exact ih _ _ (scanPure_inv upd bot (vals j) mx ff hinv) ⟨j', hmem, hv'⟩

theorem cached_ne_none (M : DBM) (s : Nat) (hs : s < lastcol M) :
    dbm_InColBuffer M (M.which_cols s) ≠ none := by
  intro hc
  exact searchDown_eq_none_iff.mp hc s hs rfl

theorem maxRows_spec (naflag : Bool) :
    ∀ (is : List Nat) (M : DBM) (j : Nat) (mx : D) (ff : Nat),
      WF M → j < M.cols → (∀ i ∈ is, i < M.rows) →
      sameShape M (dbm_maxRows naflag M j is mx ff).1 ∧
      avEq M (dbm_maxRows naflag M j is mx ff).1 ∧
      WF (dbm_maxRows naflag M j is mx ff).1 ∧
      ((dbm_maxRows naflag M j is mx ff).2.1, (dbm_maxRows naflag M j is mx ff).2.2) =
        scanPure naflag (fun a b => dlt a b) (is.map (fun i => av M i j)) mx ff ∧
      (dbm_InColBuffer M j ≠ none →
        (dbm_maxRows naflag M j is mx ff).1.which_cols = M.which_cols) := by
  intro is
  induction is with
  | nil =>
    intro M j mx ff hWF hj his
    exact ⟨sameShape_refl M, avEq_refl M, hWF, rfl, fun _ => rfl⟩
  | cons i is ih =>
    intro M j mx ff hWF hj his
    have hi : i < M.rows := his i (List.mem_cons_self i is)
    obtain ⟨s1, a1, w1, hl1, hwc1⟩ := internalGet_spec M i j hWF hi hj
    have hv : readLoc (dbm_internalgetValue M i j).1 (dbm_internalgetValue M i j).2 =
        av M i j := by
      rw [readLoc_eq_av (dbm_internalgetValue M i j).1 (dbm_internalgetValue M i j).2
        i j hl1]
      exact a1 i j hi hj
    have hstep : dbm_maxRows naflag M j (i :: is) mx ff =
        if dIsNaN (av M i j) = true ∧ naflag = false then
          ((dbm_internalgetValue M i j).1, D.NaN, ff)
        else if dlt mx (av M i j) = true then
          dbm_maxRows naflag (dbm_internalgetValue M i j).1 j is (av M i j) 1
        else dbm_maxRows naflag (dbm_internalgetValue M i j).1 j is mx ff := by
      simp only [dbm_maxRows]
      rw [hv]
    have hj2 : j < (dbm_internalgetValue M i j).1.cols := by
      rw [s1.2.1]
      exact hj
    have his2 : ∀ i' ∈ is, i' < (dbm_internalgetValue M i j).1.rows := by
      intro i' hi'
      rw [s1.1]
      exact his i' (List.mem_cons_of_mem i hi')
    have hmap : is.map (fun i' => av (dbm_internalgetValue M i j).1 i' j) =
        is.map (fun i' => av M i' j) :=
      List.map_congr_left
        (fun i' hi' => a1 i' j (his i' (List.mem_cons_of_mem i hi')) hj)
    by_cases hc1 : dIsNaN (av M i j) = true ∧ naflag = false
    · rw [hstep, if_pos hc1]
      refine ⟨s1, a1, w1, ?_, fun hnone => hwc1 hnone⟩
      simp only [List.map_cons, scanPure]
      rw [if_pos hc1]
    · rw [hstep, if_neg hc1]
      by_cases hu : dlt mx (av M i j) = true
      · rw [if_pos hu]
        obtain ⟨s2, a2, w2, hp2, hwc2⟩ :=
          ih (dbm_internalgetValue M i j).1 j (av M i j) 1 w1 hj2 his2
        refine ⟨sameShape_trans s1 s2, avEq_trans s1 a1 a2, w2, ?_, ?_⟩
        · rw [hp2, hmap]
          simp only [List.map_cons, scanPure]
          rw [if_neg hc1, if_pos hu]
        · intro hnone
          have hnone2 : dbm_InColBuffer (dbm_internalgetValue M i j).1 j ≠ none := by
            rw [InColBuffer_congr (hwc1 hnone) s1.2.1 s1.2.2.1 j]
            exact hnone
          rw [hwc2 hnone2, hwc1 hnone]
      · rw [if_neg hu]
        obtain ⟨s2, a2, w2, hp2, hwc2⟩ :=
          ih (dbm_internalgetValue M i j).1 j mx ff w1 hj2 his2
        refine ⟨sameShape_trans s1 s2, avEq_trans s1 a1 a2, w2, ?_, ?_⟩
        · rw [hp2, hmap]
          simp only [List.map_cons, scanPure]
          rw [if_neg hc1, if_neg hu]
        · intro hnone
          have hnone2 : dbm_InColBuffer (dbm_internalgetValue M i j).1 j ≠ none := by
            rw [InColBuffer_congr (hwc1 hnone) s1.2.1 s1.2.2.1 j]
            exact hnone
          rw [hwc2 hnone2, hwc1 hnone]

theorem maxPhase1_spec (naflag : Bool) :
    ∀ (ss : List Nat) (M : DBM) (mx : D) (ff : Nat) (done : List Nat),
      WF M → (∀ s ∈ ss, s < lastcol M) →
      sameShape M (dbm_maxPhase1 naflag M ss mx ff done).1 ∧
      avEq M (dbm_maxPhase1 naflag M ss mx ff done).1 ∧
      WF (dbm_maxPhase1 naflag M ss mx ff done).1 ∧
      (dbm_maxPhase1 naflag M ss mx ff done).1.which_cols = M.which_cols ∧
      (dbm_maxPhase1 naflag M ss mx ff done).2.2.2 =
        (ss.map M.which_cols).reverse ++ done ∧
      ((dbm_maxPhase1 naflag M ss mx ff done).2.1,
        (dbm_maxPhase1 naflag M ss mx ff done).2.2.1) =
        scanColsPure naflag (fun a b => dlt a b)
          (fun j => (List.range M.rows).map (fun i => av M i j))
          (ss.map M.which_cols) mx ff := by
  intro ss
  induction ss with
  | nil =>
    intro M mx ff done hWF _
    exact ⟨sameShape_refl M, avEq_refl M, hWF, rfl, by simp [dbm_maxPhase1], rfl⟩
  | cons s ss ih =>
    intro M mx ff done hWF hss
    have hs : s < lastcol M := hss s (List.mem_cons_self s ss)
    have hc : M.which_cols s < M.cols := hWF.hmem s hs
    obtain ⟨s1, a1, w1, hp1, hwc1⟩ := maxRows_spec naflag (List.range M.rows) M
      (M.which_cols s) mx ff hWF hc (fun i hi => List.mem_range.mp hi)
    have hwq : (dbm_maxRows naflag M (M.which_cols s) (List.range M.rows)
        mx ff).1.which_cols = M.which_cols := hwc1 (cached_ne_none M s hs)
    obtain ⟨s2, a2, w2, hw2, hdone2, hp2⟩ := ih
      (dbm_maxRows naflag M (M.which_cols s) (List.range M.rows) mx ff).1
      (dbm_maxRows naflag M (M.which_cols s) (List.range M.rows) mx ff).2.1
      (dbm_maxRows naflag M (M.which_cols s) (List.range M.rows) mx ff).2.2
      (M.which_cols s :: done) w1
      (fun s' hs' => by
        rw [lastcol_eq_of_sameShape s1]
        exact hss s' (List.mem_cons_of_mem s hs'))
    have hvals : ∀ j ∈ ss.map M.which_cols,
        (List.range (dbm_maxRows naflag M (M.which_cols s) (List.range M.rows)
          mx ff).1.rows).map
          (fun i => av (dbm_maxRows naflag M (M.which_cols s) (List.range M.rows)
            mx ff).1 i j) =
        (List.range M.rows).map (fun i => av M i j) := by
      intro j hj
      obtain ⟨s', hs', hjeq⟩ := List.mem_map.mp hj
      have hjc : j < M.cols := by
        rw [← hjeq]
        exact hWF.hmem s' (hss s' (List.mem_cons_of_mem s hs'))
      rw [s1.1]
      exact List.map_congr_left (fun i hi => a1 i j (List.mem_range.mp hi) hjc)
    simp only [dbm_maxPhase1]
    refine ⟨sameShape_trans s1 s2, avEq_trans s1 a1 a2, w2, hw2.trans hwq, ?_, ?_⟩
    · rw [hdone2, hwq]
      simp [List.reverse_cons, List.append_assoc]
    · have hq1 : (dbm_maxRows naflag M (M.which_cols s) (List.range M.rows)
          mx ff).2.1 =
          (scanPure naflag (fun a b => dlt a b)
            ((List.range M.rows).map (fun i => av M i (M.which_cols s))) mx ff).1 := by
        rw [← hp1]
      have hq2 : (dbm_maxRows naflag M (M.which_cols s) (List.range M.rows)
          mx ff).2.2 =
          (scanPure naflag (fun a b => dlt a b)
            ((List.range M.rows).map (fun i => av M i (M.which_cols s))) mx ff).2 := by
        rw [← hp1]
      simp only [List.map_cons, scanColsPure]
      rw [hp2, hwq, hq1, hq2]
      exact scanColsPure_congr naflag (fun a b => dlt a b) _ _
        (ss.map M.which_cols) _ _ hvals

theorem maxPhase2_spec (naflag : Bool) (done : List Nat) :
    ∀ (js : List Nat) (M : DBM) (mx : D) (ff : Nat),
      WF M → (∀ j ∈ js, j < M.cols) →
      sameShape M (dbm_maxPhase2 naflag done M js mx ff).1 ∧
      avEq M (dbm_maxPhase2 naflag done M js mx ff).1 ∧
      WF (dbm_maxPhase2 naflag done M js mx ff).1 ∧
      ((dbm_maxPhase2 naflag done M js mx ff).2.1,
        (dbm_maxPhase2 naflag done M js mx ff).2.2) =
        scanColsPure naflag (fun a b => dlt a b)
          (fun j => (List.range M.rows).map (fun i => av M i j))
          (js.filter (fun j => decide (¬ j ∈ done))) mx ff := by
  intro js
  induction js with
  | nil =>
    intro M mx ff hWF _
    exact ⟨sameShape_refl M, avEq_refl M, hWF, rfl⟩
  | cons j js ih =>
    intro M mx ff hWF hjs
    have hjc : j < M.cols := hjs j (List.mem_cons_self j js)
    by_cases hjd : j ∈ done
    · simp only [dbm_maxPhase2]
      rw [if_pos hjd]
      obtain ⟨s2, a2, w2, hp2⟩ := ih M mx ff hWF
        (fun j' hj' => hjs j' (List.mem_cons_of_mem j hj'))
      refine ⟨s2, a2, w2, ?_⟩
      rw [hp2]
      simp only [List.filter_cons]
      rw [if_neg (by simp [hjd])]
    · simp only [dbm_maxPhase2]
      rw [if_neg hjd]
      obtain ⟨s1, a1, w1, hp1, _⟩ := maxRows_spec naflag (List.range M.rows) M j
        mx ff hWF hjc (fun i hi => List.mem_range.mp hi)
      obtain ⟨s2, a2, w2, hp2⟩ := ih
        (dbm_maxRows naflag M j (List.range M.rows) mx ff).1
        (dbm_maxRows naflag M j (List.range M.rows) mx ff).2.1
        (dbm_maxRows naflag M j (List.range M.rows) mx ff).2.2 w1
        (fun j' hj' => by
          rw [s1.2.1]
          exact hjs j' (List.mem_cons_of_mem j hj'))
      have hvals : ∀ j' ∈ js.filter (fun j' => decide (¬ j' ∈ done)),
          (List.range (dbm_maxRows naflag M j (List.range M.rows)
            mx ff).1.rows).map
            (fun i => av (dbm_maxRows naflag M j (List.range M.rows)
              mx ff).1 i j') =
          (List.range M.rows).map (fun i => av M i j') := by
        intro j' hj'
        have hjc' : j' < M.cols :=
          hjs j' (List.mem_cons_of_mem j (List.mem_of_mem_filter hj'))
        rw [s1.1]
        exact List.map_congr_left (fun i hi => a1 i j' (List.mem_range.mp hi) hjc')
      have hq1 : (dbm_maxRows naflag M j (List.range M.rows) mx ff).2.1 =
          (scanPure naflag (fun a b => dlt a b)
            ((List.range M.rows).map (fun i => av M i j)) mx ff).1 := by
        rw [← hp1]
      have hq2 : (dbm_maxRows naflag M j (List.range M.rows) mx ff).2.2 =
          (scanPure naflag (fun a b => dlt a b)
            ((List.range M.rows).map (fun i => av M i j)) mx ff).2 := by
        rw [← hp1]
      refine ⟨sameShape_trans s1 s2, avEq_trans s1 a1 a2, w2, ?_⟩
      simp only [List.filter_cons]
      rw [if_pos (by simp [hjd]), hp2]
      simp only [scanColsPure]
      rw [hq1, hq2]
      exact scanColsPure_congr naflag (fun a b => dlt a b) _ _
        (js.filter (fun j' => decide (¬ j' ∈ done))) _ _ hvals

theorem dbm_max_spec (M : DBM) (hWF : WF M) (naflag : Bool) :
    ∃ cs : List Nat,
      (∀ j ∈ cs, j < M.cols) ∧ (∀ j, j < M.cols → j ∈ cs) ∧
      ((dbm_max M naflag).2.1, (dbm_max M naflag).2.2) =
        scanColsPure naflag (fun a b => dlt a b)
          (fun j => (List.range M.rows).map (fun i => av M i j)) cs D.NegInf 0 := by
  unfold dbm_max
  by_cases hmc : M.max_cols < M.cols
  · rw [if_pos hmc]
    dsimp only
    have hlc : lastcol M = M.max_cols := by
      unfold lastcol
      rw [if_neg (by omega)]
    obtain ⟨s1, a1, w1, hw1, hdone1, hp1⟩ := maxPhase1_spec naflag
      (List.range M.max_cols) M D.NegInf 0 [] hWF
      (fun s hs => by rw [hlc]; exact List.mem_range.mp hs)
    set P := dbm_maxPhase1 naflag M (List.range M.max_cols) D.NegInf 0 [] with hP
    obtain ⟨s2, a2, w2, hp2⟩ := maxPhase2_spec naflag P.2.2.2
      (List.range P.1.cols) P.1 P.2.1 P.2.2.1 w1
      (fun j hj => List.mem_range.mp hj)
    refine ⟨((List.range M.max_cols).map M.which_cols) ++
      ((List.range M.cols).filter (fun j => decide (¬ j ∈ P.2.2.2))), ?_, ?_, ?_⟩
    · intro x hx
      rcases List.mem_append.mp hx with hx1 | hx2
      · obtain ⟨s, hs, hsx⟩ := List.mem_map.mp hx1
        rw [← hsx]
        exact hWF.hmem s (by rw [hlc]; exact List.mem_range.mp hs)
      · exact List.mem_range.mp (List.mem_of_mem_filter hx2)
    · intro j hj
      by_cases hjd : j ∈ P.2.2.2
      · refine List.mem_append_left _ ?_
        rw [hdone1] at hjd
        simpa using hjd
      · exact List.mem_append_right _
          (List.mem_filter.mpr ⟨List.mem_range.mpr hj, by simp [hjd]⟩)
    · have hvals : ∀ j' ∈ (List.range P.1.cols).filter
          (fun j => decide (¬ j ∈ P.2.2.2)),
          (List.range P.1.rows).map (fun i => av P.1 i j') =
          (List.range M.rows).map (fun i => av M i j') := by
        intro j' hj'
        have hjc' : j' < M.cols := by
          rw [← s1.2.1]
          exact List.mem_range.mp (List.mem_of_mem_filter hj')
        rw [s1.1]
        exact List.map_congr_left (fun i hi => a1 i j' (List.mem_range.mp hi) hjc')
      have hq1 : P.2.1 = (scanColsPure naflag (fun a b => dlt a b)
          (fun j => (List.range M.rows).map (fun i => av M i j))
          ((List.range M.max_cols).map M.which_cols) D.NegInf 0).1 := by
        rw [← hp1]
      have hq2 : P.2.2.1 = (scanColsPure naflag (fun a b => dlt a b)
          (fun j => (List.range M.rows).map (fun i => av M i j))
          ((List.range M.max_cols).map M.which_cols) D.NegInf 0).2 := by
        rw [← hp1]
      rw [scanColsPure_append, hp2,
        scanColsPure_congr naflag (fun a b => dlt a b) _ _
          ((List.range P.1.cols).filter (fun j => decide (¬ j ∈ P.2.2.2)))
          P.2.1 P.2.2.1 hvals,
        s1.2.1, hq1, hq2]
  · rw [if_neg hmc]
    obtain ⟨s2, a2, w2, hp2⟩ := maxPhase2_spec naflag []
      (List.range M.cols) M D.NegInf 0 hWF (fun j hj => List.mem_range.mp hj)
    exact ⟨(List.range M.cols).filter (fun j => decide (¬ j ∈ ([] : List Nat))),
      fun x hx => List.mem_range.mp (List.mem_of_mem_filter hx),
      fun j hj => List.mem_filter.mpr ⟨List.mem_range.mpr hj, by simp⟩,
      hp2⟩

theorem minRows_spec (naflag : Bool) :
    ∀ (is : List Nat) (M : DBM) (j : Nat) (mx : D) (ff : Nat),
      WF M → j < M.cols → (∀ i ∈ is, i < M.rows) →
      sameShape M (dbm_minRows naflag M j is mx ff).1 ∧
      avEq M (dbm_minRows naflag M j is mx ff).1 ∧
      WF (dbm_minRows naflag M j is mx ff).1 ∧
      ((dbm_minRows naflag M j is mx ff).2.1, (dbm_minRows naflag M j is mx ff).2.2) =
        scanPure naflag (fun a b => dlt b a) (is.map (fun i => av M i j)) mx ff ∧
      (dbm_InColBuffer M j ≠ none →
        (dbm_minRows naflag M j is mx ff).1.which_cols = M.which_cols) := by
  intro is
  induction is with
  | nil =>
    intro M j mx ff hWF hj his
    exact ⟨sameShape_refl M, avEq_refl M, hWF, rfl, fun _ => rfl⟩
  | cons i is ih =>
    intro M j mx ff hWF hj his
    have hi : i < M.rows := his i (List.mem_cons_self i is)
    obtain ⟨s1, a1, w1, hl1, hwc1⟩ := internalGet_spec M i j hWF hi hj
    have hv : readLoc (dbm_internalgetValue M i j).1 (dbm_internalgetValue M i j).2 =
        av M i j := by
      rw [readLoc_eq_av (dbm_internalgetValue M i j).1 (dbm_internalgetValue M i j).2
        i j hl1]
      exact a1 i j hi hj
    have hstep : dbm_minRows naflag M j (i :: is) mx ff =
        if dIsNaN (av M i j) = true ∧ naflag = false then
          ((dbm_internalgetValue M i j).1, D.NaN, ff)
        else if dlt (av M i j) mx = true then
          dbm_minRows naflag (dbm_internalgetValue M i j).1 j is (av M i j) 1
        else dbm_minRows naflag (dbm_internalgetValue M i j).1 j is mx ff := by
      simp only [dbm_minRows]
      rw [hv]
    have hj2 : j < (dbm_internalgetValue M i j).1.cols := by
      rw [s1.2.1]
      exact hj
    have his2 : ∀ i' ∈ is, i' < (dbm_internalgetValue M i j).1.rows := by
      intro i' hi'
      rw [s1.1]
      exact his i' (List.mem_cons_of_mem i hi')
    have hmap : is.map (fun i' => av (dbm_internalgetValue M i j).1 i' j) =
        is.map (fun i' => av M i' j) :=
      List.map_congr_left
        (fun i' hi' => a1 i' j (his i' (List.mem_cons_of_mem i hi')) hj)
    by_cases hc1 : dIsNaN (av M i j) = true ∧ naflag = false
    · rw [hstep, if_pos hc1]
      refine ⟨s1, a1, w1, ?_, fun hnone => hwc1 hnone⟩
      simp only [List.map_cons, scanPure]
      rw [if_pos hc1]
    · rw [hstep, if_neg hc1]
      by_cases hu : dlt (av M i j) mx = true
      · rw [if_pos hu]
        obtain ⟨s2, a2, w2, hp2, hwc2⟩ :=
          ih (dbm_internalgetValue M i j).1 j (av M i j) 1 w1 hj2 his2
        refine ⟨sameShape_trans s1 s2, avEq_trans s1 a1 a2, w2, ?_, ?_⟩
        · rw [hp2, hmap]
          simp only [List.map_cons, scanPure]
          rw [if_neg hc1, if_pos hu]
        · intro hnone
          have hnone2 : dbm_InColBuffer (dbm_internalgetValue M i j).1 j ≠ none := by
            rw [InColBuffer_congr (hwc1 hnone) s1.2.1 s1.2.2.1 j]
            exact hnone
          rw [hwc2 hnone2, hwc1 hnone]
      · rw [if_neg hu]
        obtain ⟨s2, a2, w2, hp2, hwc2⟩ :=
          ih (dbm_internalgetValue M i j).1 j mx ff w1 hj2 his2
        refine ⟨sameShape_trans s1 s2, avEq_trans s1 a1 a2, w2, ?_, ?_⟩
        · rw [hp2, hmap]
          simp only [List.map_cons, scanPure]
          rw [if_neg hc1, if_neg hu]
        · intro hnone
          have hnone2 : dbm_InColBuffer (dbm_internalgetValue M i j).1 j ≠ none := by
            rw [InColBuffer_congr (hwc1 hnone) s1.2.1 s1.2.2.1 j]
            exact hnone
          rw [hwc2 hnone2, hwc1 hnone]

theorem minPhase1_spec (naflag : Bool) :
    ∀ (ss : List Nat) (M : DBM) (mx : D) (ff : Nat) (done : List Nat),
      WF M → (∀ s ∈ ss, s < lastcol M) →
      sameShape M (dbm_minPhase1 naflag M ss mx ff done).1 ∧
      avEq M (dbm_minPhase1 naflag M ss mx ff done).1 ∧
      WF (dbm_minPhase1 naflag M ss mx ff done).1 ∧
      (dbm_minPhase1 naflag M ss mx ff done).1.which_cols = M.which_cols ∧
      (dbm_minPhase1 naflag M ss mx ff done).2.2.2 =
        (ss.map M.which_cols).reverse ++ done ∧
      ((dbm_minPhase1 naflag M ss mx ff done).2.1,
        (dbm_minPhase1 naflag M ss mx ff done).2.2.1) =
        scanColsPure naflag (fun a b => dlt b a)
          (fun j => (List.range M.rows).map (fun i => av M i j))
          (ss.map M.which_cols) mx ff := by
  intro ss
  induction ss with
  | nil =>
    intro M mx ff done hWF _
    exact ⟨sameShape_refl M, avEq_refl M, hWF, rfl, by simp [dbm_minPhase1], rfl⟩
  | cons s ss ih =>
    intro M mx ff done hWF hss
    have hs : s < lastcol M := hss s (List.mem_cons_self s ss)
    have hc : M.which_cols s < M.cols := hWF.hmem s hs
    obtain ⟨s1, a1, w1, hp1, hwc1⟩ := minRows_spec naflag (List.range M.rows) M
      (M.which_cols s) mx ff hWF hc (fun i hi => List.mem_range.mp hi)
    have hwq : (dbm_minRows naflag M (M.which_cols s) (List.range M.rows)
        mx ff).1.which_cols = M.which_cols := hwc1 (cached_ne_none M s hs)
    obtain ⟨s2, a2, w2, hw2, hdone2, hp2⟩ := ih
      (dbm_minRows naflag M (M.which_cols s) (List.range M.rows) mx ff).1
      (dbm_minRows naflag M (M.which_cols s) (List.range M.rows) mx ff).2.1
      (dbm_minRows naflag M (M.which_cols s) (List.range M.rows) mx ff).2.2
      (M.which_cols s :: done) w1
      (fun s' hs' => by
        rw [lastcol_eq_of_sameShape s1]
        exact hss s' (List.mem_cons_of_mem s hs'))
    have hvals : ∀ j ∈ ss.map M.which_cols,
        (List.range (dbm_minRows naflag M (M.which_cols s) (List.range M.rows)
          mx ff).1.rows).map
          (fun i => av (dbm_minRows naflag M (M.which_cols s) (List.range M.rows)
            mx ff).1 i j) =
        (List.range M.rows).map (fun i => av M i j) := by
      intro j hj
      obtain ⟨s', hs', hjeq⟩ := List.mem_map.mp hj
      have hjc : j < M.cols := by
        rw [← hjeq]
        exact hWF.hmem s' (hss s' (List.mem_cons_of_mem s hs'))
      rw [s1.1]
      exact List.map_congr_left (fun i hi => a1 i j (List.mem_range.mp hi) hjc)
    simp only [dbm_minPhase1]
    refine ⟨sameShape_trans s1 s2, avEq_trans s1 a1 a2, w2, hw2.trans hwq, ?_, ?_⟩
    · rw [hdone2, hwq]
      simp [List.reverse_cons, List.append_assoc]
    · have hq1 : (dbm_minRows naflag M (M.which_cols s) (List.range M.rows)
          mx ff).2.1 =
          (scanPure naflag (fun a b => dlt b a)
            ((List.range M.rows).map (fun i => av M i (M.which_cols s))) mx ff).1 := by
        rw [← hp1]
      have hq2 : (dbm_minRows naflag M (M.which_cols s) (List.range M.rows)
          mx ff).2.2 =
          (scanPure naflag (fun a b => dlt b a)
            ((List.range M.rows).map (fun i => av M i (M.which_cols s))) mx ff).2 := by
        rw [← hp1]
      simp only [List.map_cons, scanColsPure]
      rw [hp2, hwq, hq1, hq2]
      exact scanColsPure_congr naflag (fun a b => dlt b a) _ _
        (ss.map M.which_cols) _ _ hvals

theorem minPhase2_spec (naflag : Bool) (done : List Nat) :
    ∀ (js : List Nat) (M : DBM) (mx : D) (ff : Nat),
      WF M → (∀ j ∈ js, j < M.cols) →
      sameShape M (dbm_minPhase2 naflag done M js mx ff).1 ∧
      avEq M (dbm_minPhase2 naflag done M js mx ff).1 ∧
      WF (dbm_minPhase2 naflag done M js mx ff).1 ∧
      ((dbm_minPhase2 naflag done M js mx ff).2.1,
        (dbm_minPhase2 naflag done M js mx ff).2.2) =
        scanColsPure naflag (fun a b => dlt b a)
          (fun j => (List.range M.rows).map (fun i => av M i j))
          (js.filter (fun j => decide (¬ j ∈ done))) mx ff := by
  intro js
  induction js with
  | nil =>
    intro M mx ff hWF _
    exact ⟨sameShape_refl M, avEq_refl M, hWF, rfl⟩
  | cons j js ih =>
    intro M mx ff hWF hjs
    have hjc : j < M.cols := hjs j (List.mem_cons_self j js)
    by_cases hjd : j ∈ done
    · simp only [dbm_minPhase2]
      rw [if_pos hjd]
      obtain ⟨s2, a2, w2, hp2⟩ := ih M mx ff hWF
        (fun j' hj' => hjs j' (List.mem_cons_of_mem j hj'))
      refine ⟨s2, a2, w2, ?_⟩
      rw [hp2]
      simp only [List.filter_cons]
      rw [if_neg (by simp [hjd])]
    · simp only [dbm_minPhase2]
      rw [if_neg hjd]
      obtain ⟨s1, a1, w1, hp1, _⟩ := minRows_spec naflag (List.range M.rows) M j
        mx ff hWF hjc (fun i hi => List.mem_range.mp hi)
      obtain ⟨s2, a2, w2, hp2⟩ := ih
        (dbm_minRows naflag M j (List.range M.rows) mx ff).1
        (dbm_minRows naflag M j (List.range M.rows) mx ff).2.1
        (dbm_minRows naflag M j (List.range M.rows) mx ff).2.2 w1
        (fun j' hj' => by
          rw [s1.2.1]
          exact hjs j' (List.mem_cons_of_mem j hj'))
      have hvals : ∀ j' ∈ js.filter (fun j' => decide (¬ j' ∈ done)),
          (List.range (dbm_minRows naflag M j (List.range M.rows)
            mx ff).1.rows).map
            (fun i => av (dbm_minRows naflag M j (List.range M.rows)
              mx ff).1 i j') =
          (List.range M.rows).map (fun i => av M i j') := by
        intro j' hj'
        have hjc' : j' < M.cols :=
          hjs j' (List.mem_cons_of_mem j (List.mem_of_mem_filter hj'))
        rw [s1.1]
        exact List.map_congr_left (fun i hi => a1 i j' (List.mem_range.mp hi) hjc')
      have hq1 : (dbm_minRows naflag M j (List.range M.rows) mx ff).2.1 =
          (scanPure naflag (fun a b => dlt b a)
            ((List.range M.rows).map (fun i => av M i j)) mx ff).1 := by
        rw [← hp1]
      have hq2 : (dbm_minRows naflag M j (List.range M.rows) mx ff).2.2 =
          (scanPure naflag (fun a b => dlt b a)
            ((List.range M.rows).map (fun i => av M i j)) mx ff).2 := by
        rw [← hp1]
      refine ⟨sameShape_trans s1 s2, avEq_trans s1 a1 a2, w2, ?_⟩
      simp only [List.filter_cons]
      rw [if_pos (by simp [hjd]), hp2]
      simp only [scanColsPure]
      rw [hq1, hq2]
      exact scanColsPure_congr naflag (fun a b => dlt b a) _ _
        (js.filter (fun j' => decide (¬ j' ∈ done))) _ _ hvals

theorem dbm_min_spec (M : DBM) (hWF : WF M) (naflag : Bool) :
    ∃ cs : List Nat,
      (∀ j ∈ cs, j < M.cols) ∧ (∀ j, j < M.cols → j ∈ cs) ∧
      ((dbm_min M naflag).2.1, (dbm_min M naflag).2.2) =
        scanColsPure naflag (fun a b => dlt b a)
          (fun j => (List.range M.rows).map (fun i => av M i j)) cs D.PosInf 0 := by
  unfold dbm_min
  by_cases hmc : M.max_cols < M.cols
  · rw [if_pos hmc]
    dsimp only
    have hlc : lastcol M = M.max_cols := by
      unfold lastcol
      rw [if_neg (by omega)]
    obtain ⟨s1, a1, w1, hw1, hdone1, hp1⟩ := minPhase1_spec naflag
      (List.range M.max_cols) M D.PosInf 0 [] hWF
      (fun s hs => by rw [hlc]; exact List.mem_range.mp hs)
    set P := dbm_minPhase1 naflag M (List.range M.max_cols) D.PosInf 0 [] with hP
    obtain ⟨s2, a2, w2, hp2⟩ := minPhase2_spec naflag P.2.2.2
      (List.range P.1.cols) P.1 P.2.1 P.2.2.1 w1
      (fun j hj => List.mem_range.mp hj)
    refine ⟨((List.range M.max_cols).map M.which_cols) ++
      ((List.range M.cols).filter (fun j => decide (¬ j ∈ P.2.2.2))), ?_, ?_, ?_⟩
    · intro x hx
      rcases List.mem_append.mp hx with hx1 | hx2
      · obtain ⟨s, hs, hsx⟩ := List.mem_map.mp hx1
        rw [← hsx]
        exact hWF.hmem s (by rw [hlc]; exact List.mem_range.mp hs)
      · exact List.mem_range.mp (List.mem_of_mem_filter hx2)
    · intro j hj
      by_cases hjd : j ∈ P.2.2.2
      · refine List.mem_append_left _ ?_
        rw [hdone1] at hjd
        simpa using hjd
      · exact List.mem_append_right _
          (List.mem_filter.mpr ⟨List.mem_range.mpr hj, by simp [hjd]⟩)
    · have hvals : ∀ j' ∈ (List.range P.1.cols).filter
          (fun j => decide (¬ j ∈ P.2.2.2)),
          (List.range P.1.rows).map (fun i => av P.1 i j') =
          (List.range M.rows).map (fun i => av M i j') := by
        intro j' hj'
        have hjc' : j' < M.cols := by
          rw [← s1.2.1]
          exact List.mem_range.mp (List.mem_of_mem_filter hj')
        rw [s1.1]
        exact List.map_congr_left (fun i hi => a1 i j' (List.mem_range.mp hi) hjc')
      have hq1 : P.2.1 = (scanColsPure naflag (fun a b => dlt b a)
          (fun j => (List.range M.rows).map (fun i => av M i j))
          ((List.range M.max_cols).map M.which_cols) D.PosInf 0).1 := by
        rw [← hp1]
      have hq2 : P.2.2.1 = (scanColsPure naflag (fun a b => dlt b a)
          (fun j => (List.range M.rows).map (fun i => av M i j))
          ((List.range M.max_cols).map M.which_cols) D.PosInf 0).2 := by
        rw [← hp1]
      rw [scanColsPure_append, hp2,
        scanColsPure_congr naflag (fun a b => dlt b a) _ _
          ((List.range P.1.cols).filter (fun j => decide (¬ j ∈ P.2.2.2)))
          P.2.1 P.2.2.1 hvals,
        s1.2.1, hq1, hq2]
  · rw [if_neg hmc]
    obtain ⟨s2, a2, w2, hp2⟩ := minPhase2_spec naflag []
      (List.range M.cols) M D.PosInf 0 hWF (fun j hj => List.mem_range.mp hj)
    exact ⟨(List.range M.cols).filter (fun j => decide (¬ j ∈ ([] : List Nat))),
      fun x hx => List.mem_range.mp (List.mem_of_mem_filter hx),
      fun j hj => List.mem_filter.mpr ⟨List.mem_range.mpr hj, by simp⟩,
      hp2⟩

/-- C8 (amended): for the whole-matrix extremes, a NaN cell with
`ignore_na` unset makes both results NaN; with `ignore_na` set, when no cell
compares above `-inf` (resp. below `+inf`) — i.e. every cell is NaN or the
starting infinity itself — `dbm_max` returns `-inf` (resp. `dbm_min`
returns `+inf`) with `foundfinite = 0`; and `foundfinite` is set exactly
when some cell compares strictly above `-inf` (resp. below `+inf`), a test
that `+inf` (resp. `-inf`) passes even though it is not finite. -/
theorem C8_extreme_scan (M : DBM) (hWF : WF M) :
    ((∃ r, r < M.rows ∧ ∃ c, c < M.cols ∧ dIsNaN (av M r c) = true) →
      (dbm_max M false).2.1 = D.NaN ∧ (dbm_min M false).2.1 = D.NaN) ∧
    ((∀ r, r < M.rows → ∀ c, c < M.cols → dlt D.NegInf (av M r c) = false) →
      (dbm_max M true).2.1 = D.NegInf ∧ (dbm_max M true).2.2 = 0) ∧
    ((∀ r, r < M.rows → ∀ c, c < M.cols → dlt (av M r c) D.PosInf = false) →
      (dbm_min M true).2.1 = D.PosInf ∧ (dbm_min M true).2.2 = 0) ∧
    ((dbm_max M true).2.2 = 1 ↔
      ∃ r, r < M.rows ∧ ∃ c, c < M.cols ∧ dlt D.NegInf (av M r c) = true) ∧
    ((dbm_min M true).2.2 = 1 ↔
      ∃ r, r < M.rows ∧ ∃ c, c < M.cols ∧ dlt (av M r c) D.PosInf = true) := by
  have hnanmax : ∀ v, (fun a b => dlt a b) D.NaN v = false := by
    intro v
    cases v <;> rfl
  have hnanmin : ∀ v, (fun a b => dlt b a) D.NaN v = false := by
    intro v
    cases v <;> rfl
  refine ⟨?_, ?_, ?_, ?_, ?_⟩
  · intro hex
    obtain ⟨r, hr, c, hc, hnn⟩ := hex
    constructor
    · obtain ⟨cs, hb, hcov, hp⟩ := dbm_max_spec M hWF false
      have h1 : (dbm_max M false).2.1 =
          (scanColsPure false (fun a b => dlt a b)
            (fun j => (List.range M.rows).map (fun i => av M i j))
            cs D.NegInf 0).1 := by
        rw [← hp]
      rw [h1]
      exact scanColsPure_nan (fun a b => dlt a b) hnanmax _ cs D.NegInf 0
        (Or.inl ⟨c, hcov c hc, av M r c,
          List.mem_map.mpr ⟨r, List.mem_range.mpr hr, rfl⟩, hnn⟩)
    · obtain ⟨cs, hb, hcov, hp⟩ := dbm_min_spec M hWF false
      have h1 : (dbm_min M false).2.1 =
          (scanColsPure false (fun a b => dlt b a)
            (fun j => (List.range M.rows).map (fun i => av M i j))
            cs D.PosInf 0).1 := by
        rw [← hp]
      rw [h1]
      exact scanColsPure_nan (fun a b => dlt b a) hnanmin _ cs D.PosInf 0
        (Or.inl ⟨c, hcov c hc, av M r c,
          List.mem_map.mpr ⟨r, List.mem_range.mpr hr, rfl⟩, hnn⟩)
  · intro hall
    obtain ⟨cs, hb, hcov, hp⟩ := dbm_max_spec M hWF true
    have hconst : scanColsPure true (fun a b => dlt a b)
        (fun j => (List.range M.rows).map (fun i => av M i j))
        cs D.NegInf 0 = (D.NegInf, 0) := by
      refine scanColsPure_const (fun a b => dlt a b) D.NegInf _ cs ?_
      intro j hj v hv
      obtain ⟨i, hi, hiv⟩ := List.mem_map.mp hv
      rw [← hiv]
      exact hall i (List.mem_range.mp hi) j (hb j hj)
    rw [hconst] at hp
    exact ⟨congrArg Prod.fst hp, congrArg Prod.snd hp⟩
  · intro hall
    obtain ⟨cs, hb, hcov, hp⟩ := dbm_min_spec M hWF true
    have hconst : scanColsPure true (fun a b => dlt b a)
        (fun j => (List.range M.rows).map (fun i => av M i j))
        cs D.PosInf 0 = (D.PosInf, 0) := by
      refine scanColsPure_const (fun a b => dlt b a) D.PosInf _ cs ?_
      intro j hj v hv
      obtain ⟨i, hi, hiv⟩ := List.mem_map.mp hv
      rw [← hiv]
      exact hall i (List.mem_range.mp hi) j (hb j hj)
    rw [hconst] at hp
    exact ⟨congrArg Prod.fst hp, congrArg Prod.snd hp⟩
  · obtain ⟨cs, hb, hcov, hp⟩ := dbm_max_spec M hWF true
    have h2 : (dbm_max M true).2.2 =
        (scanColsPure true (fun a b => dlt a b)
          (fun j => (List.range M.rows).map (fun i => av M i j))
          cs D.NegInf 0).2 := by
      rw [← hp]
    constructor
    · intro hff
      by_contra hnex
      push_neg at hnex
      have hall : ∀ r, r < M.rows → ∀ c, c < M.cols →
          dlt D.NegInf (av M r c) = false := by
        intro r hr c hc
        have := hnex r hr c hc
        revert this
        cases dlt D.NegInf (av M r c)
        · intro _; rfl
        · intro hcon; exact absurd rfl hcon
      have hconst : scanColsPure true (fun a b => dlt a b)
          (fun j => (List.range M.rows).map (fun i => av M i j))
          cs D.NegInf 0 = (D.NegInf, 0) := by
        refine scanColsPure_const (fun a b => dlt a b) D.NegInf _ cs ?_
        intro j hj v hv
        obtain ⟨i, hi, hiv⟩ := List.mem_map.mp hv
        rw [← hiv]
        exact hall i (List.mem_range.mp hi) j (hb j hj)
      rw [h2, hconst] at hff
      exact absurd hff (by simp)
    · intro hex
      obtain ⟨r, hr, c, hc, hv⟩ := hex
      rw [h2]
      exact scanColsPure_ff_hit (fun a b => dlt a b) D.NegInf _ cs D.NegInf 0
        (Or.inl ⟨rfl, rfl⟩)
        ⟨c, hcov c hc, av M r c,
          List.mem_map.mpr ⟨r, List.mem_range.mpr hr, rfl⟩, hv⟩
  · obtain ⟨cs, hb, hcov, hp⟩ := dbm_min_spec M hWF true
    have h2 : (dbm_min M true).2.2 =
        (scanColsPure true (fun a b => dlt b a)
          (fun j => (List.range M.rows).map (fun i => av M i j))
          cs D.PosInf 0).2 := by
      rw [← hp]
    constructor
    · intro hff
      by_contra hnex
      push_neg at hnex
      have hall : ∀ r, r < M.rows → ∀ c, c < M.cols →
          dlt (av M r c) D.PosInf = false := by
        intro r hr c hc
        have := hnex r hr c hc
        revert this
        cases dlt (av M r c) D.PosInf
        · intro _; rfl
        · intro hcon; exact absurd rfl hcon
      have hconst : scanColsPure true (fun a b => dlt b a)
          (fun j => (List.range M.rows).map (fun i => av M i j))
          cs D.PosInf 0 = (D.PosInf, 0) := by
        refine scanColsPure_const (fun a b => dlt b a) D.PosInf _ cs ?_
        intro j hj v hv
        obtain ⟨i, hi, hiv⟩ := List.mem_map.mp hv
        rw [← hiv]
        exact hall i (List.mem_range.mp hi) j (hb j hj)
      rw [h2, hconst] at hff
      exact absurd hff (by simp)
    · intro hex
      obtain ⟨r, hr, c, hc, hv⟩ := hex
      rw [h2]
      exact scanColsPure_ff_hit (fun a b => dlt b a) D.PosInf _ cs D.PosInf 0
        (Or.inl ⟨rfl, rfl⟩)
        ⟨c, hcov c hc, av M r c,
          List.mem_map.mpr ⟨r, List.mem_range.mpr hr, rfl⟩, hv⟩

/-- Witness for C8 at the all-`+inf` matrix `exM8`: `dbm_min` keeps `+inf`
with `foundfinite = 0`, while the `foundfinite` characterization holds for
`dbm_max`. -/
theorem C8_extreme_scan_witness :
    ((dbm_min exM8 true).2.1 = D.PosInf ∧ (dbm_min exM8 true).2.2 = 0) ∧
    ((dbm_max exM8 true).2.2 = 1 ↔
      ∃ r, r < exM8.rows ∧ ∃ c, c < exM8.cols ∧
        dlt D.NegInf (av exM8 r c) = true) := by
  have h := C8_extreme_scan exM8 (by constructor <;> decide)
  exact ⟨h.2.2.1 (by decide), h.2.2.2.1⟩
